import Mathlib

/-!
# Per-node engine of the Gallager-Humblet-Spira minimum spanning tree program

A shallow embedding of `MST_GHS_algorithm.go`.  The function `server` of the
source keeps its whole state in local variables and changes it in the body of
one receive loop; here that state is the record `NodeState`, one iteration of
the loop is `server_step`, and every `go send(...)` is recorded, in program
order, as a `Packet` in the list a step returns.  `os.Exit` and run-time
panics are the `Fault` results of `Except`.

Go's `int` is 64 bits wide: additions and subtractions go through `wrapInt`.
Go's maps are association lists, `statusEdge` being read with the default `""`.
The iteration order of a Go map is unspecified: wherever the source ranges over
a map (procedure `test`, `deleteDuplicatesAndReturnOne`) the order in which the
entries are visited is a parameter.  Logging, the pauses of `time.Sleep` and
the transport itself (`send`, `ln.Accept`) are outside the embedding: a step
takes the sender `j` and the text `message` the listener hands over.
-/

namespace GHS

/-! ## Go library functions used by the source -/

/-- Two's complement reduction of an integer to the range of Go's 64-bit `int`. -/
def wrapInt (x : Int) : Int := (x + 9223372036854775808) % 18446744073709551616 - 9223372036854775808

/-- Go's `a + b` on `int`. -/
def goAdd (a b : Int) : Int := wrapInt (a + b)

/-- Go's `a - b` on `int`. -/
def goSub (a b : Int) : Int := wrapInt (a - b)

/-- Go's `strings.Split(s, ",")` on the characters of `s`; `acc` holds the
current field reversed. -/
def splitAux : List Char → List Char → List String
  | [], acc => [String.mk acc.reverse]
  | c :: cs, acc =>
    if c = ',' then String.mk acc.reverse :: splitAux cs [] else splitAux cs (c :: acc)

/-- Go's `strings.Split(message, ",")`. -/
def strings_Split (message : String) : List String := splitAux message.data []

/-- Value of a decimal digit character, `none` for any other character. -/
def digitVal (c : Char) : Option Nat :=
  if 48 ≤ c.toNat ∧ c.toNat ≤ 57 then some (c.toNat - 48) else none

/-- The digit loop of `strconv.ParseUint` in base 10 for 64 bits, from the
value `acc` on: `none` at the first character that is not a digit (syntax
error); the greatest `uint64`, at once, when the value read so far leaves
`uint64` (range error). -/
def readDigits : List Char → Nat → Option Nat
  | [], acc => some acc
  | c :: cs, acc =>
    match digitVal c with
    | some d =>
      if 18446744073709551615 < acc * 10 + d then some 18446744073709551615
      else readDigits cs (acc * 10 + d)
    | none => none

/-- Magnitude part of `strconv.Atoi`: a non-empty run of digits. -/
def readMagnitude (cs : List Char) : Option Nat :=
  match cs with
  | [] => none
  | _ :: _ => readDigits cs 0

/-- Sign part of `strconv.Atoi`: whether the text starts with `-`. -/
def atoiNeg : List Char → Bool
  | '-' :: _ => true
  | _ => false

/-- Sign part of `strconv.Atoi`: the text after one leading `-` or `+`. -/
def atoiBody : List Char → List Char
  | '-' :: cs => cs
  | '+' :: cs => cs
  | cs => cs

/-- Go's `strconv.Atoi` for a 64-bit `int`: the value and whether the error
result is non-nil.  A syntax error gives the value 0, a range error gives the
nearest bound of `int`.  The fast path of `Atoi` (fewer than 19 bytes) and its
slow path through `ParseInt` agree with this single definition. -/
def Atoi (s : String) : Int × Bool :=
  let neg : Bool := atoiNeg s.data
  let body : List Char := atoiBody s.data
  match readMagnitude body with
  | none => (0, true)
  | some v =>
    if neg then
      if 9223372036854775808 < v then (-9223372036854775808, true) else (-(v : Int), false)
    else
      if 9223372036854775808 ≤ v then (9223372036854775807, true) else ((v : Int), false)

/-- Character of a decimal digit `d < 10`. -/
def digitChar (d : Nat) : Char := Char.ofNat (48 + d)

/-- Decimal digits of `n`, most significant first, by recursion on `fuel`. -/
def natDigits : Nat → Nat → List Char
  | 0, _ => []
  | fuel + 1, n =>
    if n < 10 then [digitChar n] else natDigits fuel (n / 10) ++ [digitChar (n % 10)]

/-- Go's `strconv.Itoa`. -/
def Itoa (i : Int) : String :=
  match i with
  | Int.ofNat n => String.mk (natDigits (n + 1) n)
  | Int.negSucc n => String.mk ('-' :: natDigits (n + 2) (n + 1))

/-! ## Data model -/

/-- One entry of the `neighbours` sequence of `yamlConfig`. -/
structure Neighbour where
  ID : Int
  Address : String
  EdgeWeight : Int
  deriving DecidableEq, Repr

/-- The parsed neighbour description of one node (`yamlConfig`). -/
structure yamlConfig where
  ID : Int
  Address : String
  Neighbours : List Neighbour
  deriving DecidableEq, Repr

/-- One call `send(message, nodeAddress, neighAddress)`: `message` goes from
the local address `nodeAddress` to the listener of `neighAddress`. -/
structure Packet where
  message : String
  nodeAddress : String
  neighAddress : String
  deriving DecidableEq, Repr

/-- Ways in which the program stops abnormally. -/
inductive Fault where
  | exit (code : Int)
  | indexOutOfRange
  deriving DecidableEq, Repr

def BASIC : String := "Basic"
def BRANCH : String := "Branch"
def REJECTED : String := "Rejected"

def SLEEPING : String := "Sleeping"
def FOUND : String := "Found"
def FIND : String := "Find"

/-- The constant `math.MaxInt64`. -/
def INFINITY : Int := 9223372036854775807

/-- A Go map as the list of its entries, each key at most once. -/
abbrev GoMap (κ ν : Type) := List (κ × ν)

/-- Map assignment `m[k] = v`: replaces the entry of `k`, or adds one. -/
def mapSet {κ ν : Type} [DecidableEq κ] : GoMap κ ν → κ → ν → GoMap κ ν
  | [], k, v => [(k, v)]
  | (k0, v0) :: rest, k, v =>
    if k0 = k then (k, v) :: rest else (k0, v0) :: mapSet rest k v

/-- Index expression `statusEdge[k]`: the zero value `""` for a missing key. -/
def edgeGet : GoMap String String → String → String
  | [], _ => ""
  | (k0, v0) :: rest, k => if k0 = k then v0 else edgeGet rest k

/-- The local variables of `server` that outlive one loop iteration. -/
structure NodeState where
  terminated : Bool
  statusEdge : GoMap String String
  levelNode : Int
  state : String
  findCount : Int
  fragmentNode : Int
  parent : String
  bestWt : Int
  bestNode : String
  testNode : String
  deriving DecidableEq, Repr

/-- An iteration order for the entries of a `map[string]int`. -/
abbrev MapOrder := GoMap String Int → GoMap String Int

/-! ## Utility functions -/

/-- Loop of `getLeastWeightEdge`: `i` is the index of the next entry. -/
def getLeastWeightEdgeLoop : List Neighbour → Nat → Int → String → String × Int
  | [], _, min, leastNeighbour => (leastNeighbour, min)
  | neighbour :: rest, i, min, leastNeighbour =>
    if i = 0 ∨ neighbour.EdgeWeight < min then
      getLeastWeightEdgeLoop rest (i + 1) neighbour.EdgeWeight neighbour.Address
    else
      getLeastWeightEdgeLoop rest (i + 1) min leastNeighbour

def getLeastWeightEdge (node : yamlConfig) : String × Int :=
  getLeastWeightEdgeLoop node.Neighbours 0 0 ""

/-- Loop of `getWeight`; running off the end is `os.Exit(-1)`. -/
def getWeightLoop (address : String) : List Neighbour → Except Fault Int
  | [] => Except.error (Fault.exit (-1))
  | neighbour :: rest =>
    if address = neighbour.Address then Except.ok neighbour.EdgeWeight
    else getWeightLoop address rest

def getWeight (address : String) (node : yamlConfig) : Except Fault Int :=
  getWeightLoop address node.Neighbours

/-! ## The procedures of `server` -/

/-- The value of every local variable of `server` just before `(1) WakeUp`. -/
def initState (node : yamlConfig) : NodeState :=
  { terminated := false
    statusEdge := node.Neighbours.foldl (fun m neighbour => mapSet m neighbour.Address BASIC) []
    levelNode := 0
    state := SLEEPING
    findCount := 0
    fragmentNode := -1
    parent := ""
    bestWt := 0
    bestNode := ""
    testNode := "" }

/-- Procedure `report`. -/
def report (node : yamlConfig) (st : NodeState) : NodeState × List Packet :=
  if st.findCount = 0 ∧ st.testNode = "" then
    ({ st with state := FOUND }, [⟨"Report," ++ Itoa st.bestWt, node.Address, st.parent⟩])
  else
    (st, [])

/-- First loop of procedure `test`: the map of the `BASIC` neighbours. -/
def testCollect (statusEdge : GoMap String String) :
    List Neighbour → GoMap String Int → GoMap String Int
  | [], mapNeighbours => mapNeighbours
  | neighbour :: rest, mapNeighbours =>
    if edgeGet statusEdge neighbour.Address = BASIC then
      testCollect statusEdge rest (mapSet mapNeighbours neighbour.Address neighbour.EdgeWeight)
    else
      testCollect statusEdge rest mapNeighbours

/-- Second loop of procedure `test`, over the entries in the order they are visited. -/
def testSelect : List (String × Int) → Nat → Int → String → String × Int
  | [], _, min, leastNeighbour => (leastNeighbour, min)
  | (key, value) :: rest, i, min, leastNeighbour =>
    if i = 0 ∨ value < min then testSelect rest (i + 1) value key
    else testSelect rest (i + 1) min leastNeighbour

/-- Procedure `test`; `order` is the order in which `range mapNeighbours` visits
the entries. -/
def test (order : MapOrder) (node : yamlConfig) (st : NodeState) : NodeState × List Packet :=
  let mapNeighbours := testCollect st.statusEdge node.Neighbours []
  let leastNeighbour := (testSelect (order mapNeighbours) 0 0 "").1
  if leastNeighbour ≠ "" then
    ({ st with testNode := leastNeighbour },
      [⟨"Test," ++ Itoa st.levelNode ++ "," ++ Itoa st.fragmentNode, node.Address, leastNeighbour⟩])
  else
    report node { st with testNode := "" }

/-- Procedure `changeRoot`. -/
def changeRoot (node : yamlConfig) (st : NodeState) : NodeState × List Packet :=
  if edgeGet st.statusEdge st.bestNode = BRANCH then
    (st, [⟨"ChangeRoot,", node.Address, st.bestNode⟩])
  else
    ({ st with statusEdge := mapSet st.statusEdge st.bestNode BRANCH },
      [⟨"Connect," ++ Itoa st.levelNode, node.Address, st.bestNode⟩])

/-- Procedure `wait`: after the pause, `send(m, j, node.Address)`. -/
def wait (node : yamlConfig) (st : NodeState) (m j : String) : NodeState × List Packet :=
  (st, [⟨m, j, node.Address⟩])

/-- The block `(1) WakeUp`. -/
def wakeUp (node : yamlConfig) (st : NodeState) : NodeState × List Packet :=
  let m := (getLeastWeightEdge node).1
  let st1 := { st with
    statusEdge := mapSet st.statusEdge m BRANCH
    levelNode := 0
    state := FOUND
    findCount := 0 }
  (st1, [⟨"Connect," ++ Itoa st1.levelNode, node.Address, m⟩])

/-! ## One iteration of the receive loop -/

/-- Index expression `message_splitted[i]`, a run-time panic when out of range. -/
def index (message_splitted : List String) (i : Nat) : Except Fault String :=
  match message_splitted.get? i with
  | some field => Except.ok field
  | none => Except.error Fault.indexOutOfRange

/-- Body of `case "Connect"`, after `L` has been read. -/
def server_Connect (node : yamlConfig) (st : NodeState) (j message : String) (L : Int) :
    Except Fault (NodeState × List Packet) :=
  if L < st.levelNode then
    let st1 := { st with statusEdge := mapSet st.statusEdge j BRANCH }
    let out : List Packet :=
      [⟨"Initiate," ++ Itoa st1.levelNode ++ "," ++ Itoa st1.fragmentNode ++ "," ++ st1.state,
        node.Address, j⟩]
    if st1.state = FIND then
      Except.ok ({ st1 with findCount := goAdd st1.findCount 1 }, out)
    else
      Except.ok (st1, out)
  else if edgeGet st.statusEdge j = BASIC then
    Except.ok (wait node st message j)
  else
    match getWeight j node with
    | Except.error f => Except.error f
    | Except.ok weight =>
      Except.ok (st,
        [⟨"Initiate," ++ Itoa (goAdd st.levelNode 1) ++ "," ++ Itoa weight ++ "," ++ FIND,
          node.Address, j⟩])

/-- Loop of `case "Initiate"` over `node.Neighbours`. -/
def initiateLoop (node : yamlConfig) (j : String) :
    List Neighbour → NodeState → NodeState × List Packet
  | [], st => (st, [])
  | r :: rest, st =>
    if edgeGet st.statusEdge r.Address = BRANCH ∧ r.Address ≠ j then
      let sent : Packet :=
        ⟨"Initiate," ++ Itoa st.levelNode ++ "," ++ Itoa st.fragmentNode ++ "," ++ st.state,
          node.Address, r.Address⟩
      let st1 := if st.state = FIND then { st with findCount := goAdd st.findCount 1 } else st
      let next := initiateLoop node j rest st1
      (next.1, sent :: next.2)
    else
      initiateLoop node j rest st

/-- Body of `case "Initiate"`, after the three fields have been read. -/
def server_Initiate (order : MapOrder) (node : yamlConfig) (st : NodeState) (j : String)
    (L F : Int) (S : String) : NodeState × List Packet :=
  let st1 := { st with
    levelNode := L
    fragmentNode := F
    state := S
    parent := j
    bestNode := ""
    bestWt := INFINITY }
  let looped := initiateLoop node j node.Neighbours st1
  if looped.1.state = FIND then
    let tested := test order node looped.1
    (tested.1, looped.2 ++ tested.2)
  else
    looped

/-- Body of `case "Test"`, after `L` and `F` have been read. -/
def server_Test (order : MapOrder) (node : yamlConfig) (st : NodeState) (j message : String)
    (L F : Int) : NodeState × List Packet :=
  if L > st.levelNode then
    wait node st message j
  else if F ≠ st.fragmentNode then
    (st, [⟨"Accept", node.Address, j⟩])
  else
    let st1 :=
      if edgeGet st.statusEdge j = BASIC then
        { st with statusEdge := mapSet st.statusEdge j REJECTED }
      else st
    if st1.testNode ≠ j then
      (st1, [⟨"Reject", node.Address, j⟩])
    else
      test order node st1

/-- Body of `case "Accept"`. -/
def server_Accept (node : yamlConfig) (st : NodeState) (j : String) :
    Except Fault (NodeState × List Packet) :=
  let st1 := { st with testNode := "" }
  match getWeight j node with
  | Except.error f => Except.error f
  | Except.ok jWeight =>
    let st2 := if jWeight < st1.bestWt then { st1 with bestNode := j, bestWt := jWeight } else st1
    Except.ok (report node st2)

/-- Body of `case "Reject"`. -/
def server_Reject (order : MapOrder) (node : yamlConfig) (st : NodeState) (j : String) :
    NodeState × List Packet :=
  let st1 :=
    if edgeGet st.statusEdge j = BASIC then
      { st with statusEdge := mapSet st.statusEdge j REJECTED }
    else st
  test order node st1

/-- Body of `case "Report"`, after `w` has been read. -/
def server_Report (node : yamlConfig) (st : NodeState) (j message : String) (w : Int) :
    NodeState × List Packet :=
  if j ≠ st.parent then
    let st1 := { st with findCount := goSub st.findCount 1 }
    let st2 := if w < st1.bestWt then { st1 with bestWt := w, bestNode := j } else st1
    report node st2
  else if st.state = FIND then
    wait node st message j
  else if w > st.bestWt then
    changeRoot node st
  else if w = st.bestWt ∧ w = INFINITY then
    ({ st with terminated := true }, [])
  else
    (st, [])

/-- One iteration of the loop `for !terminated`, from the received `message` and
its sender `j` on: the split, the `switch` on the first field and the selected
case.  `order` is the map iteration order procedure `test` meets, if it runs. -/
def server_step (order : MapOrder) (node : yamlConfig) (st : NodeState) (j message : String) :
    Except Fault (NodeState × List Packet) :=
  let message_splitted := strings_Split message
  match index message_splitted 0 with
  | Except.error f => Except.error f
  | Except.ok kind =>
    if kind = "Connect" then
      match index message_splitted 1 with
      | Except.error f => Except.error f
      | Except.ok a => server_Connect node st j message (Atoi a).1
    else if kind = "Initiate" then
      match index message_splitted 1 with
      | Except.error f => Except.error f
      | Except.ok a =>
        match index message_splitted 2 with
        | Except.error f => Except.error f
        | Except.ok b =>
          match index message_splitted 3 with
          | Except.error f => Except.error f
          | Except.ok S => Except.ok (server_Initiate order node st j (Atoi a).1 (Atoi b).1 S)
    else if kind = "Test" then
      match index message_splitted 1 with
      | Except.error f => Except.error f
      | Except.ok a =>
        match index message_splitted 2 with
        | Except.error f => Except.error f
        | Except.ok b => Except.ok (server_Test order node st j message (Atoi a).1 (Atoi b).1)
    else if kind = "Accept" then
      server_Accept node st j
    else if kind = "Reject" then
      Except.ok (server_Reject order node st j)
    else if kind = "Report" then
      match index message_splitted 1 with
      | Except.error f => Except.error f
      | Except.ok a => Except.ok (server_Report node st j message (Atoi a).1)
    else if kind = "ChangeRoot" then
      Except.ok (changeRoot node st)
    else if kind = "Stop" then
      Except.ok ({ st with terminated := true }, [])
    else
      Except.ok (st, [])

/-! ## The whole of `server` -/

/-- One message taken from the listener: its sender `j`, its text, and the map
iteration order that the handling of this message meets. -/
structure Delivery where
  j : String
  message : String
  order : MapOrder

/-- The loop `for !terminated` over the messages that arrive, in their order
of arrival.  Returns the state, what was sent, and the messages not taken. -/
def server_loop (node : yamlConfig) :
    NodeState → List Delivery → Except Fault (NodeState × List Packet × List Delivery)
  | st, [] => Except.ok (st, [], [])
  | st, d :: rest =>
    if st.terminated then Except.ok (st, [], d :: rest)
    else
      match server_step d.order node st d.j d.message with
      | Except.error f => Except.error f
      | Except.ok (st1, out) =>
        match server_loop node st1 rest with
        | Except.error f => Except.error f
        | Except.ok (st2, out2, left) => Except.ok (st2, out ++ out2, left)

/-- The loop after `for !terminated`: `Stop` to the `BRANCH` neighbours other
than `parent`. -/
def stopSweep (node : yamlConfig) (st : NodeState) : List Neighbour → List Packet
  | [] => []
  | neighbour :: rest =>
    if edgeGet st.statusEdge neighbour.Address = BRANCH ∧ neighbour.Address ≠ st.parent then
      ⟨"Stop", node.Address, neighbour.Address⟩ :: stopSweep node st rest
    else
      stopSweep node st rest

/-- How a run of `server` on finitely many arrivals ends. -/
inductive Outcome where
  | receiving (st : NodeState) (sent : List Packet)
  | stopped (f : Fault)
  | returned (st : NodeState) (sent : List Packet) (key : Int) (weight : Int)

/-- The function `server` from `(1) WakeUp` on, for the messages `inbox` that
arrive.  `receiving`: the loop waits for a further message.  `returned`: the
loop was left, the `Stop` sweep was sent and `edgesMST[key] = weight` was
stored. -/
def server (node : yamlConfig) (inbox : List Delivery) : Outcome :=
  let woken := wakeUp node (initState node)
  match server_loop node woken.1 inbox with
  | Except.error f => Outcome.stopped f
  | Except.ok (st, out, _) =>
    if st.terminated then
      let sent := woken.2 ++ out ++ stopSweep node st node.Neighbours
      match getWeight st.parent node with
      | Except.error f => Outcome.stopped f
      | Except.ok weight => Outcome.returned st sent node.ID weight
    else
      Outcome.receiving st (woken.2 ++ out)

/-! ## The harness -/

/-- An iteration order for the entries of a `map[int]int`. -/
abbrev IntMapOrder := GoMap Int Int → GoMap Int Int

/-- The built-in `delete(m, k)`. -/
def mapDelete {κ ν : Type} [DecidableEq κ] : GoMap κ ν → κ → GoMap κ ν
  | [], _ => []
  | (k0, v0) :: rest, k => if k0 = k then mapDelete rest k else (k0, v0) :: mapDelete rest k

/-- Inner loop of `deleteDuplicatesAndReturnOne`: the first `key2` visited that
holds `value` under another key than `key1`. -/
def dedupInner (key1 value : Int) : List (Int × Int) → Option Int
  | [] => none
  | (key2, value2) :: rest =>
    if value = value2 ∧ key1 ≠ key2 then some key2 else dedupInner key1 value rest

/-- Outer loop of `deleteDuplicatesAndReturnOne`; `inner key1` is the order of
the inner `range` while the outer one is at `key1`. -/
def dedupOuter (inner : Int → IntMapOrder) (myMap : GoMap Int Int) :
    List (Int × Int) → Except Fault (Int × GoMap Int Int)
  | [] => Except.error (Fault.exit (-1))
  | (key1, value) :: rest =>
    match dedupInner key1 value (inner key1 myMap) with
    | some key2 => Except.ok (key1, mapDelete myMap key2)
    | none => dedupOuter inner myMap rest

/-- The function `deleteDuplicatesAndReturnOne`: the returned key and the map
after the `delete`. -/
def deleteDuplicatesAndReturnOne (outer : IntMapOrder) (inner : Int → IntMapOrder)
    (myMap : GoMap Int Int) : Except Fault (Int × GoMap Int Int) :=
  dedupOuter inner myMap (outer myMap)

/-! ## Example inputs and vocabulary of the statements -/

/-- Witness node of the handler claims: the neighbours `b` (weight 7) and `c` (weight 3). -/
def exampleNode : yamlConfig := ⟨1, "a", [⟨2, "b", 7⟩, ⟨3, "c", 3⟩]⟩

/-- Witness state of the handler claims: edge `b` is `BRANCH`, edge `c` is `BASIC`,
level 2, fragment 7, parent `b`. -/
def exampleState : NodeState :=
  { terminated := false
    statusEdge := [("b", BRANCH), ("c", BASIC)]
    levelNode := 2
    state := FOUND
    findCount := 0
    fragmentNode := 7
    parent := "b"
    bestWt := INFINITY
    bestNode := ""
    testNode := "" }

/-- One key of the edge map across a step: unchanged, set to `BRANCH` by the
`Connect` handler (`k = j`) or by `changeRoot` (`k = bestNode`), or taken from
`BASIC` to `REJECTED`. -/
def EdgeStep (j bestNode k old new : String) : Prop :=
  new = old ∨ (new = BRANCH ∧ (k = j ∨ k = bestNode)) ∨ (old = BASIC ∧ new = REJECTED)

/-- State of `exampleNode` after wakeup and the messages `Initiate,1,3,Found`
from `c`, `Test,1,3` from `b` and `Initiate,2,9,Found` from `c`: edge `b` is
`REJECTED`. -/
def rejectedEdgeState : NodeState :=
  { terminated := false
    statusEdge := [("b", REJECTED), ("c", BRANCH)]
    levelNode := 2
    state := FOUND
    findCount := 0
    fragmentNode := 9
    parent := "c"
    bestWt := INFINITY
    bestNode := ""
    testNode := "" }

/-- Node of the two-vertex graph: the single neighbour `b` over an edge of weight 5. -/
def pairNode : yamlConfig := ⟨1, "a", [⟨2, "b", 5⟩]⟩

/-- State of a node whose only neighbour is `j`, after wakeup. -/
def twoVertexWoken (j : String) : NodeState :=
  { terminated := false
    statusEdge := [(j, BRANCH)]
    levelNode := 0
    state := FOUND
    findCount := 0
    fragmentNode := -1
    parent := ""
    bestWt := 0
    bestNode := ""
    testNode := "" }

/-- State of a node whose only neighbour is `j`, over an edge of weight `w`,
once it has handled `Initiate,1,w,Find` from `j`. -/
def twoVertexMerged (j : String) (w : Int) (terminated : Bool) : NodeState :=
  { terminated := terminated
    statusEdge := [(j, BRANCH)]
    levelNode := 1
    state := FOUND
    findCount := 0
    fragmentNode := w
    parent := j
    bestWt := INFINITY
    bestNode := ""
    testNode := "" }

/-- Node with a neighbour entry whose address is the empty string (weight 4) and
the neighbours `b` (weight 9) and `c` (weight 2). -/
def emptyAddressNode : yamlConfig := ⟨1, "a", [⟨2, "", 4⟩, ⟨3, "b", 9⟩, ⟨4, "c", 2⟩]⟩

/-- The eight records as the source builds them: no terminating newline, and a
comma after `ChangeRoot`. -/
def WireRecord (s : String) : Prop :=
  (∃ l : Int, s = "Connect," ++ Itoa l) ∨
  (∃ (l f : Int) (state : String), (state = FIND ∨ state = FOUND) ∧
    s = "Initiate," ++ Itoa l ++ "," ++ Itoa f ++ "," ++ state) ∨
  (∃ l f : Int, s = "Test," ++ Itoa l ++ "," ++ Itoa f) ∨
  s = "Accept" ∨
  s = "Reject" ∨
  (∃ w : Int, s = "Report," ++ Itoa w) ∨
  s = "ChangeRoot," ∨
  s = "Stop"

/-- Contributions of four engines: the weight 5 under the keys 2 and 3. -/
def exampleEdges : GoMap Int Int := [(1, 10), (2, 5), (3, 5), (4, 7)]

/-- The invariant of `findCount`: not negative, and zero whenever `state` is `FOUND`. -/
def FindCountInv (st : NodeState) : Prop :=
  0 ≤ st.findCount ∧ (st.state = FOUND → st.findCount = 0)

/-- The invariant of the best edge: a `bestWt` below `INFINITY` comes with a
`bestNode` that is the address, not empty, of a neighbour entry. -/
def BestEdgeInv (node : yamlConfig) (st : NodeState) : Prop :=
  st.bestWt < INFINITY →
    st.bestNode ∈ node.Neighbours.map Neighbour.Address ∧ st.bestNode ≠ ""

/-- The steps that mark edge `k` `BRANCH`: the `Connect` handler with
`L < levelNode`, on the edge `j` of the sender, and procedure `changeRoot`, on
edge `bestNode`; `changeRoot` runs on a `ChangeRoot` message, and on a `Report`
from `parent` with `state` not `FIND` and `w > bestWt`. -/
def BranchingStep (st : NodeState) (j message k : String) : Prop :=
  (k = j ∧ ∃ a rest, strings_Split message = "Connect" :: a :: rest ∧
    (Atoi a).1 < st.levelNode) ∨
  (k = st.bestNode ∧
    ((∃ rest, strings_Split message = "ChangeRoot" :: rest) ∨
      ∃ a rest, strings_Split message = "Report" :: a :: rest ∧ j = st.parent ∧
        st.state ≠ FIND ∧ (Atoi a).1 > st.bestWt))

/-- The steps that mark edge `k` `REJECTED`: the `Test` handler with
`L <= levelNode` and `F = fragmentNode`, and the `Reject` handler, both on the
edge `j` of the sender. -/
def RejectingStep (st : NodeState) (j message k : String) : Prop :=
  k = j ∧
  ((∃ a b rest, strings_Split message = "Test" :: a :: b :: rest ∧
      ¬ (Atoi a).1 > st.levelNode ∧ (Atoi b).1 = st.fragmentNode) ∨
    ∃ rest, strings_Split message = "Reject" :: rest)

/-- One engine of a network: the neighbour description of its vertex and the
local variables of its `server`. -/
structure Engine where
  node : yamlConfig
  st : NodeState
  deriving DecidableEq

/-- A network: one engine per vertex, and the messages handed to `send` and not
yet received, oldest first.  The messages between one sender and one receiver
form the channel of that ordered pair. -/
structure Net where
  engines : List Engine
  inFlight : List Packet
  deriving DecidableEq

/-- One iteration of the receive loop of engine `e` on `message` from `j`,
followed, when the iteration has set `terminated`, by the `Stop` sweep that
follows the loop. -/
def engineStep (order : MapOrder) (e : Engine) (j message : String) :
    Except Fault (Engine × List Packet) :=
  match server_step order e.node e.st j message with
  | Except.error f => Except.error f
  | Except.ok (st1, out) =>
    if st1.terminated then
      Except.ok (⟨e.node, st1⟩, out ++ stopSweep e.node st1 e.node.Neighbours)
    else
      Except.ok (⟨e.node, st1⟩, out)

/-- Reception of packet `p` by the engine whose address is `p.neighAddress`,
which must still be in its receive loop; the sender it sees is
`p.nodeAddress`. -/
def deliverTo (order : MapOrder) (p : Packet) : List Engine → Option (List Engine × List Packet)
  | [] => none
  | e :: rest =>
    if e.node.Address = p.neighAddress then
      if e.st.terminated then none
      else
        match engineStep order e p.nodeAddress p.message with
        | Except.error _ => none
        | Except.ok (e1, out) => some (e1 :: rest, out)
    else
      match deliverTo order p rest with
      | none => none
      | some (rest1, out) => some (e :: rest1, out)

/-- Whether the packet at position `i` is the oldest one of its channel. -/
def oldestOnChannel (inFlight : List Packet) (i : Nat) : Bool :=
  match inFlight.get? i with
  | none => false
  | some p =>
    (inFlight.take i).all
      (fun q => decide (¬ (q.nodeAddress = p.nodeAddress ∧ q.neighAddress = p.neighAddress)))

/-- One step of the network: the packet at position `i`, the oldest of its
channel, is received; what its receiver sends joins the messages in flight
behind all others. -/
def deliver (order : MapOrder) (net : Net) (i : Nat) : Option Net :=
  match net.inFlight.get? i with
  | none => none
  | some p =>
    if oldestOnChannel net.inFlight i then
      match deliverTo order p net.engines with
      | none => none
      | some (engines, out) => some ⟨engines, net.inFlight.eraseIdx i ++ out⟩
    else none

/-- The steps of a schedule, one after the other. -/
def runSchedule : Net → List (MapOrder × Nat) → Option Net
  | net, [] => some net
  | net, (order, i) :: rest =>
    match deliver order net i with
    | none => none
    | some net1 => runSchedule net1 rest

/-- The network right after `(1) WakeUp` of every engine. -/
def netInit (g : List yamlConfig) : Net :=
  { engines := g.map (fun node => ⟨node, (wakeUp node (initState node)).1⟩)
    inFlight := (g.map (fun node => (wakeUp node (initState node)).2)).flatten }

/-- The networks that the engines of `g` reach from wakeup. -/
def Reachable (g : List yamlConfig) (net : Net) : Prop :=
  ∃ schedule : List (MapOrder × Nat),
    (∀ s ∈ schedule, ∀ m, (s.1 m).Perm m) ∧ runSchedule (netInit g) schedule = some net

/-- Every engine has left its receive loop. -/
def AllTerminated (net : Net) : Prop := ∀ e ∈ net.engines, e.st.terminated = true

/-- The edges classified `BRANCH`, each as seen from the engine that classifies
it: its own address, then the address of the neighbour. -/
def branchList (net : Net) : List (String × String) :=
  (net.engines.map (fun e =>
    (e.node.Neighbours.filter (fun n => decide (edgeGet e.st.statusEdge n.Address = BRANCH))).map
      (fun n => (e.node.Address, n.Address)))).flatten

/-- The union over all engines of the edges classified `BRANCH`. -/
def BranchUnion (net : Net) (a b : String) : Prop :=
  (a, b) ∈ branchList net ∨ (b, a) ∈ branchList net

/-- The edges of the graph that the neighbour descriptions `g` describe, each
as its description gives it: own address, address of the neighbour, weight. -/
def edgeList (g : List yamlConfig) : List (String × String × Int) :=
  (g.map (fun node =>
    node.Neighbours.map (fun n => (node.Address, n.Address, n.EdgeWeight)))).flatten

/-- The relation `E`, read in both directions, joins any two of the vertices `vs`. -/
def Connects (E : String → String → Prop) (vs : List String) : Prop :=
  ∀ a ∈ vs, ∀ b ∈ vs, Relation.ReflTransGen (fun u v => E u v ∨ E v u) a b

/-- The descriptions `g` describe a connected undirected graph with pairwise
distinct positive edge weights: pairwise distinct vertex addresses, no neighbour
twice in one table, every edge described at both of its end points with the same
weight, weights positive values of `int`, no weight on two edges. -/
def WellFormedGraph (g : List yamlConfig) : Prop :=
  (g.map yamlConfig.Address).Nodup ∧
  (∀ node ∈ g, (node.Neighbours.map Neighbour.Address).Nodup) ∧
  (∀ e ∈ edgeList g, e.1 ≠ e.2.1 ∧ e.2.1 ∈ g.map yamlConfig.Address ∧
    (e.2.1, e.1, e.2.2) ∈ edgeList g) ∧
  (∀ e ∈ edgeList g, 0 < e.2.2 ∧ e.2.2 ≤ 9223372036854775807) ∧
  (∀ e ∈ edgeList g, ∀ e1 ∈ edgeList g, e.2.2 = e1.2.2 →
    (e.1 = e1.1 ∧ e.2.1 = e1.2.1) ∨ (e.1 = e1.2.1 ∧ e.2.1 = e1.1)) ∧
  Connects (fun a b => ∃ w, (a, b, w) ∈ edgeList g) (g.map yamlConfig.Address)

/-- The edges `T` form a spanning tree of the graph of `g`: edges of the graph,
one fewer than there are vertices, joining all vertices. -/
def IsSpanningTree (g : List yamlConfig) (T : List (String × String × Int)) : Prop :=
  (∀ e ∈ T, e ∈ edgeList g) ∧ T.length + 1 = g.length ∧
  Connects (fun a b => ∃ w, (a, b, w) ∈ T) (g.map yamlConfig.Address)

/-- The edge set `E` is that of a minimum spanning tree of the graph of `g`. -/
def IsMST (g : List yamlConfig) (E : String → String → Prop) : Prop :=
  ∃ T : List (String × String × Int),
    (∀ a b, E a b ↔ ∃ w, (a, b, w) ∈ T ∨ (b, a, w) ∈ T) ∧
    IsSpanningTree g T ∧
    ∀ T1, IsSpanningTree g T1 → (T.map (fun e => e.2.2)).sum ≤ (T1.map (fun e => e.2.2)).sum

/-- The contract of the engine over a network: for every connected undirected
graph with pairwise distinct positive edge weights, whenever all engines have
terminated, the edges classified `BRANCH` are those of the minimum spanning
tree. -/
def MSTContract : Prop :=
  ∀ g : List yamlConfig, WellFormedGraph g →
    ∀ net : Net, Reachable g net → AllTerminated net → IsMST g (BranchUnion net)

/-- The path `x - u - p - q` with the weights 1, `math.MaxInt64` and 3. -/
def sentinelGraph : List yamlConfig :=
  [⟨1, "x", [⟨2, "u", 1⟩]⟩,
   ⟨2, "u", [⟨1, "x", 1⟩, ⟨3, "p", 9223372036854775807⟩]⟩,
   ⟨3, "p", [⟨2, "u", 9223372036854775807⟩, ⟨4, "q", 3⟩]⟩,
   ⟨4, "q", [⟨3, "p", 3⟩]⟩]

/-- The schedule that always has the oldest message in flight received, for 19
steps. -/
def sentinelSchedule : List (MapOrder × Nat) := List.replicate 19 (id, 0)

/-- Engine of `x` at the end of `sentinelSchedule`. -/
def sentinelX : Engine :=
  ⟨⟨1, "x", [⟨2, "u", 1⟩]⟩,
    { terminated := true, statusEdge := [("u", BRANCH)], levelNode := 1, state := FOUND,
      findCount := 0, fragmentNode := 1, parent := "u", bestWt := INFINITY, bestNode := "",
      testNode := "" }⟩

/-- Engine of `u` at the end of `sentinelSchedule`: the edge of `p` is `BASIC`. -/
def sentinelU : Engine :=
  ⟨⟨2, "u", [⟨1, "x", 1⟩, ⟨3, "p", 9223372036854775807⟩]⟩,
    { terminated := true, statusEdge := [("x", BRANCH), ("p", BASIC)], levelNode := 1,
      state := FOUND, findCount := 0, fragmentNode := 1, parent := "x", bestWt := INFINITY,
      bestNode := "", testNode := "" }⟩

/-- Engine of `p` at the end of `sentinelSchedule`: the edge of `u` is `BASIC`. -/
def sentinelP : Engine :=
  ⟨⟨3, "p", [⟨2, "u", 9223372036854775807⟩, ⟨4, "q", 3⟩]⟩,
    { terminated := true, statusEdge := [("u", BASIC), ("q", BRANCH)], levelNode := 1,
      state := FOUND, findCount := 0, fragmentNode := 3, parent := "q", bestWt := INFINITY,
      bestNode := "", testNode := "" }⟩

/-- Engine of `q` at the end of `sentinelSchedule`. -/
def sentinelQ : Engine :=
  ⟨⟨4, "q", [⟨3, "p", 3⟩]⟩,
    { terminated := true, statusEdge := [("p", BRANCH)], levelNode := 1, state := FOUND,
      findCount := 0, fragmentNode := 3, parent := "p", bestWt := INFINITY, bestNode := "",
      testNode := "" }⟩

/-- The network that `sentinelSchedule` ends in: all four engines have left
their loops and nothing is in flight. -/
def sentinelFinal : Net :=
  { engines := [sentinelX, sentinelU, sentinelP, sentinelQ]
    inFlight := [] }

/-! ## Lemmas on the library functions and on maps -/

theorem edgeGet_mapSet_same (m : GoMap String String) (k v : String) :
    edgeGet (mapSet m k v) k = v := by
  induction m with
  | nil => simp [mapSet, edgeGet]
  | cons e rest ih =>
    obtain ⟨k0, v0⟩ := e
    by_cases h : k0 = k
    · simp [mapSet, edgeGet, h]
    · simp [mapSet, edgeGet, h, ih]

theorem edgeGet_mapSet_other (m : GoMap String String) (k v k1 : String) (h : k1 ≠ k) :
    edgeGet (mapSet m k v) k1 = edgeGet m k1 := by
  induction m with
  | nil => simp [mapSet, edgeGet, Ne.symm h]
  | cons e rest ih =>
    obtain ⟨k0, v0⟩ := e
    by_cases h0 : k0 = k
    · subst h0
      simp [mapSet, edgeGet, Ne.symm h]
    · simp [mapSet, edgeGet, h0, ih]

theorem wrapInt_of_range (x : Int) (h1 : -9223372036854775808 ≤ x) (h2 : x ≤ 9223372036854775807) :
    wrapInt x = x := by
  unfold wrapInt
  rw [Int.emod_eq_of_lt (by omega) (by omega)]
  omega

theorem goAdd_one (x : Int) (h1 : -9223372036854775808 ≤ x) (h2 : x < 9223372036854775807) :
    goAdd x 1 = x + 1 := by
  unfold goAdd
  exact wrapInt_of_range _ (by omega) (by omega)

/-- Result of the loop of `getLeastWeightEdge` once a first entry has been taken. -/
theorem getLeastWeightEdgeLoop_spec (rest : List Neighbour) (i : Nat) (min : Int) (least : String) :
    (getLeastWeightEdgeLoop rest (i + 1) min least = (least, min) ∧
        ∀ n ∈ rest, min ≤ n.EdgeWeight) ∨
    (∃ k, ∃ hk : k < rest.length,
        getLeastWeightEdgeLoop rest (i + 1) min least =
          ((rest.get ⟨k, hk⟩).Address, (rest.get ⟨k, hk⟩).EdgeWeight) ∧
        (rest.get ⟨k, hk⟩).EdgeWeight < min ∧
        (∀ n ∈ rest, (rest.get ⟨k, hk⟩).EdgeWeight ≤ n.EdgeWeight) ∧
        ∀ k1, ∀ hk1 : k1 < rest.length, k1 < k →
          (rest.get ⟨k, hk⟩).EdgeWeight < (rest.get ⟨k1, hk1⟩).EdgeWeight) := by
  induction rest generalizing i min least with
  | nil => left; simp [getLeastWeightEdgeLoop]
  | cons n rest ih =>
    by_cases hlt : n.EdgeWeight < min
    · have hstep : getLeastWeightEdgeLoop (n :: rest) (i + 1) min least =
          getLeastWeightEdgeLoop rest (i + 1 + 1) n.EdgeWeight n.Address := by
        simp [getLeastWeightEdgeLoop, hlt]
      rcases ih (i + 1) n.EdgeWeight n.Address with ⟨heq, hall⟩ | ⟨k, hk, heq, hlt2, hall, hfirst⟩
      · right
        refine ⟨0, by simp, ?_, ?_, ?_, ?_⟩
        · rw [hstep, heq]; rfl
        · simpa using hlt
        · intro n1 hn1
          rcases List.mem_cons.mp hn1 with rfl | hmem
          · simp
          · simpa using hall n1 hmem
        · intro k1 hk1 hlt1; omega
      · right
        refine ⟨k + 1, by simpa using hk, ?_, ?_, ?_, ?_⟩
        · rw [hstep, heq]; rfl
        · simp only [List.get_eq_getElem, List.getElem_cons_succ] at *
          omega
        · intro n1 hn1
          simp only [List.get_eq_getElem, List.getElem_cons_succ] at *
          rcases List.mem_cons.mp hn1 with rfl | hmem
          · omega
          · exact hall n1 hmem
        · intro k1 hk1 hlt1
          simp only [List.get_eq_getElem, List.getElem_cons_succ] at *
          cases k1 with
          | zero => simpa using hlt2
          | succ k2 =>
            simp only [List.getElem_cons_succ]
            exact hfirst k2 (by simpa using hk1) (by omega)
    · have hstep : getLeastWeightEdgeLoop (n :: rest) (i + 1) min least =
          getLeastWeightEdgeLoop rest (i + 1 + 1) min least := by
        simp [getLeastWeightEdgeLoop, hlt]
      rcases ih (i + 1) min least with ⟨heq, hall⟩ | ⟨k, hk, heq, hlt2, hall, hfirst⟩
      · left
        refine ⟨by rw [hstep, heq], ?_⟩
        intro n1 hn1
        rcases List.mem_cons.mp hn1 with rfl | hmem
        · omega
        · exact hall n1 hmem
      · right
        refine ⟨k + 1, by simpa using hk, ?_, ?_, ?_, ?_⟩
        · rw [hstep, heq]; rfl
        · simpa using hlt2
        · intro n1 hn1
          simp only [List.get_eq_getElem, List.getElem_cons_succ] at *
          rcases List.mem_cons.mp hn1 with rfl | hmem
          · omega
          · exact hall n1 hmem
        · intro k1 hk1 hlt1
          simp only [List.get_eq_getElem, List.getElem_cons_succ] at *
          cases k1 with
          | zero => simp only [List.getElem_cons_zero]; omega
          | succ k2 =>
            simp only [List.getElem_cons_succ]
            exact hfirst k2 (by simpa using hk1) (by omega)

theorem getLeastWeightEdge_spec (node : yamlConfig) (hne : node.Neighbours ≠ []) :
    ∃ i, ∃ hi : i < node.Neighbours.length,
      getLeastWeightEdge node =
        ((node.Neighbours.get ⟨i, hi⟩).Address, (node.Neighbours.get ⟨i, hi⟩).EdgeWeight) ∧
      (∀ n ∈ node.Neighbours, (node.Neighbours.get ⟨i, hi⟩).EdgeWeight ≤ n.EdgeWeight) ∧
      ∀ k, ∀ hk : k < node.Neighbours.length, k < i →
        (node.Neighbours.get ⟨i, hi⟩).EdgeWeight < (node.Neighbours.get ⟨k, hk⟩).EdgeWeight := by
  unfold getLeastWeightEdge
  cases hl : node.Neighbours with
  | nil => exact absurd hl hne
  | cons n rest =>
    have hstep : getLeastWeightEdgeLoop (n :: rest) 0 0 "" =
        getLeastWeightEdgeLoop rest (0 + 1) n.EdgeWeight n.Address := by
      simp [getLeastWeightEdgeLoop]
    rcases getLeastWeightEdgeLoop_spec rest 0 n.EdgeWeight n.Address with
      ⟨heq, hall⟩ | ⟨k, hk, heq, hlt2, hall, hfirst⟩
    · refine ⟨0, by simp, ?_, ?_, ?_⟩
      · rw [hstep, heq]; rfl
      · intro n1 hn1
        rcases List.mem_cons.mp hn1 with rfl | hmem
        · simp
        · simpa using hall n1 hmem
      · intro k1 hk1 hlt1; omega
    · refine ⟨k + 1, by simpa using hk, ?_, ?_, ?_⟩
      · rw [hstep, heq]; rfl
      · intro n1 hn1
        simp only [List.get_eq_getElem, List.getElem_cons_succ] at *
        rcases List.mem_cons.mp hn1 with rfl | hmem
        · omega
        · exact hall n1 hmem
      · intro k1 hk1 hlt1
        simp only [List.get_eq_getElem, List.getElem_cons_succ] at *
        cases k1 with
        | zero => simpa using hlt2
        | succ k2 =>
          simp only [List.getElem_cons_succ]
          exact hfirst k2 (by simpa using hk1) (by omega)

/-- Status of a key after the loop that fills `statusEdge` with `BASIC`. -/
theorem edgeGet_initFold (l : List Neighbour) (acc : GoMap String String) (k : String) :
    edgeGet (l.foldl (fun m neighbour => mapSet m neighbour.Address BASIC) acc) k =
      if k ∈ l.map Neighbour.Address then BASIC else edgeGet acc k := by
  induction l generalizing acc with
  | nil => simp
  | cons n rest ih =>
    simp only [List.foldl_cons, List.map_cons, List.mem_cons]
    rw [ih]
    by_cases hmem : k ∈ rest.map Neighbour.Address
    · simp [hmem]
    · by_cases hk : k = n.Address
      · subst hk
        simp [hmem, edgeGet_mapSet_same]
      · simp [hmem, hk, edgeGet_mapSet_other _ _ _ _ hk]

theorem edgeGet_initState (node : yamlConfig) (n : Neighbour) (hn : n ∈ node.Neighbours) :
    edgeGet (initState node).statusEdge n.Address = BASIC := by
  unfold initState
  simp only
  rw [edgeGet_initFold]
  have : n.Address ∈ node.Neighbours.map Neighbour.Address := List.mem_map_of_mem _ hn
  simp [this]

theorem Itoa_zero : Itoa 0 = "0" := by decide

theorem server_step_Connect (order : MapOrder) (node : yamlConfig) (st : NodeState)
    (j message a : String) (rest : List String)
    (hsplit : strings_Split message = "Connect" :: a :: rest) :
    server_step order node st j message = server_Connect node st j message (Atoi a).1 := by
  simp [server_step, hsplit, index]

theorem server_step_Initiate (order : MapOrder) (node : yamlConfig) (st : NodeState)
    (j message a b S : String) (rest : List String)
    (hsplit : strings_Split message = "Initiate" :: a :: b :: S :: rest) :
    server_step order node st j message =
      Except.ok (server_Initiate order node st j (Atoi a).1 (Atoi b).1 S) := by
  simp [server_step, hsplit, index]

theorem server_step_Test (order : MapOrder) (node : yamlConfig) (st : NodeState)
    (j message a b : String) (rest : List String)
    (hsplit : strings_Split message = "Test" :: a :: b :: rest) :
    server_step order node st j message =
      Except.ok (server_Test order node st j message (Atoi a).1 (Atoi b).1) := by
  simp [server_step, hsplit, index]

theorem server_step_Report (order : MapOrder) (node : yamlConfig) (st : NodeState)
    (j message a : String) (rest : List String)
    (hsplit : strings_Split message = "Report" :: a :: rest) :
    server_step order node st j message =
      Except.ok (server_Report node st j message (Atoi a).1) := by
  simp [server_step, hsplit, index]

/-- The function `getWeight` returns the weight of the first entry with the address. -/
theorem getWeightLoop_eq_find (address : String) (l : List Neighbour) :
    getWeightLoop address l =
      match l.find? (fun n => decide (address = n.Address)) with
      | some n => Except.ok n.EdgeWeight
      | none => Except.error (Fault.exit (-1)) := by
  induction l with
  | nil => simp [getWeightLoop]
  | cons n rest ih =>
    by_cases h : address = n.Address
    · simp [getWeightLoop, List.find?, h]
    · simp [getWeightLoop, List.find?, h, ih]

theorem find_of_mem_addresses (address : String) (l : List Neighbour)
    (h : address ∈ l.map Neighbour.Address) :
    ∃ n, l.find? (fun n => decide (address = n.Address)) = some n := by
  cases hf : l.find? (fun n => decide (address = n.Address)) with
  | some n => exact ⟨n, rfl⟩
  | none =>
    exfalso
    rw [List.find?_eq_none] at hf
    obtain ⟨n, hn, hna⟩ := List.mem_map.mp h
    exact hf n hn (by simp [hna])

/-- Every successful iteration of the loop ran one of the nine paths of the `switch`. -/
theorem server_step_inv (order : MapOrder) (node : yamlConfig) (st : NodeState)
    (j message : String) (r : NodeState × List Packet)
    (h : server_step order node st j message = Except.ok r) :
    (∃ a rest, strings_Split message = "Connect" :: a :: rest ∧
      server_Connect node st j message (Atoi a).1 = Except.ok r) ∨
    (∃ a b S rest, strings_Split message = "Initiate" :: a :: b :: S :: rest ∧
      r = server_Initiate order node st j (Atoi a).1 (Atoi b).1 S) ∨
    (∃ a b rest, strings_Split message = "Test" :: a :: b :: rest ∧
      r = server_Test order node st j message (Atoi a).1 (Atoi b).1) ∨
    (∃ rest, strings_Split message = "Accept" :: rest ∧ server_Accept node st j = Except.ok r) ∨
    (∃ rest, strings_Split message = "Reject" :: rest ∧ r = server_Reject order node st j) ∨
    (∃ a rest, strings_Split message = "Report" :: a :: rest ∧
      r = server_Report node st j message (Atoi a).1) ∨
    (∃ rest, strings_Split message = "ChangeRoot" :: rest ∧ r = changeRoot node st) ∨
    (∃ rest, strings_Split message = "Stop" :: rest ∧ r = ({ st with terminated := true }, [])) ∨
    r = (st, []) := by
  unfold server_step at h
  cases hs : strings_Split message with
  | nil => simp [hs, index] at h
  | cons kind tl =>
    simp only [hs, index, List.get?_cons_zero, List.get?_cons_succ] at h
    by_cases h1 : kind = "Connect"
    · subst h1
      cases tl with
      | nil => simp at h
      | cons a rest =>
        left
        exact ⟨a, rest, rfl, by simpa using h⟩
    by_cases h2 : kind = "Initiate"
    · subst h2
      right; left
      cases tl with
      | nil => simp at h
      | cons a tl1 =>
        cases tl1 with
        | nil => simp at h
        | cons b tl2 =>
          cases tl2 with
          | nil => simp at h
          | cons S rest =>
            refine ⟨a, b, S, rest, rfl, ?_⟩
            simp at h
            exact h.symm
    by_cases h3 : kind = "Test"
    · subst h3
      right; right; left
      cases tl with
      | nil => simp at h
      | cons a tl1 =>
        cases tl1 with
        | nil => simp at h
        | cons b rest =>
          refine ⟨a, b, rest, rfl, ?_⟩
          simp at h
          exact h.symm
    by_cases h4 : kind = "Accept"
    · subst h4
      right; right; right; left
      exact ⟨tl, rfl, by simpa using h⟩
    by_cases h5 : kind = "Reject"
    · subst h5
      right; right; right; right; left
      refine ⟨tl, rfl, ?_⟩
      simp at h
      exact h.symm
    by_cases h6 : kind = "Report"
    · subst h6
      right; right; right; right; right; left
      cases tl with
      | nil => simp at h
      | cons a rest =>
        refine ⟨a, rest, rfl, ?_⟩
        simp at h
        exact h.symm
    by_cases h7 : kind = "ChangeRoot"
    · subst h7
      right; right; right; right; right; right; left
      refine ⟨tl, rfl, ?_⟩
      simp at h
      exact h.symm
    by_cases h8 : kind = "Stop"
    · subst h8
      right; right; right; right; right; right; right; left
      refine ⟨tl, rfl, ?_⟩
      simp at h
      exact h.symm
    · right; right; right; right; right; right; right; right
      simp [h1, h2, h3, h4, h5, h6, h7, h8] at h
      exact h.symm

/-- The first characters of `a ++ x` are those of `a`. -/
theorem take_data_append (a x : String) (n : Nat) (hn : n ≤ a.data.length) :
    (a ++ x).data.take n = a.data.take n := by
  rw [String.data_append, List.take_append_of_le_length hn]

theorem stopSweep_eq (node : yamlConfig) (st : NodeState) (l : List Neighbour) :
    stopSweep node st l =
      (l.filter (fun n => decide (edgeGet st.statusEdge n.Address = BRANCH ∧
          n.Address ≠ st.parent))).map
        (fun n => (⟨"Stop", node.Address, n.Address⟩ : Packet)) := by
  induction l with
  | nil => rfl
  | cons n rest ih =>
    by_cases h : edgeGet st.statusEdge n.Address = BRANCH ∧ n.Address ≠ st.parent
    · simp only [stopSweep, h, and_self, ↓reduceIte, ih, ne_eq, decide_not,
        Bool.decide_and, List.filter_cons, decide_True, Bool.not_false, Bool.and_self, List.map_cons]
      simp [h.1, h.2]
    · have h1 : stopSweep node st (n :: rest) = stopSweep node st rest := by
        simp only [stopSweep, h, ↓reduceIte]
      rw [h1, ih, List.filter_cons_of_neg]
      simpa using h

theorem report_frame (node : yamlConfig) (st : NodeState) :
    (report node st).1.statusEdge = st.statusEdge ∧
    (report node st).1.levelNode = st.levelNode ∧
    (report node st).1.findCount = st.findCount ∧
    (report node st).1.fragmentNode = st.fragmentNode ∧
    (report node st).1.parent = st.parent ∧
    (report node st).1.bestWt = st.bestWt ∧
    (report node st).1.bestNode = st.bestNode ∧
    (report node st).1.testNode = st.testNode := by
  unfold report
  split <;> simp

theorem test_frame (order : MapOrder) (node : yamlConfig) (st : NodeState) :
    (test order node st).1.statusEdge = st.statusEdge ∧
    (test order node st).1.levelNode = st.levelNode ∧
    (test order node st).1.findCount = st.findCount ∧
    (test order node st).1.fragmentNode = st.fragmentNode ∧
    (test order node st).1.parent = st.parent ∧
    (test order node st).1.bestWt = st.bestWt ∧
    (test order node st).1.bestNode = st.bestNode := by
  unfold test
  simp only
  split
  · simp
  · obtain ⟨h1, h2, h3, h4, h5, h6, h7, _⟩ := report_frame node { st with testNode := "" }
    exact ⟨h1, h2, h3, h4, h5, h6, h7⟩

theorem changeRoot_statusEdge (node : yamlConfig) (st : NodeState) :
    (changeRoot node st).1.statusEdge = st.statusEdge ∨
    (changeRoot node st).1.statusEdge = mapSet st.statusEdge st.bestNode BRANCH := by
  unfold changeRoot
  split
  · left; rfl
  · right; rfl

theorem initiateLoop_frame (node : yamlConfig) (j : String) (l : List Neighbour)
    (st : NodeState) :
    (initiateLoop node j l st).1.statusEdge = st.statusEdge ∧
    (initiateLoop node j l st).1.levelNode = st.levelNode ∧
    (initiateLoop node j l st).1.state = st.state ∧
    (initiateLoop node j l st).1.fragmentNode = st.fragmentNode ∧
    (initiateLoop node j l st).1.parent = st.parent ∧
    (initiateLoop node j l st).1.bestWt = st.bestWt ∧
    (initiateLoop node j l st).1.bestNode = st.bestNode ∧
    (initiateLoop node j l st).1.testNode = st.testNode := by
  induction l generalizing st with
  | nil => simp [initiateLoop]
  | cons r rest ih =>
    unfold initiateLoop
    by_cases hc : edgeGet st.statusEdge r.Address = BRANCH ∧ r.Address ≠ j
    · by_cases hs : st.state = FIND
      · simp only [hc, hs, and_self, ↓reduceIte, ne_eq, not_false_eq_true]
        have := ih { st with findCount := goAdd st.findCount 1 }
        simpa [hs] using this
      · simp only [hc, hs, and_self, ↓reduceIte, ne_eq, not_false_eq_true]
        exact ih st
    · simp only [hc, ↓reduceIte]
      exact ih st

theorem EdgeStep_setBranch (j bestNode k : String) (m : GoMap String String) (key : String)
    (hkey : key = j ∨ key = bestNode) :
    EdgeStep j bestNode k (edgeGet m k) (edgeGet (mapSet m key BRANCH) k) := by
  by_cases hk : k = key
  · subst hk
    right; left
    exact ⟨edgeGet_mapSet_same _ _ _, hkey⟩
  · left
    exact edgeGet_mapSet_other _ _ _ _ hk

theorem EdgeStep_reject (j bestNode k : String) (m : GoMap String String) (key : String) :
    EdgeStep j bestNode k (edgeGet m k)
      (edgeGet (if edgeGet m key = BASIC then mapSet m key REJECTED else m) k) := by
  by_cases hb : edgeGet m key = BASIC
  · simp only [hb, ↓reduceIte]
    by_cases hk : k = key
    · subst hk
      right; right
      exact ⟨hb, edgeGet_mapSet_same _ _ _⟩
    · left
      exact edgeGet_mapSet_other _ _ _ _ hk
  · simp only [hb, ↓reduceIte]
    left; rfl

theorem changeRoot_EdgeStep (node : yamlConfig) (st : NodeState) (j k : String) :
    EdgeStep j st.bestNode k (edgeGet st.statusEdge k)
      (edgeGet (changeRoot node st).1.statusEdge k) := by
  rcases changeRoot_statusEdge node st with h | h
  · rw [h]; left; rfl
  · rw [h]; exact EdgeStep_setBranch _ _ _ _ _ (Or.inr rfl)

/-- Every successful iteration changes each key of the edge map by an `EdgeStep`. -/
theorem server_step_EdgeStep (order : MapOrder) (node : yamlConfig) (st : NodeState)
    (j message : String) (r : NodeState × List Packet)
    (hstep : server_step order node st j message = Except.ok r) (k : String) :
    EdgeStep j st.bestNode k (edgeGet st.statusEdge k) (edgeGet r.1.statusEdge k) := by
  rcases server_step_inv order node st j message r hstep with
    ⟨a, rest, _, h⟩ | ⟨a, b, S, rest, _, h⟩ | ⟨a, b, rest, _, h⟩ | ⟨rest, _, h⟩ |
    ⟨rest, _, h⟩ | ⟨a, rest, _, h⟩ | ⟨rest, _, h⟩ | ⟨rest, _, h⟩ | h
  · unfold server_Connect at h
    by_cases h1 : (Atoi a).1 < st.levelNode
    · by_cases hs : st.state = FIND
      · simp only [h1, hs, ↓reduceIte, Except.ok.injEq] at h
        subst h
        exact EdgeStep_setBranch _ _ _ _ _ (Or.inl rfl)
      · simp only [h1, hs, ↓reduceIte, Except.ok.injEq] at h
        subst h
        exact EdgeStep_setBranch _ _ _ _ _ (Or.inl rfl)
    · by_cases hb : edgeGet st.statusEdge j = BASIC
      · simp only [h1, hb, ↓reduceIte, Except.ok.injEq, wait] at h
        subst h
        left; rfl
      · simp only [h1, hb, ↓reduceIte] at h
        split at h
        · cases h
        · cases h
          left; rfl
  · subst h
    unfold server_Initiate
    simp only
    split
    · simp only
      rw [(test_frame _ _ _).1, (initiateLoop_frame _ _ _ _).1]
      left; rfl
    · rw [(initiateLoop_frame _ _ _ _).1]
      left; rfl
  · subst h
    unfold server_Test
    by_cases h1 : (Atoi a).1 > st.levelNode
    · simp only [h1, ↓reduceIte, wait]
      left; rfl
    by_cases h2 : (Atoi b).1 ≠ st.fragmentNode
    · simp only [h1, h2, ↓reduceIte, ne_eq, not_false_eq_true]
      left; rfl
    have hkey := EdgeStep_reject j st.bestNode k st.statusEdge j
    by_cases hb : edgeGet st.statusEdge j = BASIC <;> by_cases ht : st.testNode ≠ j <;>
      simp only [hb, ↓reduceIte] at hkey <;>
      simp [h1, h2, hb, ht, (test_frame _ _ _).1, hkey]
  · unfold server_Accept at h
    simp only at h
    split at h
    · cases h
    · cases h
      rw [(report_frame _ _).1]
      left
      split <;> rfl
  · subst h
    unfold server_Reject
    simp only
    rw [(test_frame _ _ _).1]
    have hkey := EdgeStep_reject j st.bestNode k st.statusEdge j
    by_cases hb : edgeGet st.statusEdge j = BASIC
    · simp only [hb, ↓reduceIte] at hkey ⊢
      exact hkey
    · simp only [hb, ↓reduceIte] at hkey ⊢
      exact hkey
  · subst h
    unfold server_Report
    by_cases hj : j ≠ st.parent
    · simp only [hj, ↓reduceIte, ne_eq, not_false_eq_true]
      rw [(report_frame _ _).1]
      left
      split <;> rfl
    by_cases hs : st.state = FIND
    · simp only [hj, hs, ↓reduceIte, wait]
      left; rfl
    by_cases hw : (Atoi a).1 > st.bestWt
    · simp only [hj, hs, hw, ↓reduceIte]
      exact changeRoot_EdgeStep node st j k
    · simp only [hj, hs, hw, ↓reduceIte]
      left
      split <;> rfl
  · subst h
    exact changeRoot_EdgeStep node st j k
  · subst h
    left; rfl
  · subst h
    left; rfl

theorem BRANCH_ne_BASIC : BRANCH ≠ BASIC := by decide

theorem BRANCH_ne_REJECTED : BRANCH ≠ REJECTED := by decide

theorem REJECTED_ne_BASIC : REJECTED ≠ BASIC := by decide

/-- Go's `c += 1` applied `n` times is `c + n` as long as the sum fits `int`. -/
theorem iterate_goAdd_one (n : Nat) (c : Int) (h1 : -9223372036854775808 ≤ c)
    (h2 : c + n ≤ 9223372036854775807) :
    Nat.iterate (fun x => goAdd x 1) n c = c + n := by
  induction n generalizing c with
  | zero => simp
  | succ m ih =>
    rw [Function.iterate_succ_apply]
    rw [goAdd_one c h1 (by push_cast at h2; omega)]
    rw [ih (c + 1) (by omega) (by push_cast at h2 ⊢; omega)]
    push_cast
    ring

/-- The loop of `case "Initiate"`: one `Initiate` for each entry whose edge is
`BRANCH` and whose address is not `j`, and as many increments of `findCount`
when `state` is `FIND`. -/
theorem initiateLoop_eq (node : yamlConfig) (j : String) (l : List Neighbour) (st : NodeState) :
    initiateLoop node j l st =
      ({ st with
          findCount :=
            if st.state = FIND then
              Nat.iterate (fun x => goAdd x 1) (l.filter (fun r =>
                decide (edgeGet st.statusEdge r.Address = BRANCH ∧ r.Address ≠ j))).length
                st.findCount
            else st.findCount },
        (l.filter (fun r =>
            decide (edgeGet st.statusEdge r.Address = BRANCH ∧ r.Address ≠ j))).map
          (fun r => (⟨"Initiate," ++ Itoa st.levelNode ++ "," ++ Itoa st.fragmentNode ++ "," ++
            st.state, node.Address, r.Address⟩ : Packet))) := by
  induction l generalizing st with
  | nil => simp [initiateLoop]
  | cons r rest ih =>
    unfold initiateLoop
    by_cases hc : edgeGet st.statusEdge r.Address = BRANCH ∧ r.Address ≠ j
    · have hf : (r :: rest).filter (fun r =>
            decide (edgeGet st.statusEdge r.Address = BRANCH ∧ r.Address ≠ j)) =
          r :: rest.filter (fun r =>
            decide (edgeGet st.statusEdge r.Address = BRANCH ∧ r.Address ≠ j)) := by
        rw [List.filter_cons_of_pos]
        simpa using hc
      rw [hf]
      by_cases hs : st.state = FIND
      · simp only [hc, hs, and_self, ↓reduceIte, ne_eq, not_false_eq_true]
        rw [ih]
        simp [hs, Function.iterate_succ_apply]
      · simp only [hc, hs, and_self, ↓reduceIte, ne_eq, not_false_eq_true]
        rw [ih]
        simp [hs]
    · have hf : (r :: rest).filter (fun r =>
            decide (edgeGet st.statusEdge r.Address = BRANCH ∧ r.Address ≠ j)) =
          rest.filter (fun r =>
            decide (edgeGet st.statusEdge r.Address = BRANCH ∧ r.Address ≠ j)) := by
        rw [List.filter_cons_of_neg]
        simpa using hc
      rw [hf]
      simp only [hc, ↓reduceIte]
      exact ih st

/-! ### Printing and reading integers -/

theorem digitVal_digitChar (d : Nat) (hd : d < 10) : digitVal (digitChar d) = some d := by
  interval_cases d <;> decide

theorem digitChar_not_sign (d : Nat) (hd : d < 10) :
    digitChar d ≠ ',' ∧ digitChar d ≠ '-' ∧ digitChar d ≠ '+' := by
  interval_cases d <;> decide

theorem natDigits_chars (fuel n : Nat) :
    ∀ c ∈ natDigits fuel n, ∃ d, d < 10 ∧ c = digitChar d := by
  induction fuel generalizing n with
  | zero => simp [natDigits]
  | succ f ih =>
    intro c hc
    unfold natDigits at hc
    by_cases hn : n < 10
    · simp only [hn, ↓reduceIte, List.mem_singleton] at hc
      exact ⟨n, hn, hc⟩
    · simp only [hn, ↓reduceIte, List.mem_append, List.mem_singleton] at hc
      rcases hc with hc | hc
      · exact ih _ c hc
      · exact ⟨n % 10, Nat.mod_lt _ (by decide), hc⟩

theorem natDigits_ne_nil (fuel n : Nat) : natDigits (fuel + 1) n ≠ [] := by
  unfold natDigits
  by_cases hn : n < 10
  · simp [hn]
  · simp [hn]

/-- Reading the printed digits of `n` in front of `rest` continues on `rest`
from the value extended by `n`, as long as that value fits `uint64`. -/
theorem readDigits_natDigits_append (fuel n acc : Nat) (rest : List Char) (h : n < fuel)
    (hfit : acc * 10 ^ (natDigits fuel n).length + n ≤ 18446744073709551615) :
    readDigits (natDigits fuel n ++ rest) acc =
      readDigits rest (acc * 10 ^ (natDigits fuel n).length + n) := by
  induction fuel generalizing n acc rest with
  | zero => omega
  | succ f ih =>
    unfold natDigits at hfit ⊢
    by_cases hn : n < 10
    · simp only [hn, ↓reduceIte, List.length_singleton, pow_one] at hfit
      have hno : ¬ (18446744073709551615 < acc * 10 + n) := by omega
      simp [hn, readDigits, digitVal_digitChar n hn, hno]
    · simp only [hn, ↓reduceIte, List.length_append, List.length_singleton] at hfit
      simp only [hn, ↓reduceIte, List.length_append, List.length_singleton]
      have hdiv : n / 10 < f := by omega
      have hsplit := Nat.div_add_mod n 10
      have hpow : acc * 10 ^ ((natDigits f (n / 10)).length + 1) + n =
          (acc * 10 ^ (natDigits f (n / 10)).length + n / 10) * 10 + n % 10 := by
        rw [pow_succ]
        nlinarith [hsplit]
      rw [hpow] at hfit
      rw [List.append_assoc, ih (n / 10) acc _ hdiv (by omega)]
      have hno : ¬ (18446744073709551615 <
          (acc * 10 ^ (natDigits f (n / 10)).length + n / 10) * 10 + n % 10) := by omega
      simp only [List.singleton_append, readDigits,
        digitVal_digitChar (n % 10) (Nat.mod_lt _ (by decide)), hno, ↓reduceIte]
      rw [hpow]
      rfl

theorem readDigits_natDigits (fuel n : Nat) (h : n < fuel) (hfit : n ≤ 18446744073709551615) :
    readDigits (natDigits fuel n) 0 = some n := by
  have := readDigits_natDigits_append fuel n 0 [] h (by simpa using hfit)
  simpa [readDigits] using this

/-- Reading back a printed integer of the non-negative range of `int`. -/
theorem Atoi_Itoa_nonneg (w : Int) (h0 : 0 ≤ w) (h1 : w ≤ INFINITY) :
    Atoi (Itoa w) = (w, false) := by
  obtain ⟨n, rfl⟩ := Int.eq_ofNat_of_zero_le h0
  have hItoa : Itoa (n : Int) = String.mk (natDigits (n + 1) n) := rfl
  rw [hItoa]
  have hne := natDigits_ne_nil n n
  cases hd : natDigits (n + 1) n with
  | nil => exact absurd hd hne
  | cons c cs =>
    have hmem : c ∈ natDigits (n + 1) n := by rw [hd]; simp
    obtain ⟨d, hd10, hc⟩ := natDigits_chars _ _ c hmem
    obtain ⟨_, hminus, hplus⟩ := digitChar_not_sign d hd10
    rw [← hc] at hminus hplus
    have hbound : ¬ (9223372036854775808 ≤ n) := by
      unfold INFINITY at h1
      omega
    have hread := readDigits_natDigits (n + 1) n (by omega) (by omega)
    rw [hd] at hread
    have hneg : atoiNeg (c :: cs) = false := by
      unfold atoiNeg
      split
      · rename_i heq
        simp only [List.cons.injEq] at heq
        exact absurd heq.1 hminus
      · rfl
    have hbody : atoiBody (c :: cs) = c :: cs := by
      unfold atoiBody
      split
      · rename_i heq
        simp only [List.cons.injEq] at heq
        exact absurd heq.1 hminus
      · rename_i heq
        simp only [List.cons.injEq] at heq
        exact absurd heq.1 hplus
      · rfl
    unfold Atoi
    simp [hneg, hbody, readMagnitude, hread, hbound]

/-! ### Splitting a message into fields -/

theorem splitAux_no_comma (cs acc : List Char) (h : ∀ c ∈ cs, c ≠ ',') :
    splitAux cs acc = [String.mk (acc.reverse ++ cs)] := by
  induction cs generalizing acc with
  | nil => simp [splitAux]
  | cons c rest ih =>
    have hc : c ≠ ',' := h c (by simp)
    simp only [splitAux, hc, ↓reduceIte]
    rw [ih (c :: acc) (fun x hx => h x (by simp [hx]))]
    simp

theorem splitAux_field (cs rest acc : List Char) (h : ∀ c ∈ cs, c ≠ ',') :
    splitAux (cs ++ ',' :: rest) acc = String.mk (acc.reverse ++ cs) :: splitAux rest [] := by
  induction cs generalizing acc with
  | nil => simp [splitAux]
  | cons c tl ih =>
    have hc : c ≠ ',' := h c (by simp)
    have hstep : splitAux ((c :: tl) ++ ',' :: rest) acc =
        splitAux (tl ++ ',' :: rest) (c :: acc) := by
      simp only [List.cons_append, splitAux, hc, ↓reduceIte]
      rfl
    rw [hstep, ih (c :: acc) (fun x hx => h x (by simp [hx]))]
    simp

/-- A first field without a comma, followed by a comma, splits off. -/
theorem strings_Split_cons (a b : String) (h : ∀ c ∈ a.data, c ≠ ',') :
    strings_Split (a ++ "," ++ b) = a :: strings_Split b := by
  unfold strings_Split
  have hd : (a ++ "," ++ b).data = a.data ++ ',' :: b.data := by
    simp [String.data_append]
  rw [hd, splitAux_field _ _ _ h]
  simp

theorem strings_Split_single (a : String) (h : ∀ c ∈ a.data, c ≠ ',') :
    strings_Split a = [a] := by
  unfold strings_Split
  rw [splitAux_no_comma _ _ h]
  simp

theorem Itoa_nonneg_no_comma (w : Int) (h0 : 0 ≤ w) : ∀ c ∈ (Itoa w).data, c ≠ ',' := by
  obtain ⟨n, rfl⟩ := Int.eq_ofNat_of_zero_le h0
  intro c hc
  have hItoa : Itoa (n : Int) = String.mk (natDigits (n + 1) n) := rfl
  rw [hItoa] at hc
  obtain ⟨d, hd10, hcd⟩ := natDigits_chars _ _ c hc
  rw [hcd]
  exact (digitChar_not_sign d hd10).1

/-- Fields of the message `Initiate,1,w,Find` as the sender builds it. -/
theorem strings_Split_Initiate_one (w : Int) (h0 : 0 ≤ w) :
    strings_Split ("Initiate," ++ Itoa 1 ++ "," ++ Itoa w ++ "," ++ FIND) =
      ["Initiate", "1", Itoa w, FIND] := by
  have e1 : ("Initiate," ++ Itoa 1 ++ "," ++ Itoa w ++ "," ++ FIND : String) =
      "Initiate" ++ "," ++ ("1" ++ "," ++ (Itoa w ++ "," ++ FIND)) := by
    have h1 : Itoa 1 = "1" := by decide
    have h2 : ("Initiate," : String) = "Initiate" ++ "," := by decide
    rw [h1, h2]
    simp only [String.append_assoc]
  rw [e1, strings_Split_cons _ _ (by decide), strings_Split_cons _ _ (by decide),
    strings_Split_cons _ _ (Itoa_nonneg_no_comma w h0), strings_Split_single _ (by decide)]

/-! ### The two-vertex graph -/

theorem twoVertex_wakeUp (node : yamlConfig) (n : Neighbour) (hN : node.Neighbours = [n]) :
    wakeUp node (initState node) =
      (twoVertexWoken n.Address, [⟨"Connect,0", node.Address, n.Address⟩]) := by
  have hm : getLeastWeightEdge node = (n.Address, n.EdgeWeight) := by
    simp [getLeastWeightEdge, hN, getLeastWeightEdgeLoop]
  have hz : ("Connect," ++ Itoa 0 : String) = "Connect,0" := by decide
  simp only [wakeUp, initState, hN, hm, List.foldl_cons, List.foldl_nil, hz]
  simp [mapSet, twoVertexWoken]

theorem twoVertex_getWeight (node : yamlConfig) (n : Neighbour) (hN : node.Neighbours = [n]) :
    getWeight n.Address node = Except.ok n.EdgeWeight := by
  simp [getWeight, hN, getWeightLoop]

theorem twoVertex_Connect (order : MapOrder) (node : yamlConfig) (n : Neighbour)
    (hN : node.Neighbours = [n]) :
    server_step order node (twoVertexWoken n.Address) n.Address "Connect,0" =
      Except.ok (twoVertexWoken n.Address,
        [⟨"Initiate," ++ Itoa 1 ++ "," ++ Itoa n.EdgeWeight ++ "," ++ FIND,
          node.Address, n.Address⟩]) := by
  rw [server_step_Connect order node _ n.Address "Connect,0" "0" [] (by decide)]
  have hL : (Atoi "0").1 = 0 := by decide
  have hne : BRANCH ≠ BASIC := by decide
  have h1 : goAdd 0 1 = 1 := by decide
  simp [server_Connect, hL, twoVertexWoken, edgeGet, hne, twoVertex_getWeight node n hN, h1]

theorem twoVertex_Initiate (order : MapOrder) (node : yamlConfig) (n : Neighbour)
    (hN : node.Neighbours = [n]) (h0 : 0 ≤ n.EdgeWeight) (h1 : n.EdgeWeight ≤ INFINITY)
    (horder : ∀ m, (order m).Perm m) :
    server_step order node (twoVertexWoken n.Address) n.Address
        ("Initiate," ++ Itoa 1 ++ "," ++ Itoa n.EdgeWeight ++ "," ++ FIND) =
      Except.ok (twoVertexMerged n.Address n.EdgeWeight false,
        [⟨"Report,9223372036854775807", node.Address, n.Address⟩]) := by
  rw [server_step_Initiate order node _ n.Address _ "1" (Itoa n.EdgeWeight) FIND []
    (strings_Split_Initiate_one n.EdgeWeight h0)]
  have hL : (Atoi "1").1 = 1 := by decide
  have hF : (Atoi (Itoa n.EdgeWeight)).1 = n.EdgeWeight := by
    rw [Atoi_Itoa_nonneg n.EdgeWeight h0 h1]
  have hne : BRANCH ≠ BASIC := by decide
  have hempty : order [] = [] := List.Perm.eq_nil (horder [])
  have hrep : ("Report," ++ Itoa INFINITY : String) = "Report,9223372036854775807" := by decide
  simp [server_Initiate, hL, hF, twoVertexWoken, twoVertexMerged, initiateLoop, hN, edgeGet,
    test, testCollect, hne, hempty, testSelect, report, hrep]

theorem twoVertex_Report (order : MapOrder) (node : yamlConfig) (n : Neighbour) :
    server_step order node (twoVertexMerged n.Address n.EdgeWeight false) n.Address
        "Report,9223372036854775807" =
      Except.ok (twoVertexMerged n.Address n.EdgeWeight true, []) := by
  rw [server_step_Report order node _ n.Address "Report,9223372036854775807"
    "9223372036854775807" [] (by decide)]
  have hw : (Atoi "9223372036854775807").1 = INFINITY := by decide
  have hne : FOUND ≠ FIND := by decide
  simp [server_Report, hw, twoVertexMerged, hne]

/-! ### The harness on two equal contributions -/

theorem dedupInner_some (key1 value : Int) (l : List (Int × Int)) (key2 : Int)
    (h : dedupInner key1 value l = some key2) : (key2, value) ∈ l ∧ key1 ≠ key2 := by
  induction l with
  | nil => simp [dedupInner] at h
  | cons e rest ih =>
    obtain ⟨k, v⟩ := e
    unfold dedupInner at h
    by_cases hc : value = v ∧ key1 ≠ k
    · rw [if_pos hc] at h
      simp only [Option.some.injEq] at h
      subst h
      exact ⟨by simp [hc.1], hc.2⟩
    · rw [if_neg hc] at h
      obtain ⟨hm, hne⟩ := ih h
      exact ⟨List.mem_cons_of_mem _ hm, hne⟩

theorem dedupInner_of_mem (key1 value : Int) (l : List (Int × Int)) (key2 : Int)
    (hm : (key2, value) ∈ l) (hne : key1 ≠ key2) : ∃ k, dedupInner key1 value l = some k := by
  induction l with
  | nil => simp at hm
  | cons e rest ih =>
    obtain ⟨k, v⟩ := e
    unfold dedupInner
    by_cases hc : value = v ∧ key1 ≠ k
    · exact ⟨k, by simp [hc]⟩
    · simp only [hc, ↓reduceIte]
      rcases List.mem_cons.mp hm with heq | hmem
      · exfalso
        apply hc
        simp only [Prod.mk.injEq] at heq
        exact ⟨heq.2, heq.1 ▸ hne⟩
      · exact ih hmem

/-- The harness on the two contributions of the two-vertex graph: one key is
returned, the other is deleted, whatever the iteration orders. -/
theorem dedup_pair (a b w : Int) (hab : a ≠ b) (outer : IntMapOrder) (inner : Int → IntMapOrder)
    (houter : ∀ m, (outer m).Perm m) (hinner : ∀ k m, (inner k m).Perm m) :
    ∃ k, deleteDuplicatesAndReturnOne outer inner (mapSet (mapSet [] a w) b w) =
        Except.ok (k, [(k, w)]) ∧ (k = a ∨ k = b) := by
  have hm : mapSet (mapSet ([] : GoMap Int Int) a w) b w = [(a, w), (b, w)] := by
    simp [mapSet, hab]
  rw [hm]
  unfold deleteDuplicatesAndReturnOne
  have hp := houter [(a, w), (b, w)]
  cases ho : outer [(a, w), (b, w)] with
  | nil =>
    rw [ho] at hp
    have := hp.length_eq
    simp at this
  | cons e rest =>
    obtain ⟨key1, value⟩ := e
    have hmem : (key1, value) ∈ [(a, w), (b, w)] := by
      apply hp.mem_iff.mp
      rw [ho]
      simp
    have hval : value = w := by
      simp only [List.mem_cons, Prod.mk.injEq, List.mem_singleton, List.not_mem_nil,
        or_false] at hmem
      rcases hmem with h | h <;> exact h.2
    subst hval
    have hkey : key1 = a ∨ key1 = b := by
      simp only [List.mem_cons, Prod.mk.injEq, List.mem_singleton, List.not_mem_nil,
        or_false, and_true] at hmem
      exact hmem
    have hpi := hinner key1 [(a, value), (b, value)]
    have hother : ∃ k2, (k2, value) ∈ inner key1 [(a, value), (b, value)] ∧ key1 ≠ k2 := by
      rcases hkey with h | h
      · exact ⟨b, hpi.mem_iff.mpr (by simp), h ▸ hab⟩
      · exact ⟨a, hpi.mem_iff.mpr (by simp), h ▸ hab.symm⟩
    obtain ⟨k2, hk2, hne2⟩ := hother
    obtain ⟨k3, hk3⟩ := dedupInner_of_mem key1 value _ k2 hk2 hne2
    obtain ⟨hk3m, hk3ne⟩ := dedupInner_some key1 value _ k3 hk3
    have hk3mem : (k3, value) ∈ [(a, value), (b, value)] := hpi.mem_iff.mp hk3m
    simp only [List.mem_cons, Prod.mk.injEq, List.mem_singleton, List.not_mem_nil,
      or_false, and_true] at hk3mem
    refine ⟨key1, ?_, hkey⟩
    simp only [dedupOuter, hk3]
    rcases hkey with h | h <;> rcases hk3mem with h3 | h3
    · exact absurd (h.trans h3.symm) hk3ne
    · subst h; subst h3
      simp [mapDelete, hab]
    · subst h; subst h3
      simp [mapDelete, hab, hk3ne]
    · exact absurd (h.trans h3.symm) hk3ne

theorem server_step_ChangeRoot (order : MapOrder) (node : yamlConfig) (st : NodeState)
    (j message : String) (rest : List String)
    (hsplit : strings_Split message = "ChangeRoot" :: rest) :
    server_step order node st j message = Except.ok (changeRoot node st) := by
  simp [server_step, hsplit, index]

theorem getWeight_error_iff (address : String) (node : yamlConfig) :
    getWeight address node = Except.error (Fault.exit (-1)) ↔
      address ∉ node.Neighbours.map Neighbour.Address := by
  unfold getWeight
  rw [getWeightLoop_eq_find]
  constructor
  · intro h hmem
    obtain ⟨n, hn⟩ := find_of_mem_addresses address node.Neighbours hmem
    rw [hn] at h
    cases h
  · intro h
    cases hf : node.Neighbours.find? (fun n => decide (address = n.Address)) with
    | none => rfl
    | some n =>
      exfalso
      apply h
      have hm := List.mem_of_find?_eq_some hf
      have hp := List.find?_some hf
      simp only [decide_eq_true_eq] at hp
      rw [hp]
      exact List.mem_map_of_mem _ hm

/-- Reading back a printed integer of the range of `int`. -/
theorem Atoi_Itoa (i : Int) (h0 : -9223372036854775808 ≤ i) (h1 : i ≤ INFINITY) :
    Atoi (Itoa i) = (i, false) := by
  cases i with
  | ofNat n => exact Atoi_Itoa_nonneg (Int.ofNat n) (Int.ofNat_nonneg n) h1
  | negSucc n =>
    have hItoa : Itoa (Int.negSucc n) = String.mk ('-' :: natDigits (n + 2) (n + 1)) := rfl
    rw [hItoa]
    have hn : n + 1 ≤ 9223372036854775808 := by
      have := Int.negSucc_eq n
      omega
    have hne := natDigits_ne_nil (n + 1) (n + 1)
    have hread := readDigits_natDigits (n + 2) (n + 1) (by omega) (by omega)
    cases hd : natDigits (n + 2) (n + 1) with
    | nil => exact absurd hd hne
    | cons c cs =>
      rw [hd] at hread
      have hbound : ¬ (9223372036854775808 < n + 1) := by omega
      have hval : -((n + 1 : Nat) : Int) = Int.negSucc n := by
        rw [Int.negSucc_eq]
        push_cast
        ring
      unfold Atoi
      simp only [atoiNeg, atoiBody, readMagnitude, hread, ↓reduceIte, hbound, hval]

theorem Itoa_no_comma (i : Int) : ∀ c ∈ (Itoa i).data, c ≠ ',' := by
  cases i with
  | ofNat n => exact Itoa_nonneg_no_comma (Int.ofNat n) (Int.ofNat_nonneg n)
  | negSucc n =>
    intro c hc
    have hItoa : Itoa (Int.negSucc n) = String.mk ('-' :: natDigits (n + 2) (n + 1)) := rfl
    rw [hItoa] at hc
    simp only [List.mem_cons] at hc
    rcases hc with hc | hc
    · rw [hc]; decide
    · obtain ⟨d, hd10, hcd⟩ := natDigits_chars _ _ c hc
      rw [hcd]
      exact (digitChar_not_sign d hd10).1

/-- Fields of `Connect,<level>` as the sender builds it. -/
theorem strings_Split_Connect (l : Int) :
    strings_Split ("Connect," ++ Itoa l) = ["Connect", Itoa l] := by
  have e1 : ("Connect," ++ Itoa l : String) = "Connect" ++ "," ++ Itoa l := by
    have h2 : ("Connect," : String) = "Connect" ++ "," := by decide
    rw [h2]
  rw [e1, strings_Split_cons _ _ (by decide), strings_Split_single _ (Itoa_no_comma l)]

/-- Fields of `Report,<weight>` as the sender builds it. -/
theorem strings_Split_Report (w : Int) :
    strings_Split ("Report," ++ Itoa w) = ["Report", Itoa w] := by
  have e1 : ("Report," ++ Itoa w : String) = "Report" ++ "," ++ Itoa w := by
    have h2 : ("Report," : String) = "Report" ++ "," := by decide
    rw [h2]
  rw [e1, strings_Split_cons _ _ (by decide), strings_Split_single _ (Itoa_no_comma w)]

/-- Fields of `Test,<level>,<fragment>` as the sender builds it. -/
theorem strings_Split_Test (l f : Int) :
    strings_Split ("Test," ++ Itoa l ++ "," ++ Itoa f) = ["Test", Itoa l, Itoa f] := by
  have e1 : ("Test," ++ Itoa l ++ "," ++ Itoa f : String) =
      "Test" ++ "," ++ (Itoa l ++ "," ++ Itoa f) := by
    have h2 : ("Test," : String) = "Test" ++ "," := by decide
    rw [h2]
    simp only [String.append_assoc]
  rw [e1, strings_Split_cons _ _ (by decide), strings_Split_cons _ _ (Itoa_no_comma l),
    strings_Split_single _ (Itoa_no_comma f)]

/-- Fields of `Initiate,<level>,<fragment>,<state>` as the sender builds it, for a
state token without a comma. -/
theorem strings_Split_Initiate (l f : Int) (state : String)
    (hstate : ∀ c ∈ state.data, c ≠ ',') :
    strings_Split ("Initiate," ++ Itoa l ++ "," ++ Itoa f ++ "," ++ state) =
      ["Initiate", Itoa l, Itoa f, state] := by
  have e1 : ("Initiate," ++ Itoa l ++ "," ++ Itoa f ++ "," ++ state : String) =
      "Initiate" ++ "," ++ (Itoa l ++ "," ++ (Itoa f ++ "," ++ state)) := by
    have h2 : ("Initiate," : String) = "Initiate" ++ "," := by decide
    rw [h2]
    simp only [String.append_assoc]
  rw [e1, strings_Split_cons _ _ (by decide), strings_Split_cons _ _ (Itoa_no_comma l),
    strings_Split_cons _ _ (Itoa_no_comma f), strings_Split_single _ hstate]

/-! ### The messages handed to `send` -/

theorem WireRecord_Connect (l : Int) : WireRecord ("Connect," ++ Itoa l) :=
  Or.inl ⟨l, rfl⟩

theorem WireRecord_Initiate (l f : Int) (state : String) (h : state = FIND ∨ state = FOUND) :
    WireRecord ("Initiate," ++ Itoa l ++ "," ++ Itoa f ++ "," ++ state) :=
  Or.inr (Or.inl ⟨l, f, state, h, rfl⟩)

theorem WireRecord_Test (l f : Int) : WireRecord ("Test," ++ Itoa l ++ "," ++ Itoa f) :=
  Or.inr (Or.inr (Or.inl ⟨l, f, rfl⟩))

theorem WireRecord_Report (w : Int) : WireRecord ("Report," ++ Itoa w) :=
  Or.inr (Or.inr (Or.inr (Or.inr (Or.inr (Or.inl ⟨w, rfl⟩)))))

theorem report_wire (node : yamlConfig) (st : NodeState) :
    ∀ p ∈ (report node st).2, WireRecord p.message := by
  intro p hp
  unfold report at hp
  split at hp
  · simp only [List.mem_singleton] at hp
    subst hp
    exact WireRecord_Report _
  · simp at hp

theorem test_wire (order : MapOrder) (node : yamlConfig) (st : NodeState) :
    ∀ p ∈ (test order node st).2, WireRecord p.message := by
  intro p hp
  unfold test at hp
  simp only at hp
  split at hp
  · simp only [List.mem_singleton] at hp
    subst hp
    exact WireRecord_Test _ _
  · exact report_wire node _ p hp

theorem changeRoot_wire (node : yamlConfig) (st : NodeState) :
    ∀ p ∈ (changeRoot node st).2, WireRecord p.message := by
  intro p hp
  unfold changeRoot at hp
  split at hp
  · simp only [List.mem_singleton] at hp
    subst hp
    right; right; right; right; right; right; left
    rfl
  · simp only [List.mem_singleton] at hp
    subst hp
    exact WireRecord_Connect _

theorem report_state (node : yamlConfig) (st : NodeState) :
    (report node st).1.state = FOUND ∨ (report node st).1.state = st.state := by
  unfold report
  split
  · left; rfl
  · right; rfl

theorem test_state (order : MapOrder) (node : yamlConfig) (st : NodeState) :
    (test order node st).1.state = FOUND ∨ (test order node st).1.state = st.state := by
  unfold test
  simp only
  split
  · right; rfl
  · exact report_state node _

theorem stopSweep_wire (node : yamlConfig) (st : NodeState) (l : List Neighbour) :
    ∀ p ∈ stopSweep node st l, WireRecord p.message := by
  intro p hp
  rw [stopSweep_eq] at hp
  obtain ⟨n, _, rfl⟩ := List.mem_map.mp hp
  right; right; right; right; right; right; right
  rfl

/-- The last character of a printed integer is a digit. -/
theorem Itoa_getLast (i : Int) :
    ∃ d, d < 10 ∧ (Itoa i).data.getLast? = some (digitChar d) := by
  have hnat : ∀ fuel n : Nat, ∃ d, d < 10 ∧
      (natDigits (fuel + 1) n).getLast? = some (digitChar d) := by
    intro fuel n
    unfold natDigits
    by_cases hn : n < 10
    · exact ⟨n, hn, by simp [hn]⟩
    · exact ⟨n % 10, Nat.mod_lt _ (by decide), by simp [hn]⟩
  cases i with
  | ofNat n => exact hnat n n
  | negSucc n =>
    obtain ⟨d, hd, hlast⟩ := hnat (n + 1) (n + 1)
    refine ⟨d, hd, ?_⟩
    have hItoa : (Itoa (Int.negSucc n)).data = '-' :: natDigits (n + 2) (n + 1) := rfl
    rw [hItoa]
    have hne := natDigits_ne_nil (n + 1) (n + 1)
    cases hc : natDigits (n + 2) (n + 1) with
    | nil => exact absurd hc hne
    | cons c cs =>
      rw [hc] at hlast
      rw [List.getLast?_cons_cons]
      exact hlast

theorem digitChar_ne_newline (d : Nat) (hd : d < 10) : digitChar d ≠ '\n' := by
  interval_cases d <;> decide

theorem append_Itoa_getLast (a : String) (i : Int) :
    (a ++ Itoa i).data.getLast? ≠ some '\n' := by
  obtain ⟨d, hd, hlast⟩ := Itoa_getLast i
  rw [String.data_append, List.getLast?_append, hlast]
  simp only [Option.or_some, ne_eq, Option.some.injEq]
  exact digitChar_ne_newline d hd

/-- No record of the source ends with a newline. -/
theorem WireRecord_no_newline (s : String) (h : WireRecord s) :
    s.data.getLast? ≠ some '\n' := by
  rcases h with ⟨l, rfl⟩ | ⟨l, f, state, hstate, rfl⟩ | ⟨l, f, rfl⟩ | rfl | rfl | ⟨w, rfl⟩ |
    rfl | rfl
  · exact append_Itoa_getLast _ _
  · rw [String.data_append, List.getLast?_append]
    rcases hstate with h | h <;> rw [h] <;> simp [FIND, FOUND]
  · exact append_Itoa_getLast _ _
  · decide
  · decide
  · exact append_Itoa_getLast _ _
  · decide
  · decide

/-- The state token of a received `Initiate` record is `Find` or `Found`. -/
theorem WireRecord_Initiate_token (message a b S : String) (rest : List String)
    (h : WireRecord message)
    (hsplit : strings_Split message = "Initiate" :: a :: b :: S :: rest) :
    S = FIND ∨ S = FOUND := by
  rcases h with ⟨l, rfl⟩ | ⟨l, f, state, hstate, rfl⟩ | ⟨l, f, rfl⟩ | rfl | rfl | ⟨w, rfl⟩ |
    rfl | rfl
  · rw [strings_Split_Connect] at hsplit
    simp at hsplit
  · have hsc : ∀ c ∈ state.data, c ≠ ',' := by
      rcases hstate with h | h <;> rw [h] <;> decide
    rw [strings_Split_Initiate l f state hsc] at hsplit
    simp only [List.cons.injEq, true_and] at hsplit
    rw [← hsplit.2.2.1]
    exact hstate
  · rw [strings_Split_Test] at hsplit
    simp at hsplit
  · have hs : strings_Split "Accept" = ["Accept"] := by decide
    rw [hs] at hsplit
    simp at hsplit
  · have hs : strings_Split "Reject" = ["Reject"] := by decide
    rw [hs] at hsplit
    simp at hsplit
  · rw [strings_Split_Report] at hsplit
    simp at hsplit
  · have hs : strings_Split "ChangeRoot," = ["ChangeRoot", ""] := by decide
    rw [hs] at hsplit
    simp at hsplit
  · have hs : strings_Split "Stop" = ["Stop"] := by decide
    rw [hs] at hsplit
    simp at hsplit

theorem initiateLoop_wire (node : yamlConfig) (j : String) (l : List Neighbour)
    (st : NodeState) (hstate : st.state = FIND ∨ st.state = FOUND) :
    ∀ p ∈ (initiateLoop node j l st).2, WireRecord p.message := by
  intro p hp
  rw [initiateLoop_eq] at hp
  simp only at hp
  obtain ⟨n, _, rfl⟩ := List.mem_map.mp hp
  exact WireRecord_Initiate _ _ _ hstate

/-- Records in, records out: when the received message is one of the records and
`state` is `Find` or `Found`, every message sent by the iteration is one of the
records, and `state` is `Find` or `Found` afterwards. -/
theorem server_step_wire (order : MapOrder) (node : yamlConfig) (st : NodeState)
    (j message : String) (r : NodeState × List Packet)
    (hstep : server_step order node st j message = Except.ok r)
    (hmsg : WireRecord message) (hstate : st.state = FIND ∨ st.state = FOUND) :
    (∀ p ∈ r.2, WireRecord p.message) ∧ (r.1.state = FIND ∨ r.1.state = FOUND) := by
  rcases server_step_inv order node st j message r hstep with
    ⟨a, rest, _, h⟩ | ⟨a, b, S, rest, hs, h⟩ | ⟨a, b, rest, _, h⟩ | ⟨rest, _, h⟩ |
    ⟨rest, _, h⟩ | ⟨a, rest, _, h⟩ | ⟨rest, _, h⟩ | ⟨rest, _, h⟩ | h
  · unfold server_Connect at h
    by_cases h1 : (Atoi a).1 < st.levelNode
    · by_cases hst : st.state = FIND
      · simp only [h1, hst, ↓reduceIte, Except.ok.injEq] at h
        subst h
        refine ⟨?_, Or.inl rfl⟩
        intro p hp
        simp only [List.mem_singleton] at hp
        subst hp
        exact WireRecord_Initiate _ _ _ (Or.inl rfl)
      · simp only [h1, hst, ↓reduceIte, Except.ok.injEq] at h
        subst h
        refine ⟨?_, hstate⟩
        intro p hp
        simp only [List.mem_singleton] at hp
        subst hp
        exact WireRecord_Initiate _ _ _ hstate
    · by_cases hb : edgeGet st.statusEdge j = BASIC
      · simp only [h1, hb, ↓reduceIte, Except.ok.injEq, wait] at h
        subst h
        refine ⟨?_, hstate⟩
        intro p hp
        simp only [List.mem_singleton] at hp
        subst hp
        exact hmsg
      · simp only [h1, hb, ↓reduceIte] at h
        split at h
        · cases h
        · cases h
          refine ⟨?_, hstate⟩
          intro p hp
          simp only [List.mem_singleton] at hp
          subst hp
          exact WireRecord_Initiate _ _ _ (Or.inl rfl)
  · have hS := WireRecord_Initiate_token message a b S rest hmsg hs
    subst h
    unfold server_Initiate
    simp only
    have hloopw := initiateLoop_wire node j node.Neighbours
      { st with levelNode := (Atoi a).1, fragmentNode := (Atoi b).1, state := S, parent := j,
                bestNode := "", bestWt := INFINITY } hS
    have hloops := (initiateLoop_frame node j node.Neighbours
      { st with levelNode := (Atoi a).1, fragmentNode := (Atoi b).1, state := S, parent := j,
                bestNode := "", bestWt := INFINITY }).2.2.1
    split
    · refine ⟨?_, ?_⟩
      · intro p hp
        simp only [List.mem_append] at hp
        rcases hp with hp | hp
        · exact hloopw p hp
        · exact test_wire _ _ _ p hp
      · simp only
        rcases test_state order node (initiateLoop node j node.Neighbours
          { st with levelNode := (Atoi a).1, fragmentNode := (Atoi b).1, state := S,
                    parent := j, bestNode := "", bestWt := INFINITY }).1 with ht | ht
        · right; exact ht
        · rw [ht, hloops]; exact hS
    · refine ⟨hloopw, ?_⟩
      rw [hloops]
      exact hS
  · subst h
    unfold server_Test
    by_cases h1 : (Atoi a).1 > st.levelNode
    · simp only [h1, ↓reduceIte, wait]
      refine ⟨?_, hstate⟩
      intro p hp
      simp only [List.mem_singleton] at hp
      subst hp
      exact hmsg
    by_cases h2 : (Atoi b).1 ≠ st.fragmentNode
    · simp only [h1, h2, ↓reduceIte, ne_eq, not_false_eq_true]
      refine ⟨?_, hstate⟩
      intro p hp
      simp only [List.mem_singleton] at hp
      subst hp
      right; right; right; left
      rfl
    have hrej : WireRecord "Reject" := by
      right; right; right; right; left
      rfl
    simp only [h1, h2, ↓reduceIte]
    by_cases hb : edgeGet st.statusEdge j = BASIC <;> by_cases ht : st.testNode ≠ j
    · simp only [hb, ↓reduceIte, ht, ne_eq, not_false_eq_true]
      refine ⟨?_, hstate⟩
      intro p hp
      simp only [List.mem_singleton] at hp
      subst hp
      exact hrej
    · simp only [hb, ↓reduceIte, ht]
      refine ⟨test_wire _ _ _, ?_⟩
      rcases test_state order node { st with statusEdge := mapSet st.statusEdge j REJECTED }
        with h | h
      · right; exact h
      · rw [h]; exact hstate
    · simp only [hb, ↓reduceIte, ht, ne_eq, not_false_eq_true]
      refine ⟨?_, hstate⟩
      intro p hp
      simp only [List.mem_singleton] at hp
      subst hp
      exact hrej
    · simp only [hb, ↓reduceIte, ht]
      refine ⟨test_wire _ _ _, ?_⟩
      rcases test_state order node st with h | h
      · right; exact h
      · rw [h]; exact hstate
  · unfold server_Accept at h
    simp only at h
    split at h
    · cases h
    · cases h
      refine ⟨report_wire _ _, ?_⟩
      rename_i jWeight _
      rcases report_state node (if jWeight < st.bestWt then
          { st with testNode := "", bestNode := j, bestWt := jWeight }
        else { st with testNode := "" }) with h | h
      · right; exact h
      · rw [h]
        split <;> exact hstate
  · subst h
    unfold server_Reject
    simp only
    refine ⟨test_wire _ _ _, ?_⟩
    rcases test_state order node (if edgeGet st.statusEdge j = BASIC then
        { st with statusEdge := mapSet st.statusEdge j REJECTED } else st) with h | h
    · right; exact h
    · rw [h]
      split <;> exact hstate
  · subst h
    unfold server_Report
    by_cases hj : j ≠ st.parent
    · simp only [hj, ↓reduceIte, ne_eq, not_false_eq_true]
      refine ⟨report_wire _ _, ?_⟩
      rcases report_state node (if (Atoi a).1 < st.bestWt then
          { st with findCount := goSub st.findCount 1, bestWt := (Atoi a).1, bestNode := j }
        else { st with findCount := goSub st.findCount 1 }) with h | h
      · right; exact h
      · rw [h]
        split <;> exact hstate
    by_cases hs : st.state = FIND
    · simp only [hj, hs, ↓reduceIte, wait]
      refine ⟨?_, Or.inl trivial⟩
      intro p hp
      simp only [List.mem_singleton] at hp
      subst hp
      exact hmsg
    by_cases hw : (Atoi a).1 > st.bestWt
    · simp only [hj, hs, hw, ↓reduceIte]
      refine ⟨changeRoot_wire _ _, ?_⟩
      have : (changeRoot node st).1.state = st.state := by
        unfold changeRoot
        split <;> rfl
      rw [this]
      exact hstate
    · simp only [hj, hs, hw, ↓reduceIte]
      split
      · exact ⟨by simp, hstate⟩
      · exact ⟨by simp, hstate⟩
  · subst h
    refine ⟨changeRoot_wire _ _, ?_⟩
    have : (changeRoot node st).1.state = st.state := by
      unfold changeRoot
      split <;> rfl
    rw [this]
    exact hstate
  · subst h
    exact ⟨by simp, hstate⟩
  · subst h
    exact ⟨by simp, hstate⟩

/-! ### The harness on a map with one duplicated value -/

theorem mapDelete_eq_filter (m : GoMap Int Int) (k : Int) :
    mapDelete m k = m.filter (fun e => decide (e.1 ≠ k)) := by
  induction m with
  | nil => rfl
  | cons e rest ih =>
    obtain ⟨k0, v0⟩ := e
    by_cases h : k0 = k
    · simp [mapDelete, h, ih]
    · simp [mapDelete, h, ih]

/-- In a map, a key holds one value. -/
theorem map_value_unique (m : GoMap Int Int) (hkeys : (m.map Prod.fst).Nodup)
    (k v1 v2 : Int) (h1 : (k, v1) ∈ m) (h2 : (k, v2) ∈ m) : v1 = v2 := by
  have := List.inj_on_of_nodup_map hkeys h1 h2 rfl
  exact (Prod.mk.inj this).2

/-- Outer loop of the harness on the entries still to visit, when the map has one
value `v` at the two keys `a` and `b` and no other value twice. -/
theorem dedupOuter_spec (inner : Int → IntMapOrder) (m : GoMap Int Int) (a b v : Int)
    (ha : (a, v) ∈ m) (hb : (b, v) ∈ m) (hab : a ≠ b)
    (huniq : ∀ k1 k2 v1, (k1, v1) ∈ m → (k2, v1) ∈ m → k1 ≠ k2 →
      (k1 = a ∧ k2 = b) ∨ (k1 = b ∧ k2 = a))
    (hinner : ∀ k m, (inner k m).Perm m)
    (l : List (Int × Int)) (hsub : ∀ e ∈ l, e ∈ m) (hin : (a, v) ∈ l ∨ (b, v) ∈ l) :
    ∃ k other, ((k = a ∧ other = b) ∨ (k = b ∧ other = a)) ∧
      dedupOuter inner m l = Except.ok (k, mapDelete m other) := by
  induction l with
  | nil => simp at hin
  | cons e rest ih =>
    obtain ⟨key1, value⟩ := e
    have hmem : (key1, value) ∈ m := hsub _ (by simp)
    unfold dedupOuter
    cases hd : dedupInner key1 value (inner key1 m) with
    | some key2 =>
      obtain ⟨hk2, hne⟩ := dedupInner_some key1 value _ key2 hd
      have hk2m : (key2, value) ∈ m := (hinner key1 m).mem_iff.mp hk2
      have hpair := huniq key1 key2 value hmem hk2m hne
      exact ⟨key1, key2, hpair, rfl⟩
    | none =>
      simp only
      have hval : value ≠ v ∨ (key1 ≠ a ∧ key1 ≠ b) := by
        by_contra hcon
        push_neg at hcon
        obtain ⟨hv, hk⟩ := hcon
        subst hv
        by_cases hka : key1 = a
        · obtain ⟨k, hk3⟩ := dedupInner_of_mem key1 value (inner key1 m) b
            ((hinner key1 m).mem_iff.mpr hb) (hka ▸ hab)
          rw [hd] at hk3
          cases hk3
        · obtain ⟨k, hk3⟩ := dedupInner_of_mem key1 value (inner key1 m) a
            ((hinner key1 m).mem_iff.mpr ha) hka
          rw [hd] at hk3
          cases hk3
      have hnot : (a, v) ≠ (key1, value) ∧ (b, v) ≠ (key1, value) := by
        rcases hval with hv | ⟨hka, hkb⟩
        · constructor <;> intro h <;> exact hv (Prod.mk.inj h).2.symm
        · constructor
          · intro h; exact hka (Prod.mk.inj h).1.symm
          · intro h; exact hkb (Prod.mk.inj h).1.symm
      apply ih (fun e he => hsub e (List.mem_cons_of_mem _ he))
      rcases hin with h | h
      · left
        rcases List.mem_cons.mp h with h1 | h1
        · exact absurd h1 hnot.1
        · exact h1
      · right
        rcases List.mem_cons.mp h with h1 | h1
        · exact absurd h1 hnot.2
        · exact h1

/-! ### Procedure `test` -/

theorem mapSet_append_of_not_mem (m : GoMap String Int) (k : String) (v : Int)
    (h : k ∉ m.map Prod.fst) : mapSet m k v = m ++ [(k, v)] := by
  induction m with
  | nil => rfl
  | cons e rest ih =>
    obtain ⟨k0, v0⟩ := e
    simp only [List.map_cons, List.mem_cons, not_or] at h
    have hne : k0 ≠ k := fun heq => h.1 heq.symm
    simp only [mapSet, hne, ↓reduceIte, List.cons_append, List.cons.injEq, true_and]
    exact ih h.2

/-- With pairwise distinct addresses, the first loop of `test` collects the
`BASIC` entries in table order. -/
theorem testCollect_eq (statusEdge : GoMap String String) (l : List Neighbour)
    (acc : GoMap String Int)
    (hnodup : (l.map Neighbour.Address).Nodup)
    (hdisj : ∀ n ∈ l, n.Address ∉ acc.map Prod.fst) :
    testCollect statusEdge l acc =
      acc ++ (l.filter (fun n => decide (edgeGet statusEdge n.Address = BASIC))).map
        (fun n => (n.Address, n.EdgeWeight)) := by
  induction l generalizing acc with
  | nil => simp [testCollect]
  | cons n rest ih =>
    simp only [List.map_cons, List.nodup_cons] at hnodup
    have hrest : ∀ x ∈ rest, x.Address ∉ acc.map Prod.fst :=
      fun x hx => hdisj x (List.mem_cons_of_mem _ hx)
    unfold testCollect
    by_cases hb : edgeGet statusEdge n.Address = BASIC
    · simp only [hb, ↓reduceIte]
      rw [mapSet_append_of_not_mem acc n.Address n.EdgeWeight (hdisj n (by simp))]
      rw [ih _ hnodup.2]
      · rw [List.filter_cons_of_pos (by simpa using hb)]
        simp
      · intro x hx hmem
        simp only [List.map_append, List.map_cons, List.map_nil, List.mem_append,
          List.mem_singleton] at hmem
        rcases hmem with hmem | hmem
        · exact hrest x hx hmem
        · exact hnodup.1 (hmem ▸ List.mem_map_of_mem _ hx)
    · simp only [hb, ↓reduceIte]
      rw [ih acc hnodup.2 hrest, List.filter_cons_of_neg (by simpa using hb)]

/-- Second loop of `test` once a first entry has been taken. -/
theorem testSelect_succ (l : List (String × Int)) (i : Nat) (min : Int) (least : String) :
    (testSelect l (i + 1) min least = (least, min) ∧ ∀ x ∈ l, min ≤ x.2) ∨
    (∃ e ∈ l, testSelect l (i + 1) min least = (e.1, e.2) ∧ e.2 < min ∧
      ∀ x ∈ l, e.2 ≤ x.2) := by
  induction l generalizing i min least with
  | nil => left; simp [testSelect]
  | cons e rest ih =>
    obtain ⟨key, value⟩ := e
    by_cases hlt : value < min
    · have hstep : testSelect ((key, value) :: rest) (i + 1) min least =
          testSelect rest (i + 1 + 1) value key := by
        simp [testSelect, hlt]
      right
      rcases ih (i + 1) value key with ⟨heq, hall⟩ | ⟨e, he, heq, hlt2, hall⟩
      · refine ⟨(key, value), by simp, by rw [hstep, heq], hlt, ?_⟩
        intro x hx
        rcases List.mem_cons.mp hx with rfl | hmem
        · exact le_refl _
        · exact hall x hmem
      · refine ⟨e, List.mem_cons_of_mem _ he, by rw [hstep, heq], by omega, ?_⟩
        intro x hx
        rcases List.mem_cons.mp hx with rfl | hmem
        · exact le_of_lt hlt2
        · exact hall x hmem
    · have hstep : testSelect ((key, value) :: rest) (i + 1) min least =
          testSelect rest (i + 1 + 1) min least := by
        simp [testSelect, hlt]
      rcases ih (i + 1) min least with ⟨heq, hall⟩ | ⟨e, he, heq, hlt2, hall⟩
      · left
        refine ⟨by rw [hstep, heq], ?_⟩
        intro x hx
        rcases List.mem_cons.mp hx with rfl | hmem
        · exact not_lt.mp hlt
        · exact hall x hmem
      · right
        refine ⟨e, List.mem_cons_of_mem _ he, by rw [hstep, heq], hlt2, ?_⟩
        intro x hx
        rcases List.mem_cons.mp hx with rfl | hmem
        · have := not_lt.mp hlt
          simp only at this ⊢
          omega
        · exact hall x hmem

/-- Second loop of `test` on a non-empty list: an entry of least value. -/
theorem testSelect_spec (l : List (String × Int)) (hne : l ≠ []) :
    ∃ e ∈ l, testSelect l 0 0 "" = (e.1, e.2) ∧ ∀ x ∈ l, e.2 ≤ x.2 := by
  cases l with
  | nil => exact absurd rfl hne
  | cons e0 rest =>
    obtain ⟨key, value⟩ := e0
    have hstep : testSelect ((key, value) :: rest) 0 0 "" = testSelect rest (0 + 1) value key := by
      simp [testSelect]
    rcases testSelect_succ rest 0 value key with ⟨heq, hall⟩ | ⟨e, he, heq, hlt2, hall⟩
    · refine ⟨(key, value), by simp, by rw [hstep, heq], ?_⟩
      intro x hx
      rcases List.mem_cons.mp hx with rfl | hmem
      · exact le_refl _
      · exact hall x hmem
    · refine ⟨e, List.mem_cons_of_mem _ he, by rw [hstep, heq], ?_⟩
      intro x hx
      rcases List.mem_cons.mp hx with rfl | hmem
      · exact le_of_lt hlt2
      · exact hall x hmem

/-- With pairwise distinct addresses and weights, and whatever the iteration order,
the second loop of `test` ends on the address of the `BASIC` entry of least
weight. -/
theorem test_least (order : MapOrder) (node : yamlConfig) (st : NodeState)
    (hAddr : (node.Neighbours.map Neighbour.Address).Nodup)
    (hW : (node.Neighbours.map Neighbour.EdgeWeight).Nodup)
    (horder : ∀ m, (order m).Perm m)
    (e : Neighbour)
    (he : e ∈ node.Neighbours.filter
      (fun n => decide (edgeGet st.statusEdge n.Address = BASIC)))
    (hmin : ∀ n ∈ node.Neighbours.filter
      (fun n => decide (edgeGet st.statusEdge n.Address = BASIC)),
      e.EdgeWeight ≤ n.EdgeWeight) :
    (testSelect (order (testCollect st.statusEdge node.Neighbours [])) 0 0 "").1 = e.Address := by
  have hcol := testCollect_eq st.statusEdge node.Neighbours [] hAddr (by simp)
  simp only [List.nil_append] at hcol
  rw [hcol]
  have hperm := horder ((node.Neighbours.filter
    (fun n => decide (edgeGet st.statusEdge n.Address = BASIC))).map
      (fun n => (n.Address, n.EdgeWeight)))
  have hein : (e.Address, e.EdgeWeight) ∈ order ((node.Neighbours.filter
      (fun n => decide (edgeGet st.statusEdge n.Address = BASIC))).map
        (fun n => (n.Address, n.EdgeWeight))) :=
    hperm.mem_iff.mpr (List.mem_map_of_mem _ he)
  have hne : order ((node.Neighbours.filter
      (fun n => decide (edgeGet st.statusEdge n.Address = BASIC))).map
        (fun n => (n.Address, n.EdgeWeight))) ≠ [] := List.ne_nil_of_mem hein
  obtain ⟨x, hx, hres, hall⟩ := testSelect_spec _ hne
  rw [hres]
  obtain ⟨n, hn, hnx⟩ := List.mem_map.mp (hperm.mem_iff.mp hx)
  have h1 : x.2 ≤ e.EdgeWeight := hall _ hein
  have h2 : e.EdgeWeight ≤ n.EdgeWeight := hmin n hn
  have hx2 : x.2 = n.EdgeWeight := by rw [← hnx]
  have hweq : n.EdgeWeight = e.EdgeWeight := by omega
  have hneq : n = e :=
    List.inj_on_of_nodup_map hW (List.mem_filter.mp hn).1 (List.mem_filter.mp he).1 hweq
  rw [← hnx, hneq]

/-! ### The invariant of `findCount` -/

theorem FIND_ne_FOUND : FIND ≠ FOUND := by decide

theorem report_FindCountInv (node : yamlConfig) (st : NodeState) (h : FindCountInv st) :
    FindCountInv (report node st).1 := by
  unfold report
  by_cases hc : st.findCount = 0 ∧ st.testNode = ""
  · rw [if_pos hc]
    exact ⟨h.1, fun _ => hc.1⟩
  · rw [if_neg hc]
    exact h

theorem test_FindCountInv (order : MapOrder) (node : yamlConfig) (st : NodeState)
    (h : FindCountInv st) : FindCountInv (test order node st).1 := by
  unfold test
  simp only
  split
  · exact h
  · exact report_FindCountInv node { st with testNode := "" } h

theorem changeRoot_FindCountInv (node : yamlConfig) (st : NodeState) (h : FindCountInv st) :
    FindCountInv (changeRoot node st).1 := by
  unfold changeRoot
  split
  · exact h
  · exact h

theorem filter_length_le_cast (l : List Neighbour) (p : Neighbour → Bool) :
    ((l.filter p).length : Int) ≤ (l.length : Int) := by
  exact_mod_cast List.length_filter_le p l

/-- Every successful iteration keeps the invariant of `findCount`, short of
overflow, except a `Report` from a non-parent at `findCount = 0` and an
`Initiate` with state `Found` at a non-zero `findCount`. -/
theorem server_step_FindCountInv (order : MapOrder) (node : yamlConfig) (st : NodeState)
    (j message : String) (r : NodeState × List Packet)
    (hstep : server_step order node st j message = Except.ok r)
    (hinv : FindCountInv st)
    (hfit : st.findCount + node.Neighbours.length < INFINITY)
    (hrep : ¬ ∃ a rest, strings_Split message = "Report" :: a :: rest ∧ j ≠ st.parent ∧
      st.findCount = 0)
    (hini : ¬ ∃ a b rest, strings_Split message = "Initiate" :: a :: b :: FOUND :: rest ∧
      st.findCount ≠ 0) :
    FindCountInv r.1 := by
  have hlen : (0 : Int) ≤ node.Neighbours.length := Int.ofNat_nonneg _
  unfold INFINITY at hfit
  rcases server_step_inv order node st j message r hstep with
    ⟨a, rest, _, h⟩ | ⟨a, b, S, rest, hs, h⟩ | ⟨a, b, rest, _, h⟩ | ⟨rest, _, h⟩ |
    ⟨rest, _, h⟩ | ⟨a, rest, hs, h⟩ | ⟨rest, _, h⟩ | ⟨rest, _, h⟩ | h
  · unfold server_Connect at h
    by_cases h1 : (Atoi a).1 < st.levelNode
    · by_cases hst : st.state = FIND
      · simp only [h1, hst, ↓reduceIte, Except.ok.injEq] at h
        subst h
        have hadd : goAdd st.findCount 1 = st.findCount + 1 :=
          goAdd_one _ (by have := hinv.1; omega) (by omega)
        refine ⟨?_, ?_⟩
        · simp only
          rw [hadd]
          have := hinv.1
          omega
        · intro hf
          simp only at hf
          exact absurd hf FIND_ne_FOUND
      · simp only [h1, hst, ↓reduceIte, Except.ok.injEq] at h
        subst h
        exact hinv
    · by_cases hb : edgeGet st.statusEdge j = BASIC
      · simp only [h1, hb, ↓reduceIte, Except.ok.injEq, wait] at h
        subst h
        exact hinv
      · simp only [h1, hb, ↓reduceIte] at h
        split at h
        · cases h
        · cases h
          exact hinv
  · subst h
    unfold server_Initiate
    simp only
    rw [initiateLoop_eq]
    simp only
    have hcount := filter_length_le_cast node.Neighbours
      (fun r => decide (edgeGet st.statusEdge r.Address = BRANCH ∧ r.Address ≠ j))
    by_cases hS : S = FIND
    · subst hS
      simp only [↓reduceIte]
      apply test_FindCountInv
      refine ⟨?_, ?_⟩
      · simp only
        rw [iterate_goAdd_one _ _ (by have := hinv.1; omega) (by omega)]
        have := hinv.1
        omega
      · intro hf
        exact absurd hf FIND_ne_FOUND
    · simp only [hS, ↓reduceIte]
      refine ⟨hinv.1, ?_⟩
      intro hf
      simp only at hf
      by_contra hne
      apply hini
      subst hf
      exact ⟨a, b, rest, hs, hne⟩
  · subst h
    unfold server_Test
    by_cases h1 : (Atoi a).1 > st.levelNode
    · simp only [h1, ↓reduceIte, wait]
      exact hinv
    by_cases h2 : (Atoi b).1 ≠ st.fragmentNode
    · simp only [h1, h2, ↓reduceIte, ne_eq, not_false_eq_true]
      exact hinv
    simp only [h1, h2, ↓reduceIte]
    by_cases hb : edgeGet st.statusEdge j = BASIC <;> by_cases ht : st.testNode ≠ j
    · simp only [hb, ↓reduceIte, ht, ne_eq, not_false_eq_true]
      exact hinv
    · simp only [hb, ↓reduceIte, ht]
      exact test_FindCountInv _ _ _ hinv
    · simp only [hb, ↓reduceIte, ht, ne_eq, not_false_eq_true]
      exact hinv
    · simp only [hb, ↓reduceIte, ht]
      exact test_FindCountInv _ _ _ hinv
  · unfold server_Accept at h
    simp only at h
    split at h
    · cases h
    · cases h
      apply report_FindCountInv
      split
      · exact hinv
      · exact hinv
  · subst h
    unfold server_Reject
    simp only
    apply test_FindCountInv
    split
    · exact hinv
    · exact hinv
  · subst h
    unfold server_Report
    by_cases hj : j ≠ st.parent
    · simp only [hj, ↓reduceIte, ne_eq, not_false_eq_true]
      have hpos : st.findCount ≠ 0 := fun h0 => hrep ⟨a, rest, hs, hj, h0⟩
      have hge : 1 ≤ st.findCount := by
        have := hinv.1
        omega
      have hsub : goSub st.findCount 1 = st.findCount - 1 := by
        unfold goSub
        exact wrapInt_of_range _ (by omega) (by omega)
      have hnf : st.state ≠ FOUND := fun hf => hpos (hinv.2 hf)
      apply report_FindCountInv
      split
      · exact ⟨by simp only; rw [hsub]; omega, fun hf => absurd hf hnf⟩
      · exact ⟨by simp only; rw [hsub]; omega, fun hf => absurd hf hnf⟩
    by_cases hst : st.state = FIND
    · simp only [hj, hst, ↓reduceIte, wait]
      exact hinv
    by_cases hw : (Atoi a).1 > st.bestWt
    · simp only [hj, hst, hw, ↓reduceIte]
      exact changeRoot_FindCountInv node st hinv
    · simp only [hj, hst, hw, ↓reduceIte]
      split
      · exact hinv
      · exact hinv
  · subst h
    exact changeRoot_FindCountInv node st hinv
  · subst h
    exact hinv
  · subst h
    exact hinv

/-! ### The invariant of the best edge -/

/-- The value of `strconv.Atoi` is never above `math.MaxInt64`. -/
theorem Atoi_le_INFINITY (s : String) : (Atoi s).1 ≤ INFINITY := by
  unfold Atoi INFINITY
  simp only
  cases readMagnitude (atoiBody s.data) with
  | none => simp
  | some v =>
    simp only
    by_cases hneg : atoiNeg s.data = true
    · simp only [hneg, ↓reduceIte]
      by_cases hv : 9223372036854775808 < v
      · simp [hv]
      · simp only [hv, ↓reduceIte]
        omega
    · simp only [hneg, Bool.false_eq_true, ↓reduceIte]
      by_cases hv : 9223372036854775808 ≤ v
      · simp [hv]
      · simp only [hv, ↓reduceIte]
        omega

theorem report_best (node : yamlConfig) (st : NodeState) :
    (report node st).1.bestWt = st.bestWt ∧ (report node st).1.bestNode = st.bestNode :=
  ⟨(report_frame node st).2.2.2.2.2.1, (report_frame node st).2.2.2.2.2.2.1⟩

theorem test_best (order : MapOrder) (node : yamlConfig) (st : NodeState) :
    (test order node st).1.bestWt = st.bestWt ∧ (test order node st).1.bestNode = st.bestNode :=
  ⟨(test_frame order node st).2.2.2.2.2.1, (test_frame order node st).2.2.2.2.2.2⟩

theorem changeRoot_best (node : yamlConfig) (st : NodeState) :
    (changeRoot node st).1.bestWt = st.bestWt ∧
    (changeRoot node st).1.bestNode = st.bestNode := by
  unfold changeRoot
  split
  · exact ⟨rfl, rfl⟩
  · exact ⟨rfl, rfl⟩

/-- What an iteration does to the best edge: nothing, or `bestWt = INFINITY`
(handler of `Initiate`), or `bestNode` is the sender (handlers of `Accept` and
`Report`). -/
theorem server_step_best (order : MapOrder) (node : yamlConfig) (st : NodeState)
    (j message : String) (r : NodeState × List Packet)
    (hstep : server_step order node st j message = Except.ok r) :
    (r.1.bestWt = st.bestWt ∧ r.1.bestNode = st.bestNode) ∨ r.1.bestWt = INFINITY ∨
      r.1.bestNode = j := by
  rcases server_step_inv order node st j message r hstep with
    ⟨a, rest, _, h⟩ | ⟨a, b, S, rest, hs, h⟩ | ⟨a, b, rest, _, h⟩ | ⟨rest, _, h⟩ |
    ⟨rest, _, h⟩ | ⟨a, rest, hs, h⟩ | ⟨rest, _, h⟩ | ⟨rest, _, h⟩ | h
  · left
    unfold server_Connect at h
    by_cases h1 : (Atoi a).1 < st.levelNode
    · by_cases hst : st.state = FIND
      · simp only [h1, hst, ↓reduceIte, Except.ok.injEq] at h
        subst h
        exact ⟨rfl, rfl⟩
      · simp only [h1, hst, ↓reduceIte, Except.ok.injEq] at h
        subst h
        exact ⟨rfl, rfl⟩
    · by_cases hb : edgeGet st.statusEdge j = BASIC
      · simp only [h1, hb, ↓reduceIte, Except.ok.injEq, wait] at h
        subst h
        exact ⟨rfl, rfl⟩
      · simp only [h1, hb, ↓reduceIte] at h
        split at h
        · cases h
        · cases h
          exact ⟨rfl, rfl⟩
  · right; left
    subst h
    unfold server_Initiate
    simp only
    split
    · simp only
      rw [(test_best _ _ _).1, (initiateLoop_frame _ _ _ _).2.2.2.2.2.1]
    · rw [(initiateLoop_frame _ _ _ _).2.2.2.2.2.1]
  · left
    subst h
    unfold server_Test
    by_cases h1 : (Atoi a).1 > st.levelNode
    · simp only [h1, ↓reduceIte, wait]
      exact ⟨trivial, trivial⟩
    by_cases h2 : (Atoi b).1 ≠ st.fragmentNode
    · simp only [h1, h2, ↓reduceIte, ne_eq, not_false_eq_true]
      exact ⟨trivial, trivial⟩
    simp only [h1, h2, ↓reduceIte]
    by_cases hb : edgeGet st.statusEdge j = BASIC <;> by_cases ht : st.testNode ≠ j
    · simp only [hb, ↓reduceIte, ht, ne_eq, not_false_eq_true]
      exact ⟨trivial, trivial⟩
    · simp only [hb, ↓reduceIte, ht]
      exact test_best _ _ _
    · simp only [hb, ↓reduceIte, ht, ne_eq, not_false_eq_true]
      exact ⟨trivial, trivial⟩
    · simp only [hb, ↓reduceIte, ht]
      exact test_best _ _ _
  · unfold server_Accept at h
    simp only at h
    split at h
    · cases h
    · cases h
      rename_i jWeight _
      by_cases hw : jWeight < st.bestWt
      · right; right
        simp only [hw, ↓reduceIte]
        rw [(report_best _ _).2]
      · left
        simp only [hw, ↓reduceIte]
        exact report_best _ _
  · left
    subst h
    unfold server_Reject
    simp only
    by_cases hb : edgeGet st.statusEdge j = BASIC
    · simp only [hb, ↓reduceIte]
      exact test_best _ _ _
    · simp only [hb, ↓reduceIte]
      exact test_best _ _ _
  · subst h
    unfold server_Report
    by_cases hj : j ≠ st.parent
    · simp only [hj, ↓reduceIte, ne_eq, not_false_eq_true]
      by_cases hw : (Atoi a).1 < st.bestWt
      · right; right
        simp only [hw, ↓reduceIte]
        rw [(report_best _ _).2]
      · left
        simp only [hw, ↓reduceIte]
        exact report_best _ _
    left
    by_cases hst : st.state = FIND
    · simp only [hj, hst, ↓reduceIte, wait]
      exact ⟨trivial, trivial⟩
    by_cases hw : (Atoi a).1 > st.bestWt
    · simp only [hj, hst, hw, ↓reduceIte]
      exact changeRoot_best node st
    · simp only [hj, hst, hw, ↓reduceIte]
      split
      · exact ⟨rfl, rfl⟩
      · exact ⟨rfl, rfl⟩
  · left
    subst h
    exact changeRoot_best node st
  · left
    subst h
    exact ⟨rfl, rfl⟩
  · left
    subst h
    exact ⟨rfl, rfl⟩

theorem server_step_BestEdgeInv (order : MapOrder) (node : yamlConfig) (st : NodeState)
    (j message : String) (r : NodeState × List Packet)
    (hstep : server_step order node st j message = Except.ok r)
    (hj : j ∈ node.Neighbours.map Neighbour.Address ∧ j ≠ "")
    (hinv : BestEdgeInv node st) : BestEdgeInv node r.1 := by
  intro hlt
  rcases server_step_best order node st j message r hstep with ⟨h1, h2⟩ | h | h
  · rw [h1] at hlt
    rw [h2]
    exact hinv hlt
  · rw [h] at hlt
    exact absurd hlt (lt_irrefl _)
  · rw [h]
    exact hj

theorem server_loop_BestEdgeInv (node : yamlConfig) (inbox : List Delivery) :
    ∀ (st st1 : NodeState) (out : List Packet) (left : List Delivery),
      (∀ d ∈ inbox, d.j ∈ node.Neighbours.map Neighbour.Address ∧ d.j ≠ "") →
      BestEdgeInv node st →
      server_loop node st inbox = Except.ok (st1, out, left) →
      BestEdgeInv node st1 := by
  induction inbox with
  | nil =>
    intro st st1 out left _ hinv hloop
    simp only [server_loop, Except.ok.injEq, Prod.mk.injEq] at hloop
    rw [← hloop.1]
    exact hinv
  | cons d rest ih =>
    intro st st1 out left hsend hinv hloop
    unfold server_loop at hloop
    by_cases ht : st.terminated = true
    · simp only [ht, ↓reduceIte, Except.ok.injEq, Prod.mk.injEq] at hloop
      rw [← hloop.1]
      exact hinv
    · simp only [ht, Bool.false_eq_true, ↓reduceIte] at hloop
      cases hs : server_step d.order node st d.j d.message with
      | error f =>
        rw [hs] at hloop
        cases hloop
      | ok r =>
        obtain ⟨s2, o2⟩ := r
        rw [hs] at hloop
        simp only at hloop
        have hinv2 := server_step_BestEdgeInv d.order node st d.j d.message (s2, o2) hs
          (hsend d (by simp)) hinv
        cases hl : server_loop node s2 rest with
        | error f =>
          rw [hl] at hloop
          cases hloop
        | ok r2 =>
          obtain ⟨s3, o3, l3⟩ := r2
          rw [hl] at hloop
          simp only [Except.ok.injEq, Prod.mk.injEq] at hloop
          rw [← hloop.1]
          exact ih s2 s3 o3 l3 (fun x hx => hsend x (List.mem_cons_of_mem _ hx)) hinv2 hl

theorem server_Initiate_bestWt (order : MapOrder) (node : yamlConfig) (st : NodeState)
    (j : String) (L F : Int) (S : String) :
    (server_Initiate order node st j L F S).1.bestWt = INFINITY := by
  unfold server_Initiate
  simp only
  split
  · simp only
    rw [(test_best _ _ _).1, (initiateLoop_frame _ _ _ _).2.2.2.2.2.1]
  · rw [(initiateLoop_frame _ _ _ _).2.2.2.2.2.1]

/-! ### The steps that change an edge status -/

theorem edgeGet_mapSet_cases (m : GoMap String String) (key v k : String) :
    edgeGet (mapSet m key v) k = edgeGet m k ∨ (k = key ∧ edgeGet (mapSet m key v) k = v) := by
  by_cases hk : k = key
  · right
    subst hk
    exact ⟨rfl, edgeGet_mapSet_same _ _ _⟩
  · left
    exact edgeGet_mapSet_other _ _ _ _ hk

theorem edgeGet_reject_cases (m : GoMap String String) (key k : String) :
    edgeGet (if edgeGet m key = BASIC then mapSet m key REJECTED else m) k = edgeGet m k ∨
    (k = key ∧ edgeGet m k = BASIC ∧
      edgeGet (if edgeGet m key = BASIC then mapSet m key REJECTED else m) k = REJECTED) := by
  by_cases hb : edgeGet m key = BASIC
  · simp only [hb, ↓reduceIte]
    rcases edgeGet_mapSet_cases m key REJECTED k with h | ⟨hk, h⟩
    · left; exact h
    · right
      subst hk
      exact ⟨rfl, hb, h⟩
  · simp only [hb, ↓reduceIte]
    left; trivial

/-- Every successful iteration leaves the status of edge `k` as it is, or marks
it `BRANCH` in a `BranchingStep`, or takes it from `BASIC` to `REJECTED` in a
`RejectingStep`. -/
theorem server_step_edge_change (order : MapOrder) (node : yamlConfig) (st : NodeState)
    (j message : String) (r : NodeState × List Packet)
    (hstep : server_step order node st j message = Except.ok r) (k : String) :
    edgeGet r.1.statusEdge k = edgeGet st.statusEdge k ∨
    (edgeGet r.1.statusEdge k = BRANCH ∧ BranchingStep st j message k) ∨
    (edgeGet st.statusEdge k = BASIC ∧ edgeGet r.1.statusEdge k = REJECTED ∧
      RejectingStep st j message k) := by
  rcases server_step_inv order node st j message r hstep with
    ⟨a, rest, hsp, h⟩ | ⟨a, b, S, rest, hsp, h⟩ | ⟨a, b, rest, hsp, h⟩ | ⟨rest, hsp, h⟩ |
    ⟨rest, hsp, h⟩ | ⟨a, rest, hsp, h⟩ | ⟨rest, hsp, h⟩ | ⟨rest, hsp, h⟩ | h
  · unfold server_Connect at h
    by_cases h1 : (Atoi a).1 < st.levelNode
    · have hkey : edgeGet (mapSet st.statusEdge j BRANCH) k = edgeGet st.statusEdge k ∨
          (edgeGet (mapSet st.statusEdge j BRANCH) k = BRANCH ∧ BranchingStep st j message k) := by
        rcases edgeGet_mapSet_cases st.statusEdge j BRANCH k with h2 | ⟨hk, h2⟩
        · left; exact h2
        · right
          exact ⟨h2, Or.inl ⟨hk, a, rest, hsp, h1⟩⟩
      by_cases hs : st.state = FIND
      · simp only [h1, hs, ↓reduceIte, Except.ok.injEq] at h
        subst h
        rcases hkey with h2 | h2
        · left; exact h2
        · right; left; exact h2
      · simp only [h1, hs, ↓reduceIte, Except.ok.injEq] at h
        subst h
        rcases hkey with h2 | h2
        · left; exact h2
        · right; left; exact h2
    · by_cases hb : edgeGet st.statusEdge j = BASIC
      · simp only [h1, hb, ↓reduceIte, Except.ok.injEq, wait] at h
        subst h
        left; rfl
      · simp only [h1, hb, ↓reduceIte] at h
        split at h
        · cases h
        · cases h
          left; rfl
  · subst h
    unfold server_Initiate
    simp only
    split
    · simp only
      rw [(test_frame _ _ _).1, (initiateLoop_frame _ _ _ _).1]
      left; rfl
    · rw [(initiateLoop_frame _ _ _ _).1]
      left; rfl
  · subst h
    unfold server_Test
    by_cases h1 : (Atoi a).1 > st.levelNode
    · simp only [h1, ↓reduceIte, wait]
      left; trivial
    by_cases h2 : (Atoi b).1 ≠ st.fragmentNode
    · simp only [h1, h2, ↓reduceIte, ne_eq, not_false_eq_true]
      left; trivial
    have h2e : (Atoi b).1 = st.fragmentNode := not_not.mp h2
    have hkey : edgeGet (if edgeGet st.statusEdge j = BASIC then
          mapSet st.statusEdge j REJECTED else st.statusEdge) k = edgeGet st.statusEdge k ∨
        (edgeGet st.statusEdge k = BASIC ∧
          edgeGet (if edgeGet st.statusEdge j = BASIC then
            mapSet st.statusEdge j REJECTED else st.statusEdge) k = REJECTED ∧
          RejectingStep st j message k) := by
      rcases edgeGet_reject_cases st.statusEdge j k with h3 | ⟨hk, h3, h4⟩
      · left; exact h3
      · right
        exact ⟨h3, h4, hk, Or.inl ⟨a, b, rest, hsp, h1, h2e⟩⟩
    have hres : (if (Atoi a).1 > st.levelNode then wait node st message j
        else if (Atoi b).1 ≠ st.fragmentNode then (st, [⟨"Accept", node.Address, j⟩])
        else
          if (if edgeGet st.statusEdge j = BASIC then
              { st with statusEdge := mapSet st.statusEdge j REJECTED } else st).testNode ≠ j then
            ((if edgeGet st.statusEdge j = BASIC then
              { st with statusEdge := mapSet st.statusEdge j REJECTED } else st),
              [⟨"Reject", node.Address, j⟩])
          else test order node (if edgeGet st.statusEdge j = BASIC then
              { st with statusEdge := mapSet st.statusEdge j REJECTED } else st)).1.statusEdge =
        (if edgeGet st.statusEdge j = BASIC then
          mapSet st.statusEdge j REJECTED else st.statusEdge) := by
      by_cases hb : edgeGet st.statusEdge j = BASIC <;> by_cases ht : st.testNode ≠ j <;>
        simp [h1, h2, hb, ht, (test_frame _ _ _).1]
    rw [hres]
    rcases hkey with h3 | h3
    · left; exact h3
    · right; right; exact h3
  · unfold server_Accept at h
    simp only at h
    split at h
    · cases h
    · cases h
      rw [(report_frame _ _).1]
      left
      split <;> rfl
  · subst h
    unfold server_Reject
    simp only
    rw [(test_frame _ _ _).1]
    have hst : (if edgeGet st.statusEdge j = BASIC then
          { st with statusEdge := mapSet st.statusEdge j REJECTED } else st).statusEdge =
        (if edgeGet st.statusEdge j = BASIC then
          mapSet st.statusEdge j REJECTED else st.statusEdge) := by
      split <;> rfl
    rw [hst]
    rcases edgeGet_reject_cases st.statusEdge j k with h3 | ⟨hk, h3, h4⟩
    · left; exact h3
    · right; right
      exact ⟨h3, h4, hk, Or.inr ⟨rest, hsp⟩⟩
  · subst h
    unfold server_Report
    by_cases hj : j ≠ st.parent
    · simp only [hj, ↓reduceIte, ne_eq, not_false_eq_true]
      rw [(report_frame _ _).1]
      left
      split <;> rfl
    by_cases hs : st.state = FIND
    · simp only [hj, hs, ↓reduceIte, wait]
      left; trivial
    by_cases hw : (Atoi a).1 > st.bestWt
    · simp only [hj, hs, hw, ↓reduceIte]
      rcases changeRoot_statusEdge node st with h3 | h3
      · rw [h3]; left; rfl
      · rw [h3]
        rcases edgeGet_mapSet_cases st.statusEdge st.bestNode BRANCH k with h4 | ⟨hk, h4⟩
        · left; exact h4
        · right; left
          exact ⟨h4, Or.inr ⟨hk, Or.inr ⟨a, rest, hsp, not_not.mp hj, hs, hw⟩⟩⟩
    · simp only [hj, hs, hw, ↓reduceIte]
      left
      split <;> rfl
  · subst h
    rcases changeRoot_statusEdge node st with h3 | h3
    · rw [h3]; left; rfl
    · rw [h3]
      rcases edgeGet_mapSet_cases st.statusEdge st.bestNode BRANCH k with h4 | ⟨hk, h4⟩
      · left; exact h4
      · right; left
        exact ⟨h4, Or.inr ⟨hk, Or.inl ⟨rest, hsp⟩⟩⟩
  · subst h
    left; rfl
  · subst h
    left; rfl

/-! ### The iterations that stop the engine -/

theorem sentinel_run :
    runSchedule (netInit sentinelGraph) sentinelSchedule = some sentinelFinal := by
  rfl

theorem sentinel_branchList :
    branchList sentinelFinal = [("x", "u"), ("u", "x"), ("p", "q"), ("q", "p")] := by
  decide

theorem sentinel_wellFormed : WellFormedGraph sentinelGraph := by
  refine ⟨by decide, by decide, by decide, by decide, by decide, ?_⟩
  have hsymm : Symmetric (fun u v : String =>
      (∃ w, (u, v, w) ∈ edgeList sentinelGraph) ∨ ∃ w, (v, u, w) ∈ edgeList sentinelGraph) :=
    fun _ _ h => h.symm
  have hxu : Relation.ReflTransGen (fun u v : String =>
      (∃ w, (u, v, w) ∈ edgeList sentinelGraph) ∨ ∃ w, (v, u, w) ∈ edgeList sentinelGraph)
      "x" "u" := Relation.ReflTransGen.single (Or.inl ⟨1, by decide⟩)
  have hxp := hxu.tail (Or.inl ⟨9223372036854775807, by decide⟩ :
      (∃ w, ("u", "p", w) ∈ edgeList sentinelGraph) ∨ ∃ w, ("p", "u", w) ∈ edgeList sentinelGraph)
  have hxq := hxp.tail (Or.inl ⟨3, by decide⟩ :
      (∃ w, ("p", "q", w) ∈ edgeList sentinelGraph) ∨ ∃ w, ("q", "p", w) ∈ edgeList sentinelGraph)
  have key : ∀ v ∈ sentinelGraph.map yamlConfig.Address,
      Relation.ReflTransGen (fun u v : String =>
        (∃ w, (u, v, w) ∈ edgeList sentinelGraph) ∨ ∃ w, (v, u, w) ∈ edgeList sentinelGraph)
        "x" v := by
    intro v hv
    simp only [sentinelGraph, List.map_cons, List.map_nil, List.mem_cons, List.mem_singleton,
      List.not_mem_nil, or_false] at hv
    rcases hv with rfl | rfl | rfl | rfl
    · exact Relation.ReflTransGen.refl
    · exact hxu
    · exact hxp
    · exact hxq
  intro a ha b hb
  exact (Relation.ReflTransGen.symmetric hsymm (key a ha)).trans (key b hb)

theorem sentinel_allTerminated : AllTerminated sentinelFinal := by
  intro e he
  simp only [sentinelFinal, List.mem_cons, List.mem_singleton, List.not_mem_nil, or_false] at he
  rcases he with rfl | rfl | rfl | rfl <;> rfl

theorem sentinel_returns :
    ∀ e ∈ sentinelFinal.engines, ∃ w, getWeight e.st.parent e.node = Except.ok w := by
  intro e he
  simp only [sentinelFinal, List.mem_cons, List.mem_singleton, List.not_mem_nil, or_false] at he
  rcases he with rfl | rfl | rfl | rfl
  · exact ⟨1, rfl⟩
  · exact ⟨1, rfl⟩
  · exact ⟨3, rfl⟩
  · exact ⟨3, rfl⟩

theorem sentinel_not_connected :
    ¬ Connects (BranchUnion sentinelFinal) (sentinelGraph.map yamlConfig.Address) := by
  intro h
  have hxp := h "x" (by decide) "p" (by decide)
  have inv : ∀ v, Relation.ReflTransGen (fun u v : String =>
      BranchUnion sentinelFinal u v ∨ BranchUnion sentinelFinal v u) "x" v →
      v = "x" ∨ v = "u" := by
    intro v hv
    induction hv with
    | refl => left; rfl
    | tail _ hstep ih =>
      unfold BranchUnion at hstep
      rw [sentinel_branchList] at hstep
      simp only [List.mem_cons, Prod.mk.injEq, List.mem_singleton, List.not_mem_nil,
        or_false] at hstep
      rcases ih with rfl | rfl <;> simp at hstep <;> simp [hstep]
  rcases inv "p" hxp with h1 | h1
  · exact absurd h1 (by decide)
  · exact absurd h1 (by decide)

theorem sentinel_not_mst : ¬ IsMST sentinelGraph (BranchUnion sentinelFinal) := by
  rintro ⟨T, hE, hT, _⟩
  apply sentinel_not_connected
  intro a ha b hb
  refine Relation.ReflTransGen.mono ?_ (hT.2.2 a ha b hb)
  intro u v huv
  rcases huv with ⟨w, hw⟩ | ⟨w, hw⟩
  · exact Or.inl ((hE u v).mpr ⟨w, Or.inl hw⟩)
  · exact Or.inr ((hE v u).mpr ⟨w, Or.inl hw⟩)

theorem sentinel_reachable : Reachable sentinelGraph sentinelFinal := by
  refine ⟨sentinelSchedule, ?_, sentinel_run⟩
  intro s hs m
  have hs1 : s = (id, 0) := (List.mem_replicate.mp hs).2
  subst hs1
  exact List.Perm.refl m

/-! ## Claims -/

/-- C1, failing input.  The graph `sentinelGraph` is the path `x - u - p - q`
with the weights 1, `math.MaxInt64` and 3: connected, undirected, weights
positive and pairwise distinct.  One engine runs per vertex, and every message
is received in the order in which it was handed to `send`
(`sentinelSchedule`, 19 receptions).  Then all four engines have terminated,
each returns from `server`, nothing is in flight, and
the edges classified `BRANCH` are `x - u` and `p - q` only.  The edge `u - p`,
whose weight equals `INFINITY`, is `BASIC` at both of its end points: the
`Accept` handler compares `jWeight < bestWt` with `bestWt = INFINITY`, so the
edge is never recorded as outgoing and both fragments report `INFINITY`.  The
`BRANCH` edges do not join all vertices, so they are not the minimum spanning
tree, and the contract `MSTContract` fails.  Each engine, run by `server` on
the messages it receives in this schedule, returns with the same state. -/
theorem C1_sentinel_weight_run :
    WellFormedGraph sentinelGraph ∧
    runSchedule (netInit sentinelGraph) sentinelSchedule = some sentinelFinal ∧
    Reachable sentinelGraph sentinelFinal ∧
    AllTerminated sentinelFinal ∧
    sentinelFinal.inFlight = [] ∧
    (∀ e ∈ sentinelFinal.engines, ∃ w, getWeight e.st.parent e.node = Except.ok w) ∧
    branchList sentinelFinal = [("x", "u"), ("u", "x"), ("p", "q"), ("q", "p")] ∧
    ("u", "p", INFINITY) ∈ edgeList sentinelGraph ∧
    edgeGet sentinelU.st.statusEdge "p" = BASIC ∧
    edgeGet sentinelP.st.statusEdge "u" = BASIC ∧
    ¬ BranchUnion sentinelFinal "u" "p" ∧
    ¬ Connects (BranchUnion sentinelFinal) (sentinelGraph.map yamlConfig.Address) ∧
    ¬ IsMST sentinelGraph (BranchUnion sentinelFinal) ∧
    ¬ MSTContract ∧
    (∃ sent, server sentinelX.node
        [⟨"u", "Connect,0", id⟩, ⟨"u", "Initiate,1,1,Find", id⟩,
          ⟨"u", "Report,9223372036854775807", id⟩] =
      Outcome.returned sentinelX.st sent 1 1) ∧
    (∃ sent, server sentinelU.node
        [⟨"x", "Connect,0", id⟩, ⟨"x", "Initiate,1,1,Find", id⟩,
          ⟨"x", "Report,9223372036854775807", id⟩, ⟨"p", "Test,1,3", id⟩,
          ⟨"x", "Report,9223372036854775807", id⟩, ⟨"p", "Accept", id⟩,
          ⟨"x", "Report,9223372036854775807", id⟩] =
      Outcome.returned sentinelU.st sent 2 1) ∧
    (∃ sent, server sentinelP.node
        [⟨"q", "Connect,0", id⟩, ⟨"q", "Initiate,1,3,Find", id⟩, ⟨"u", "Test,1,1", id⟩,
          ⟨"q", "Report,9223372036854775807", id⟩, ⟨"u", "Accept", id⟩,
          ⟨"q", "Report,9223372036854775807", id⟩] =
      Outcome.returned sentinelP.st sent 3 3) ∧
    (∃ sent, server sentinelQ.node
        [⟨"p", "Connect,0", id⟩, ⟨"p", "Initiate,1,3,Find", id⟩,
          ⟨"p", "Report,9223372036854775807", id⟩] =
      Outcome.returned sentinelQ.st sent 4 3) := by
  refine ⟨sentinel_wellFormed, sentinel_run, sentinel_reachable, sentinel_allTerminated, rfl,
    sentinel_returns, sentinel_branchList, by decide, by decide, by decide, ?_,
    sentinel_not_connected, sentinel_not_mst, ?_, ⟨_, rfl⟩, ⟨_, rfl⟩, ⟨_, rfl⟩, ⟨_, rfl⟩⟩
  · unfold BranchUnion
    rw [sentinel_branchList]
    decide
  · intro h
    exact sentinel_not_mst
      (h sentinelGraph sentinel_wellFormed sentinelFinal sentinel_reachable
        sentinel_allTerminated)

/-- C2. Two-vertex scenario, for a node whose neighbour table is the single
entry `n` (address `j`, positive weight `w` within `int`).  Wakeup marks edge `j`
`BRANCH` and sends `Connect,0` to `j`.  Handling `Connect,0`, then
`Initiate,1,w,Find`, then `Report,9223372036854775807` from `j` sends
`Initiate,1,w,Find` to `j`, then `Report,9223372036854775807` to `j`, then sets
`terminated`.  The run of `server` on these three arrivals returns: final level
1, fragment `w`, parent `j`, edge `j` `BRANCH`, the three messages sent and no
`Stop`, and the contribution `edgesMST[ID] = getWeight(parent) = w`.  With the
contribution `w` of the peer under another key, `deleteDuplicatesAndReturnOne`
leaves a single entry, of weight `w`, under the key it returns, whatever the
map iteration orders. -/
theorem C2_two_vertex (node : yamlConfig) (n : Neighbour) (o1 o2 o3 : MapOrder)
    (peer : Int) (outer : IntMapOrder) (inner : Int → IntMapOrder)
    (hN : node.Neighbours = [n]) (hpos : 0 < n.EdgeWeight) (hmax : n.EdgeWeight ≤ INFINITY)
    (ho2 : ∀ m, (o2 m).Perm m) (hpeer : peer ≠ node.ID)
    (houter : ∀ m, (outer m).Perm m) (hinner : ∀ k m, (inner k m).Perm m) :
    wakeUp node (initState node) =
      (twoVertexWoken n.Address, [⟨"Connect,0", node.Address, n.Address⟩]) ∧
    edgeGet (twoVertexWoken n.Address).statusEdge n.Address = BRANCH ∧
    server_step o1 node (twoVertexWoken n.Address) n.Address "Connect,0" =
      Except.ok (twoVertexWoken n.Address,
        [⟨"Initiate," ++ Itoa 1 ++ "," ++ Itoa n.EdgeWeight ++ "," ++ FIND,
          node.Address, n.Address⟩]) ∧
    server_step o2 node (twoVertexWoken n.Address) n.Address
        ("Initiate," ++ Itoa 1 ++ "," ++ Itoa n.EdgeWeight ++ "," ++ FIND) =
      Except.ok (twoVertexMerged n.Address n.EdgeWeight false,
        [⟨"Report,9223372036854775807", node.Address, n.Address⟩]) ∧
    server_step o3 node (twoVertexMerged n.Address n.EdgeWeight false) n.Address
        "Report,9223372036854775807" =
      Except.ok (twoVertexMerged n.Address n.EdgeWeight true, []) ∧
    server node
        [⟨n.Address, "Connect,0", o1⟩,
          ⟨n.Address, "Initiate," ++ Itoa 1 ++ "," ++ Itoa n.EdgeWeight ++ "," ++ FIND, o2⟩,
          ⟨n.Address, "Report,9223372036854775807", o3⟩] =
      Outcome.returned (twoVertexMerged n.Address n.EdgeWeight true)
        [⟨"Connect,0", node.Address, n.Address⟩,
          ⟨"Initiate," ++ Itoa 1 ++ "," ++ Itoa n.EdgeWeight ++ "," ++ FIND,
            node.Address, n.Address⟩,
          ⟨"Report,9223372036854775807", node.Address, n.Address⟩]
        node.ID n.EdgeWeight ∧
    stopSweep node (twoVertexMerged n.Address n.EdgeWeight true) node.Neighbours = [] ∧
    getWeight (twoVertexMerged n.Address n.EdgeWeight true).parent node =
      Except.ok n.EdgeWeight ∧
    edgeGet (twoVertexMerged n.Address n.EdgeWeight true).statusEdge n.Address = BRANCH ∧
    (∃ k, deleteDuplicatesAndReturnOne outer inner
        (mapSet (mapSet [] node.ID n.EdgeWeight) peer n.EdgeWeight) =
          Except.ok (k, [(k, n.EdgeWeight)]) ∧ (k = node.ID ∨ k = peer)) ∧
    (∃ k, deleteDuplicatesAndReturnOne outer inner
        (mapSet (mapSet [] peer n.EdgeWeight) node.ID n.EdgeWeight) =
          Except.ok (k, [(k, n.EdgeWeight)]) ∧ (k = peer ∨ k = node.ID)) := by
  have hwake := twoVertex_wakeUp node n hN
  have hc := twoVertex_Connect o1 node n hN
  have hi := twoVertex_Initiate o2 node n hN (le_of_lt hpos) hmax ho2
  have hr := twoVertex_Report o3 node n
  have hsweep : stopSweep node (twoVertexMerged n.Address n.EdgeWeight true) node.Neighbours
      = [] := by
    simp [hN, stopSweep, twoVertexMerged]
  have hweight : getWeight (twoVertexMerged n.Address n.EdgeWeight true).parent node =
      Except.ok n.EdgeWeight := twoVertex_getWeight node n hN
  refine ⟨hwake, by simp [twoVertexWoken, edgeGet], hc, hi, hr, ?_, hsweep, hweight,
    by simp [twoVertexMerged, edgeGet],
    dedup_pair _ _ _ hpeer.symm outer inner houter hinner,
    dedup_pair _ _ _ hpeer outer inner houter hinner⟩
  unfold server
  rw [hwake]
  have hloop : server_loop node (twoVertexWoken n.Address)
      [⟨n.Address, "Connect,0", o1⟩,
        ⟨n.Address, "Initiate," ++ Itoa 1 ++ "," ++ Itoa n.EdgeWeight ++ "," ++ FIND, o2⟩,
        ⟨n.Address, "Report,9223372036854775807", o3⟩] =
      Except.ok (twoVertexMerged n.Address n.EdgeWeight true,
        [⟨"Initiate," ++ Itoa 1 ++ "," ++ Itoa n.EdgeWeight ++ "," ++ FIND,
            node.Address, n.Address⟩,
          ⟨"Report,9223372036854775807", node.Address, n.Address⟩], []) := by
    have ht0 : (twoVertexWoken n.Address).terminated = false := rfl
    have ht1 : (twoVertexMerged n.Address n.EdgeWeight false).terminated = false := rfl
    simp only [server_loop, ht0, ht1, hc, hi, hr, Bool.false_eq_true, ↓reduceIte,
      List.singleton_append, List.append_nil, List.nil_append]
  simp only [hloop]
  have ht : (twoVertexMerged n.Address n.EdgeWeight true).terminated = true := rfl
  simp only [ht, ↓reduceIte, hsweep, hweight, List.append_nil, List.singleton_append]

/-- Witness of C2: the two-vertex graph with edge weight 5, node 1 at `a` and
node 2 at `b`. -/
theorem C2_two_vertex_witness :
    pairNode.Neighbours = [⟨2, "b", 5⟩] ∧
    server pairNode
        [⟨"b", "Connect,0", id⟩, ⟨"b", "Initiate,1,5,Find", id⟩,
          ⟨"b", "Report,9223372036854775807", id⟩] =
      Outcome.returned (twoVertexMerged "b" 5 true)
        [⟨"Connect,0", "a", "b"⟩, ⟨"Initiate,1,5,Find", "a", "b"⟩,
          ⟨"Report,9223372036854775807", "a", "b"⟩]
        1 5 ∧
    deleteDuplicatesAndReturnOne id (fun _ => id) (mapSet (mapSet [] 1 5) 2 5) =
      Except.ok (1, [(1, 5)]) := by
  have h := C2_two_vertex pairNode ⟨2, "b", 5⟩ id id id 2 id (fun _ => id) rfl (by decide)
    (by decide) (fun m => List.Perm.refl m) (by decide) (fun m => List.Perm.refl m)
    (fun _ m => List.Perm.refl m)
  exact ⟨rfl, h.2.2.2.2.2.1, rfl⟩

/-- C3, counterexample.  The engine of `exampleNode` reaches `rejectedEdgeState`
from wakeup, where the edge of neighbour `b` is `REJECTED`; handling `Connect,1`
from `b` there (level 1 below level 2) leaves that edge `BRANCH`, not
`REJECTED`. -/
theorem C3_counterexample :
    server_loop exampleNode (wakeUp exampleNode (initState exampleNode)).1
        [⟨"c", "Initiate,1,3,Found", id⟩, ⟨"b", "Test,1,3", id⟩,
          ⟨"c", "Initiate,2,9,Found", id⟩] =
      Except.ok (rejectedEdgeState, [⟨"Reject", "a", "b"⟩], []) ∧
    "b" ∈ exampleNode.Neighbours.map Neighbour.Address ∧
    edgeGet rejectedEdgeState.statusEdge "b" = REJECTED ∧
    server_step id exampleNode rejectedEdgeState "b" "Connect,1" =
      Except.ok
        ({ rejectedEdgeState with statusEdge := [("b", BRANCH), ("c", BRANCH)] },
          [⟨"Initiate,2,9,Found", "a", "b"⟩]) ∧
    edgeGet [("b", BRANCH), ("c", BRANCH)] "b" ≠ REJECTED := by
  refine ⟨rfl, by decide, by decide, rfl, by decide⟩

/-- C3, amended.  Across every successful iteration of the receive loop, for
every key `k` of the edge map: `BRANCH` before is `BRANCH` after; `REJECTED`
before is `REJECTED` after, unless the step marks the edge `BRANCH`, which only
a `BranchingStep` does: the `Connect` handler with `L < levelNode` on the edge
of the sender `j`, and procedure `changeRoot` (on a `ChangeRoot` message, or on
a `Report` from `parent` with `state` not `FIND` and `w > bestWt`) on the edge of
`bestNode`; whenever the status changes, it changes to `BRANCH` in such a step,
or from `BASIC` to `REJECTED` in a `RejectingStep` (the `Test` and `Reject`
handlers, on the edge of the sender).  Both unguarded assignments do happen:
after `Connect` with `L < levelNode` the edge of `j` is `BRANCH` and after
`changeRoot` the edge of `bestNode` is `BRANCH`, whatever they were before.
Wakeup keeps `BRANCH` edges and changes only the edge it selects, to
`BRANCH`. -/
theorem C3_edge_status_steps (order : MapOrder) (node : yamlConfig) (st : NodeState)
    (j message : String) (r : NodeState × List Packet)
    (hstep : server_step order node st j message = Except.ok r) (k : String) :
    (edgeGet st.statusEdge k = BRANCH → edgeGet r.1.statusEdge k = BRANCH) ∧
    (edgeGet st.statusEdge k = REJECTED →
      edgeGet r.1.statusEdge k = REJECTED ∨
      (edgeGet r.1.statusEdge k = BRANCH ∧ BranchingStep st j message k)) ∧
    (edgeGet r.1.statusEdge k ≠ edgeGet st.statusEdge k →
      (edgeGet r.1.statusEdge k = BRANCH ∧ BranchingStep st j message k) ∨
      (edgeGet st.statusEdge k = BASIC ∧ edgeGet r.1.statusEdge k = REJECTED ∧
        RejectingStep st j message k)) ∧
    (∀ a rest, strings_Split message = "Connect" :: a :: rest → (Atoi a).1 < st.levelNode →
      edgeGet r.1.statusEdge j = BRANCH) ∧
    edgeGet (changeRoot node st).1.statusEdge st.bestNode = BRANCH ∧
    (edgeGet st.statusEdge k = BRANCH → edgeGet (wakeUp node st).1.statusEdge k = BRANCH) ∧
    (edgeGet (wakeUp node st).1.statusEdge k ≠ edgeGet st.statusEdge k →
      k = (getLeastWeightEdge node).1 ∧ edgeGet (wakeUp node st).1.statusEdge k = BRANCH) := by
  have hk := server_step_edge_change order node st j message r hstep k
  refine ⟨?_, ?_, ?_, ?_, ?_, ?_, ?_⟩
  · intro hb
    rcases hk with h | ⟨h, _⟩ | ⟨h, _⟩
    · rw [h, hb]
    · exact h
    · rw [hb] at h
      exact absurd h BRANCH_ne_BASIC
  · intro hrej
    rcases hk with h | h | ⟨h, _⟩
    · left; rw [h, hrej]
    · right; exact h
    · rw [hrej] at h
      exact absurd h REJECTED_ne_BASIC
  · intro hne
    rcases hk with h | h | h
    · exact absurd h hne
    · left; exact h
    · right; exact h
  · intro a rest hsp hlt
    rw [server_step_Connect order node st j message a rest hsp] at hstep
    unfold server_Connect at hstep
    by_cases hs : st.state = FIND
    · simp only [hlt, hs, ↓reduceIte, Except.ok.injEq] at hstep
      subst hstep
      exact edgeGet_mapSet_same _ _ _
    · simp only [hlt, hs, ↓reduceIte, Except.ok.injEq] at hstep
      subst hstep
      exact edgeGet_mapSet_same _ _ _
  · unfold changeRoot
    by_cases hb : edgeGet st.statusEdge st.bestNode = BRANCH
    · simp only [hb, ↓reduceIte]
    · simp only [hb, ↓reduceIte]
      exact edgeGet_mapSet_same _ _ _
  · intro hb
    by_cases hkm : k = (getLeastWeightEdge node).1
    · subst hkm
      exact edgeGet_mapSet_same _ _ _
    · simp only [wakeUp]
      rw [edgeGet_mapSet_other _ _ _ _ hkm]
      exact hb
  · intro hne
    by_cases hkm : k = (getLeastWeightEdge node).1
    · refine ⟨hkm, ?_⟩
      subst hkm
      exact edgeGet_mapSet_same _ _ _
    · exfalso
      apply hne
      simp only [wakeUp]
      exact edgeGet_mapSet_other _ _ _ _ hkm

/-- Witness of C3 (amended): handling `Test,1,7` from `c` takes edge `c` from
`BASIC` to `REJECTED` and keeps edge `b`, which is `BRANCH`, `BRANCH`. -/
theorem C3_edge_status_steps_witness :
    server_step id exampleNode exampleState "c" "Test,1,7" =
      Except.ok
        ({ exampleState with statusEdge := [("b", BRANCH), ("c", REJECTED)] },
          [⟨"Reject", "a", "c"⟩]) ∧
    edgeGet exampleState.statusEdge "b" = BRANCH ∧
    edgeGet [("b", BRANCH), ("c", REJECTED)] "b" = BRANCH :=
  ⟨rfl, by decide, (C3_edge_status_steps id exampleNode exampleState "c" "Test,1,7"
    ({ exampleState with statusEdge := [("b", BRANCH), ("c", REJECTED)] },
      [⟨"Reject", "a", "c"⟩]) rfl "b").1 (by decide)⟩

/-- C4. Wakeup of a node with a non-empty neighbour table: `getLeastWeightEdge`
selects the first entry of least weight; its edge becomes `BRANCH`, the edge of
every other neighbour stays `BASIC`, `levelNode = 0`, `state = FOUND`,
`findCount = 0`, and the one message sent is `Connect,0` to the selected
neighbour. -/
theorem C4_wakeup (node : yamlConfig) (hne : node.Neighbours ≠ []) :
    ∃ i, ∃ hi : i < node.Neighbours.length,
      getLeastWeightEdge node =
        ((node.Neighbours.get ⟨i, hi⟩).Address, (node.Neighbours.get ⟨i, hi⟩).EdgeWeight) ∧
      (∀ n ∈ node.Neighbours, (node.Neighbours.get ⟨i, hi⟩).EdgeWeight ≤ n.EdgeWeight) ∧
      (∀ k, ∀ hk : k < node.Neighbours.length, k < i →
        (node.Neighbours.get ⟨i, hi⟩).EdgeWeight < (node.Neighbours.get ⟨k, hk⟩).EdgeWeight) ∧
      edgeGet (wakeUp node (initState node)).1.statusEdge (node.Neighbours.get ⟨i, hi⟩).Address
        = BRANCH ∧
      (∀ n ∈ node.Neighbours, n.Address ≠ (node.Neighbours.get ⟨i, hi⟩).Address →
        edgeGet (wakeUp node (initState node)).1.statusEdge n.Address = BASIC) ∧
      (wakeUp node (initState node)).1.levelNode = 0 ∧
      (wakeUp node (initState node)).1.state = FOUND ∧
      (wakeUp node (initState node)).1.findCount = 0 ∧
      (wakeUp node (initState node)).2 =
        [⟨"Connect,0", node.Address, (node.Neighbours.get ⟨i, hi⟩).Address⟩] := by
  obtain ⟨i, hi, heq, hall, hfirst⟩ := getLeastWeightEdge_spec node hne
  refine ⟨i, hi, heq, hall, hfirst, ?_, ?_, rfl, rfl, rfl, ?_⟩
  · simp only [wakeUp, heq]
    exact edgeGet_mapSet_same _ _ _
  · intro n hn hne1
    simp only [wakeUp, heq]
    rw [edgeGet_mapSet_other _ _ _ _ hne1]
    exact edgeGet_initState node n hn
  · simp only [wakeUp, heq, Itoa_zero]
    rfl

/-- Witness of C4 on `exampleNode`, whose neighbours are `b` (weight 7) and `c`
(weight 3): wakeup selects `c`. -/
theorem C4_wakeup_witness :
    exampleNode.Neighbours ≠ [] ∧
    getLeastWeightEdge exampleNode = ("c", 3) ∧
    edgeGet (wakeUp exampleNode (initState exampleNode)).1.statusEdge "c" = BRANCH ∧
    (wakeUp exampleNode (initState exampleNode)).2 = [⟨"Connect,0", "a", "c"⟩] := by
  obtain ⟨i, hi, h1, _, _, h4, _, _, _, _, h9⟩ := C4_wakeup exampleNode (by decide)
  have hc : getLeastWeightEdge exampleNode = ("c", 3) := by decide
  have haddr : (exampleNode.Neighbours.get ⟨i, hi⟩).Address = "c" := by
    rw [hc] at h1
    exact (congrArg Prod.fst h1).symm
  rw [haddr] at h4 h9
  exact ⟨by decide, hc, h4, h9⟩

/-- C6, counterexample.  In the two-vertex graph, after wakeup, the node handles
`Initiate,1,5,Find` from `b`: the fields are `Initiate`, `1`, `5`, `Find`, so `S`
is `FIND`, and the handler ends with `state = FOUND`, because procedure `test`
finds no `BASIC` edge and runs procedure `report`. -/
theorem C6_counterexample :
    strings_Split "Initiate,1,5,Find" = ["Initiate", "1", "5", FIND] ∧
    server_step id pairNode (wakeUp pairNode (initState pairNode)).1 "b" "Initiate,1,5,Find" =
      Except.ok
        ({ terminated := false
           statusEdge := [("b", BRANCH)]
           levelNode := 1
           state := FOUND
           findCount := 0
           fragmentNode := 5
           parent := "b"
           bestWt := INFINITY
           bestNode := ""
           testNode := "" },
          [⟨"Report,9223372036854775807", "a", "b"⟩]) ∧
    FOUND ≠ FIND := by
  refine ⟨by decide, rfl, by decide⟩

/-- C6, amended.  Initiate handler, for a message whose fields are `Initiate`,
`a`, `b`, `S`, ... with `L` and `F` the integers read from `a` and `b`.  The
handler sets `levelNode = L`, `fragmentNode = F`, `state = S`, `parent = j`,
`bestNode = ""`, `bestWt = INFINITY`; sends `Initiate,L,F,S` once for each entry
of the neighbour table whose edge is `BRANCH` and whose address is not `j`, and
to no one else; increments `findCount` (Go's `+= 1`) once per such entry when
`S` is `FIND` and leaves it unchanged otherwise; and then runs procedure `test`
on that state exactly when `S` is `FIND`.  After the handler, `levelNode`,
`fragmentNode`, `parent`, `bestNode`, `bestWt`, `findCount` and the edge map
are as just described; `state` is `S` when procedure `test` starts, and
procedure `test` may end with another value. -/
theorem C6_initiate_handler (order : MapOrder) (node : yamlConfig) (st : NodeState)
    (j message a b S : String) (rest : List String)
    (hsplit : strings_Split message = "Initiate" :: a :: b :: S :: rest) :
    let recipients := node.Neighbours.filter
      (fun r => decide (edgeGet st.statusEdge r.Address = BRANCH ∧ r.Address ≠ j))
    let forwarded : List Packet := recipients.map
      (fun r => ⟨"Initiate," ++ Itoa (Atoi a).1 ++ "," ++ Itoa (Atoi b).1 ++ "," ++ S,
        node.Address, r.Address⟩)
    let mid : NodeState :=
      { st with
          levelNode := (Atoi a).1
          fragmentNode := (Atoi b).1
          state := S
          parent := j
          bestNode := ""
          bestWt := INFINITY
          findCount :=
            if S = FIND then Nat.iterate (fun x => goAdd x 1) recipients.length st.findCount
            else st.findCount }
    (S = FIND →
      server_step order node st j message =
        Except.ok ((test order node mid).1, forwarded ++ (test order node mid).2)) ∧
    (S ≠ FIND → server_step order node st j message = Except.ok (mid, forwarded)) ∧
    (∀ r, server_step order node st j message = Except.ok r →
      r.1.levelNode = (Atoi a).1 ∧ r.1.fragmentNode = (Atoi b).1 ∧ r.1.parent = j ∧
      r.1.bestNode = "" ∧ r.1.bestWt = INFINITY ∧ r.1.findCount = mid.findCount ∧
      r.1.statusEdge = st.statusEdge ∧
      ∃ tail, r.2 = forwarded ++ tail ∧
        ∀ p ∈ tail, p.message.data.take 1 ≠ "Initiate,".data.take 1) ∧
    (-9223372036854775808 ≤ st.findCount →
      st.findCount + recipients.length ≤ INFINITY →
      Nat.iterate (fun x => goAdd x 1) recipients.length st.findCount =
        st.findCount + recipients.length) := by
  intro recipients forwarded mid
  have hstep := server_step_Initiate order node st j message a b S rest hsplit
  have hloop := initiateLoop_eq node j node.Neighbours
    { st with
        levelNode := (Atoi a).1
        fragmentNode := (Atoi b).1
        state := S
        parent := j
        bestNode := ""
        bestWt := INFINITY }
  have hFIND : S = FIND →
      server_step order node st j message =
        Except.ok ((test order node mid).1, forwarded ++ (test order node mid).2) := by
    intro hS
    subst hS
    rw [hstep]
    unfold server_Initiate
    simp only
    rw [hloop]
    simp only [↓reduceIte]
    rfl
  have hFOUND : S ≠ FIND → server_step order node st j message = Except.ok (mid, forwarded) := by
    intro hS
    rw [hstep]
    unfold server_Initiate
    simp only
    rw [hloop]
    simp only [hS, ↓reduceIte, mid, forwarded, recipients]
  refine ⟨hFIND, hFOUND, ?_, ?_⟩
  · intro r hr
    by_cases hS : S = FIND
    · rw [hFIND hS] at hr
      cases hr
      obtain ⟨h1, h2, h3, h4, h5, h6, h7⟩ := test_frame order node mid
      refine ⟨h2, h4, h5, h7, h6, h3, h1, (test order node mid).2, rfl, ?_⟩
      intro p hp heq
      unfold test at hp
      simp only at hp
      split at hp
      · simp only [List.mem_singleton] at hp
        subst hp
        simp only [String.append_assoc] at heq
        rw [take_data_append _ _ 1 (by decide)] at heq
        revert heq
        decide
      · unfold report at hp
        split at hp
        · simp only [List.mem_singleton] at hp
          subst hp
          rw [take_data_append _ _ 1 (by decide)] at heq
          revert heq
          decide
        · simp at hp
    · rw [hFOUND hS] at hr
      cases hr
      exact ⟨rfl, rfl, rfl, rfl, rfl, rfl, rfl, [], by simp, by simp⟩
  · intro h1 h2
    exact iterate_goAdd_one _ _ h1 h2

/-- Witness of C6 (amended): `Initiate,3,7,Found` from `c` is forwarded to the
`BRANCH` neighbour `b` and procedure `test` does not run. -/
theorem C6_initiate_handler_witness :
    strings_Split "Initiate,3,7,Found" = "Initiate" :: "3" :: "7" :: "Found" :: [] ∧
    server_step id exampleNode exampleState "c" "Initiate,3,7,Found" =
      Except.ok
        ({ exampleState with levelNode := 3, parent := "c" },
          [⟨"Initiate,3,7,Found", "a", "b"⟩]) := by
  refine ⟨by decide, ?_⟩
  have h := (C6_initiate_handler id exampleNode exampleState "c" "Initiate,3,7,Found"
    "3" "7" "Found" [] (by decide)).2.1 (by decide)
  rw [h]
  rfl

/-- C9. Deferred delivery.  In each of the three deferring cases (`Connect` with
`L` not below `levelNode` on a `BASIC` edge; `Test` with `L` above `levelNode`;
`Report` from `parent` in state `FIND`) the iteration returns the node state it
started from, every field unchanged, and sends exactly one message: the text
`message` as it was received, with `j` as the sending address and the node's
own address as the destination. -/
theorem C9_deferred_delivery (order : MapOrder) (node : yamlConfig) (st : NodeState)
    (j message : String) :
    (∀ a rest, strings_Split message = "Connect" :: a :: rest →
      ¬ (Atoi a).1 < st.levelNode → edgeGet st.statusEdge j = BASIC →
      server_step order node st j message = Except.ok (st, [⟨message, j, node.Address⟩])) ∧
    (∀ a b rest, strings_Split message = "Test" :: a :: b :: rest →
      (Atoi a).1 > st.levelNode →
      server_step order node st j message = Except.ok (st, [⟨message, j, node.Address⟩])) ∧
    (∀ a rest, strings_Split message = "Report" :: a :: rest →
      j = st.parent → st.state = FIND →
      server_step order node st j message = Except.ok (st, [⟨message, j, node.Address⟩])) := by
  refine ⟨?_, ?_, ?_⟩
  · intro a rest hsplit hlt hb
    rw [server_step_Connect order node st j message a rest hsplit]
    simp [server_Connect, hlt, hb, wait]
  · intro a b rest hsplit hgt
    rw [server_step_Test order node st j message a b rest hsplit]
    simp [server_Test, hgt, wait]
  · intro a rest hsplit hj hs
    rw [server_step_Report order node st j message a rest hsplit]
    simp [server_Report, hj, hs, wait]

/-- Witness of C9: `Connect,2` from `c`, whose edge is `BASIC`, at level 2. -/
theorem C9_deferred_delivery_witness :
    server_step id exampleNode exampleState "c" "Connect,2" =
      Except.ok (exampleState, [⟨"Connect,2", "c", "a"⟩]) :=
  (C9_deferred_delivery id exampleNode exampleState "c" "Connect,2").1 "2" []
    (by decide) (by decide) (by decide)

/-- C11. Harness de-duplication.  For a map (keys pairwise distinct) in which the
value `v` is held by the two keys `a` and `b` and no two other distinct keys
hold a same value, and for every order in which the two `range` loops visit the
entries: `deleteDuplicatesAndReturnOne` returns one of `a`, `b` and deletes the
other; every other entry is unchanged; afterwards no value occurs twice and the
returned key still maps to `v`. -/
theorem C11_dedup (outer : IntMapOrder) (inner : Int → IntMapOrder) (myMap : GoMap Int Int)
    (a b v : Int)
    (hkeys : (myMap.map Prod.fst).Nodup) (ha : (a, v) ∈ myMap) (hb : (b, v) ∈ myMap)
    (hab : a ≠ b)
    (huniq : ∀ k1 k2 v1, (k1, v1) ∈ myMap → (k2, v1) ∈ myMap → k1 ≠ k2 →
      (k1 = a ∧ k2 = b) ∨ (k1 = b ∧ k2 = a))
    (houter : ∀ m, (outer m).Perm m) (hinner : ∀ k m, (inner k m).Perm m) :
    ∃ k other, ((k = a ∧ other = b) ∨ (k = b ∧ other = a)) ∧
      deleteDuplicatesAndReturnOne outer inner myMap = Except.ok (k, mapDelete myMap other) ∧
      mapDelete myMap other = myMap.filter (fun e => decide (e.1 ≠ other)) ∧
      (∀ e, e ∈ mapDelete myMap other ↔ e ∈ myMap ∧ e.1 ≠ other) ∧
      ((mapDelete myMap other).map Prod.snd).Nodup ∧
      (k, v) ∈ mapDelete myMap other := by
  have hsub : ∀ e ∈ outer myMap, e ∈ myMap := fun e he => (houter myMap).mem_iff.mp he
  have hin : (a, v) ∈ outer myMap ∨ (b, v) ∈ outer myMap :=
    Or.inl ((houter myMap).mem_iff.mpr ha)
  obtain ⟨k, other, hpair, hres⟩ :=
    dedupOuter_spec inner myMap a b v ha hb hab huniq hinner (outer myMap) hsub hin
  have hmemiff : ∀ e, e ∈ mapDelete myMap other ↔ e ∈ myMap ∧ e.1 ≠ other := by
    intro e
    rw [mapDelete_eq_filter, List.mem_filter]
    simp
  refine ⟨k, other, hpair, hres, mapDelete_eq_filter myMap other, hmemiff, ?_, ?_⟩
  · rw [mapDelete_eq_filter]
    apply List.Nodup.map_on
    · intro x hx y hy hxy
      have hxm := (List.mem_filter.mp hx)
      have hym := (List.mem_filter.mp hy)
      have hxo : x.1 ≠ other := by simpa using hxm.2
      have hyo : y.1 ≠ other := by simpa using hym.2
      by_contra hne
      have hk : x.1 ≠ y.1 := by
        intro hkeq
        apply hne
        exact Prod.ext hkeq hxy
      have hx' : (x.1, x.2) ∈ myMap := hxm.1
      have hy' : (y.1, x.2) ∈ myMap := by
        rw [hxy]
        exact hym.1
      rcases huniq x.1 y.1 x.2 hx' hy' hk with ⟨h1, h2⟩ | ⟨h1, h2⟩ <;>
        rcases hpair with ⟨_, ho⟩ | ⟨_, ho⟩
      · exact hyo (h2.trans ho.symm)
      · exact hxo (h1.trans ho.symm)
      · exact hxo (h1.trans ho.symm)
      · exact hyo (h2.trans ho.symm)
    · exact (List.Nodup.of_map Prod.fst hkeys).filter _
  · rw [hmemiff]
    rcases hpair with ⟨hk, ho⟩ | ⟨hk, ho⟩
    · subst hk; subst ho
      exact ⟨ha, hab⟩
    · subst hk; subst ho
      exact ⟨hb, hab.symm⟩

/-- Witness of C11 on `exampleEdges`, visited in the order of the list: key 2 is
returned and key 3 is deleted. -/
theorem C11_dedup_witness :
    (exampleEdges.map Prod.fst).Nodup ∧ (2, 5) ∈ exampleEdges ∧ (3, 5) ∈ exampleEdges ∧
    deleteDuplicatesAndReturnOne id (fun _ => id) exampleEdges =
      Except.ok (2, [(1, 10), (2, 5), (4, 7)]) := by
  have huniq : ∀ k1 k2 v1 : Int, (k1, v1) ∈ exampleEdges → (k2, v1) ∈ exampleEdges → k1 ≠ k2 →
      (k1 = 2 ∧ k2 = 3) ∨ (k1 = 3 ∧ k2 = 2) := by
    intro k1 k2 v1 h1 h2 hne
    simp only [exampleEdges, List.mem_cons, Prod.mk.injEq, List.mem_singleton,
      List.not_mem_nil, or_false] at h1 h2
    omega
  obtain ⟨k, other, _, hres, _, _, _, _⟩ :=
    C11_dedup id (fun _ => id) exampleEdges 2 3 5 (by decide) (by decide) (by decide)
      (by decide) huniq (fun m => List.Perm.refl m) (fun _ m => List.Perm.refl m)
  have hval : deleteDuplicatesAndReturnOne id (fun _ => id) exampleEdges =
      Except.ok (2, [(1, 10), (2, 5), (4, 7)]) := rfl
  exact ⟨by decide, by decide, by decide, hval⟩

/-- C12, counterexample.  The message of wakeup is `Connect,0`, whose last
character is `0`: it is not the newline-terminated record.  Procedure
`changeRoot` on a `BRANCH` edge sends `ChangeRoot,`: a comma follows the type
and no newline ends the text. -/
theorem C12_counterexample :
    (wakeUp exampleNode (initState exampleNode)).2 = [⟨"Connect,0", "a", "c"⟩] ∧
    "Connect,0".data.getLast? = some '0' ∧
    "Connect,0" ≠ "Connect,0\n" ∧
    (changeRoot exampleNode { exampleState with bestNode := "b" }).2 =
      [⟨"ChangeRoot,", "a", "b"⟩] ∧
    "ChangeRoot," ≠ "ChangeRoot\n" := by
  refine ⟨rfl, by decide, by decide, rfl, by decide⟩

/-- C12, amended.  The text handed to `send` by wakeup, by every procedure and
by the `Stop` sweep is one of the eight comma-separated records `WireRecord`:
`Connect,<level>`, `Initiate,<level>,<fragment>,<state>`, `Test,<level>,<fragment>`,
`Accept`, `Reject`, `Report,<weight>`, `ChangeRoot,` and `Stop`.  So is every
text sent by an iteration of the loop, whose deferral re-sends the received
text, when the received text is such a record and `state` is `Find` or `Found`;
`state` is then `Find` or `Found` afterwards.  No record ends with a newline. -/
theorem C12_wire_format :
    (∀ (node : yamlConfig) (st : NodeState), ∀ p ∈ (wakeUp node st).2, WireRecord p.message) ∧
    (∀ (order : MapOrder) (node : yamlConfig) (st : NodeState),
      (∀ p ∈ (report node st).2, WireRecord p.message) ∧
      (∀ p ∈ (test order node st).2, WireRecord p.message) ∧
      (∀ p ∈ (changeRoot node st).2, WireRecord p.message) ∧
      (∀ p ∈ stopSweep node st node.Neighbours, WireRecord p.message)) ∧
    (∀ (order : MapOrder) (node : yamlConfig) (st : NodeState) (j message : String)
        (r : NodeState × List Packet),
      server_step order node st j message = Except.ok r →
      WireRecord message → (st.state = FIND ∨ st.state = FOUND) →
      (∀ p ∈ r.2, WireRecord p.message) ∧ (r.1.state = FIND ∨ r.1.state = FOUND)) ∧
    (∀ (node : yamlConfig) (st : NodeState),
      (wakeUp node st).1.state = FIND ∨ (wakeUp node st).1.state = FOUND) ∧
    (∀ s, WireRecord s → s.data.getLast? ≠ some '\n') := by
  refine ⟨?_, ?_, server_step_wire, fun _ _ => Or.inr rfl, WireRecord_no_newline⟩
  · intro node st p hp
    simp only [wakeUp, List.mem_singleton] at hp
    subst hp
    exact WireRecord_Connect _
  · intro order node st
    exact ⟨report_wire node st, test_wire order node st, changeRoot_wire node st,
      stopSweep_wire node st node.Neighbours⟩

/-- Witness of C12 (amended): `exampleState` receives the record `Connect,0` from
`b` and answers with the record `Initiate,2,7,Found`. -/
theorem C12_wire_format_witness :
    WireRecord "Connect,0" ∧
    server_step id exampleNode exampleState "b" "Connect,0" =
      Except.ok (exampleState, [⟨"Initiate,2,7,Found", "a", "b"⟩]) ∧
    WireRecord "Initiate,2,7,Found" := by
  have hrec : WireRecord "Connect,0" := Or.inl ⟨0, by decide⟩
  have h := (C12_wire_format.2.2.1 id exampleNode exampleState "b" "Connect,0"
    (exampleState, [⟨"Initiate,2,7,Found", "a", "b"⟩]) rfl hrec (Or.inr rfl)).1
  exact ⟨hrec, rfl, h ⟨"Initiate,2,7,Found", "a", "b"⟩ (by simp)⟩

/-- C14, counterexample.  The table of `emptyAddressNode` has an entry with the
empty address.  The engine wakes up and handles `Stop` from `b`: it terminates
while `parent` is still `""`, and `getWeight` finds the entry with the empty
address, so the run returns the contribution 4 instead of exiting. -/
theorem C14_counterexample :
    server emptyAddressNode [⟨"b", "Stop", id⟩] =
      Outcome.returned
        { terminated := true
          statusEdge := [("", BASIC), ("b", BASIC), ("c", BRANCH)]
          levelNode := 0
          state := FOUND
          findCount := 0
          fragmentNode := -1
          parent := ""
          bestWt := 0
          bestNode := ""
          testNode := "" }
        [⟨"Connect,0", "a", "c"⟩, ⟨"Stop", "a", "c"⟩] 1 4 ∧
    getWeight "" emptyAddressNode = Except.ok 4 := by
  refine ⟨rfl, rfl⟩

/-- C14, amended.  For every neighbour table and every address, `getWeight`
returns the weight of the first entry with that address, and exits (status -1)
exactly when no entry has it.  An engine whose loop ends with `terminated` set
stores as its contribution the weight of the first entry whose address is
`parent`, after the `Stop` sweep, and exits when no entry has the address
`parent`; with `parent` still `""` it exits when no entry has the empty
address. -/
theorem C14_weight_lookup (node : yamlConfig) (address : String) :
    (∀ n, node.Neighbours.find? (fun n => decide (address = n.Address)) = some n →
      getWeight address node = Except.ok n.EdgeWeight) ∧
    (getWeight address node = Except.error (Fault.exit (-1)) ↔
      address ∉ node.Neighbours.map Neighbour.Address) ∧
    (address ∈ node.Neighbours.map Neighbour.Address →
      ∃ n, node.Neighbours.find? (fun n => decide (address = n.Address)) = some n ∧
        getWeight address node = Except.ok n.EdgeWeight) ∧
    (∀ (inbox : List Delivery) (st : NodeState) (out : List Packet) (left : List Delivery),
      server_loop node (wakeUp node (initState node)).1 inbox = Except.ok (st, out, left) →
      st.terminated = true →
      (∀ n, node.Neighbours.find? (fun n => decide (st.parent = n.Address)) = some n →
        server node inbox =
          Outcome.returned st
            ((wakeUp node (initState node)).2 ++ out ++ stopSweep node st node.Neighbours)
            node.ID n.EdgeWeight) ∧
      (st.parent ∉ node.Neighbours.map Neighbour.Address →
        server node inbox = Outcome.stopped (Fault.exit (-1))) ∧
      (st.parent = "" → (∀ n ∈ node.Neighbours, n.Address ≠ "") →
        server node inbox = Outcome.stopped (Fault.exit (-1)))) := by
  have hfind : ∀ (a : String) (n : Neighbour),
      node.Neighbours.find? (fun n => decide (a = n.Address)) = some n →
      getWeight a node = Except.ok n.EdgeWeight := by
    intro a n hn
    unfold getWeight
    rw [getWeightLoop_eq_find, hn]
  refine ⟨hfind address, getWeight_error_iff address node, ?_, ?_⟩
  · intro hmem
    obtain ⟨n, hn⟩ := find_of_mem_addresses address node.Neighbours hmem
    exact ⟨n, hn, hfind address n hn⟩
  · intro inbox st out left hloop hterm
    have hexit : st.parent ∉ node.Neighbours.map Neighbour.Address →
        server node inbox = Outcome.stopped (Fault.exit (-1)) := by
      intro hno
      have hw := (getWeight_error_iff st.parent node).mpr hno
      unfold server
      simp only [hloop, hterm, ↓reduceIte, hw]
    refine ⟨?_, hexit, ?_⟩
    · intro n hn
      unfold server
      simp only [hloop, hterm, ↓reduceIte, hfind st.parent n hn]
    · intro hp hall
      apply hexit
      rw [hp]
      intro hmem
      obtain ⟨n, hn, hna⟩ := List.mem_map.mp hmem
      exact hall n hn hna

/-- Witness of C14 (amended): `exampleNode` wakes up and handles `Stop` from `b`
with `parent` still `""`; no entry has the empty address and the run exits. -/
theorem C14_weight_lookup_witness :
    server exampleNode [⟨"b", "Stop", id⟩] = Outcome.stopped (Fault.exit (-1)) :=
  ((C14_weight_lookup exampleNode "").2.2.2 [⟨"b", "Stop", id⟩]
    { terminated := true
      statusEdge := [("b", BASIC), ("c", BRANCH)]
      levelNode := 0
      state := FOUND
      findCount := 0
      fragmentNode := -1
      parent := ""
      bestWt := 0
      bestNode := ""
      testNode := "" }
    [] [] rfl rfl).2.2 rfl (by decide)

/-- C15, counterexample.  From wakeup, `exampleNode` handles `Report,5` from its
neighbour `b`, which is not `parent`: `findCount` goes from 0 to -1 while `state`
stays `FOUND`.  From wakeup again, it handles `Initiate,1,9,Find` and then
`Initiate,2,9,Found` from `b`: `state` is `FOUND` with `findCount = 1`. -/
theorem C15_counterexample :
    "b" ∈ exampleNode.Neighbours.map Neighbour.Address ∧
    server_loop exampleNode (wakeUp exampleNode (initState exampleNode)).1
        [⟨"b", "Report,5", id⟩] =
      Except.ok
        ({ terminated := false
           statusEdge := [("b", BASIC), ("c", BRANCH)]
           levelNode := 0
           state := FOUND
           findCount := -1
           fragmentNode := -1
           parent := ""
           bestWt := 0
           bestNode := ""
           testNode := "" }, [], []) ∧
    ¬ ((0 : Int) ≤ -1) ∧
    server_loop exampleNode (wakeUp exampleNode (initState exampleNode)).1
        [⟨"b", "Initiate,1,9,Find", id⟩, ⟨"b", "Initiate,2,9,Found", id⟩] =
      Except.ok
        ({ terminated := false
           statusEdge := [("b", BASIC), ("c", BRANCH)]
           levelNode := 2
           state := FOUND
           findCount := 1
           fragmentNode := 9
           parent := "b"
           bestWt := INFINITY
           bestNode := ""
           testNode := "b" },
          [⟨"Initiate,1,9,Find", "a", "c"⟩, ⟨"Test,1,9", "a", "b"⟩,
            ⟨"Initiate,2,9,Found", "a", "c"⟩], []) ∧
    (1 : Int) ≠ 0 := by
  refine ⟨by decide, rfl, by decide, rfl, by decide⟩

/-- C15, amended.  Wakeup establishes the invariant `FindCountInv` (`findCount`
not negative, and zero when `state` is `FOUND`), with `findCount = 0` and
`state = FOUND`.  Every handled message keeps it, as long as `findCount` plus
the number of neighbours stays below `math.MaxInt64`, with two exceptions: a
`Report` from a neighbour other than `parent` received at `findCount = 0`, and
an `Initiate` carrying the state `Found` received at a non-zero `findCount`. -/
theorem C15_findCount_invariant :
    (∀ (node : yamlConfig) (st : NodeState),
      FindCountInv (wakeUp node st).1 ∧ (wakeUp node st).1.findCount = 0 ∧
      (wakeUp node st).1.state = FOUND) ∧
    (∀ (order : MapOrder) (node : yamlConfig) (st : NodeState) (j message : String)
        (r : NodeState × List Packet),
      server_step order node st j message = Except.ok r →
      FindCountInv st →
      st.findCount + node.Neighbours.length < INFINITY →
      (¬ ∃ a rest, strings_Split message = "Report" :: a :: rest ∧ j ≠ st.parent ∧
        st.findCount = 0) →
      (¬ ∃ a b rest, strings_Split message = "Initiate" :: a :: b :: FOUND :: rest ∧
        st.findCount ≠ 0) →
      FindCountInv r.1) := by
  refine ⟨?_, server_step_FindCountInv⟩
  intro node st
  refine ⟨⟨le_refl _, fun _ => rfl⟩, rfl, rfl⟩

/-- Witness of C15 (amended): `exampleState` has `findCount = 0` in state `FOUND`;
handling `Test,1,7` from `c` keeps the invariant. -/
theorem C15_findCount_invariant_witness :
    FindCountInv exampleState ∧
    server_step id exampleNode exampleState "c" "Test,1,7" =
      Except.ok
        ({ exampleState with statusEdge := [("b", BRANCH), ("c", REJECTED)] },
          [⟨"Reject", "a", "c"⟩]) ∧
    FindCountInv { exampleState with statusEdge := [("b", BRANCH), ("c", REJECTED)] } := by
  have hinv : FindCountInv exampleState := ⟨by decide, fun _ => rfl⟩
  refine ⟨hinv, rfl, ?_⟩
  exact C15_findCount_invariant.2 id exampleNode exampleState "c" "Test,1,7"
    ({ exampleState with statusEdge := [("b", BRANCH), ("c", REJECTED)] },
      [⟨"Reject", "a", "c"⟩]) rfl hinv (by decide)
    (by
      rintro ⟨a, rest, hs, _⟩
      have h : strings_Split "Test,1,7" = ["Test", "1", "7"] := by decide
      rw [h] at hs
      simp at hs)
    (by
      rintro ⟨a, b, rest, hs, _⟩
      have h : strings_Split "Test,1,7" = ["Test", "1", "7"] := by decide
      rw [h] at hs
      simp at hs)

/-- C16, counterexample.  The entries of `emptyAddressNode` have pairwise distinct
addresses and weights.  After wakeup, which takes edge `c`, the node handles
`Initiate,1,2,Find` from `c`, so procedure `test` runs with the edges `""`
(weight 4) and `b` (weight 9) `BASIC`.  The entry of least weight has the empty
address, which the procedure takes for "no neighbour": no `Test` is sent, and
procedure `report` runs and sends `Report`. -/
theorem C16_counterexample :
    (emptyAddressNode.Neighbours.map Neighbour.Address).Nodup ∧
    (emptyAddressNode.Neighbours.map Neighbour.EdgeWeight).Nodup ∧
    (wakeUp emptyAddressNode (initState emptyAddressNode)).1.statusEdge =
      [("", BASIC), ("b", BASIC), ("c", BRANCH)] ∧
    server_step id emptyAddressNode (wakeUp emptyAddressNode (initState emptyAddressNode)).1
        "c" "Initiate,1,2,Find" =
      Except.ok
        ({ terminated := false
           statusEdge := [("", BASIC), ("b", BASIC), ("c", BRANCH)]
           levelNode := 1
           state := FOUND
           findCount := 0
           fragmentNode := 2
           parent := "c"
           bestWt := INFINITY
           bestNode := ""
           testNode := "" },
          [⟨"Report,9223372036854775807", "a", "c"⟩]) ∧
    test id emptyAddressNode
        { terminated := false
          statusEdge := [("", BASIC), ("b", BASIC), ("c", BRANCH)]
          levelNode := 1
          state := FIND
          findCount := 0
          fragmentNode := 2
          parent := "c"
          bestWt := INFINITY
          bestNode := ""
          testNode := "" } =
      ({ terminated := false
         statusEdge := [("", BASIC), ("b", BASIC), ("c", BRANCH)]
         levelNode := 1
         state := FOUND
         findCount := 0
         fragmentNode := 2
         parent := "c"
         bestWt := INFINITY
         bestNode := ""
         testNode := "" },
        [⟨"Report,9223372036854775807", "a", "c"⟩]) := by
  refine ⟨by decide, by decide, rfl, rfl, rfl⟩

/-- C16, amended.  Procedure `test`, for a neighbour table with pairwise distinct
addresses and pairwise distinct weights and for every order in which the
intermediate map is visited.  If no edge is `BASIC`, `testNode` becomes `""` and
procedure `report` runs.  Otherwise there is one `BASIC` entry of least weight;
its edge is `BASIC`; if its address is not the empty string, `testNode` becomes
that address and the one message sent is `Test,levelNode,fragmentNode` to it;
if its address is the empty string, `testNode` becomes `""` and procedure
`report` runs.  No edge status changes. -/
theorem C16_test_procedure (order : MapOrder) (node : yamlConfig) (st : NodeState)
    (hAddr : (node.Neighbours.map Neighbour.Address).Nodup)
    (hW : (node.Neighbours.map Neighbour.EdgeWeight).Nodup)
    (horder : ∀ m, (order m).Perm m) :
    let basics := node.Neighbours.filter
      (fun n => decide (edgeGet st.statusEdge n.Address = BASIC))
    (basics = [] → test order node st = report node { st with testNode := "" }) ∧
    (basics ≠ [] → ∃ e ∈ basics, ∀ n ∈ basics, e.EdgeWeight ≤ n.EdgeWeight) ∧
    (∀ e ∈ basics, (∀ n ∈ basics, e.EdgeWeight ≤ n.EdgeWeight) →
      (∀ e2 ∈ basics, (∀ n ∈ basics, e2.EdgeWeight ≤ n.EdgeWeight) → e2 = e) ∧
      edgeGet st.statusEdge e.Address = BASIC ∧
      (e.Address ≠ "" →
        test order node st =
          ({ st with testNode := e.Address },
            [⟨"Test," ++ Itoa st.levelNode ++ "," ++ Itoa st.fragmentNode,
              node.Address, e.Address⟩])) ∧
      (e.Address = "" → test order node st = report node { st with testNode := "" })) ∧
    (test order node st).1.statusEdge = st.statusEdge := by
  intro basics
  refine ⟨?_, ?_, ?_, (test_frame order node st).1⟩
  · intro hnil
    have hcol := testCollect_eq st.statusEdge node.Neighbours [] hAddr (by simp)
    simp only [List.nil_append] at hcol
    have hempty : testCollect st.statusEdge node.Neighbours [] = [] := by
      rw [hcol]
      show basics.map _ = []
      rw [hnil]
      rfl
    have horder0 : order [] = [] := List.Perm.eq_nil (horder [])
    simp [test, hempty, horder0, testSelect]
  · intro hne
    have hne2 : basics.map (fun n => (n.Address, n.EdgeWeight)) ≠ [] := by
      intro h
      exact hne (List.map_eq_nil_iff.mp h)
    obtain ⟨x, hx, _, hall⟩ := testSelect_spec _ hne2
    obtain ⟨n, hn, hnx⟩ := List.mem_map.mp hx
    refine ⟨n, hn, ?_⟩
    intro m hm
    have := hall _ (List.mem_map_of_mem (fun n => (n.Address, n.EdgeWeight)) hm)
    rw [← hnx] at this
    exact this
  · intro e he hmin
    have hleast := test_least order node st hAddr hW horder e he hmin
    refine ⟨?_, ?_, ?_, ?_⟩
    · intro e2 he2 hmin2
      have h1 := hmin e2 he2
      have h2 := hmin2 e he
      exact List.inj_on_of_nodup_map hW (List.mem_filter.mp he2).1 (List.mem_filter.mp he).1
        (by omega)
    · simpa using (List.mem_filter.mp he).2
    · intro hne
      simp [test, hleast, hne]
    · intro heq
      simp [test, hleast, heq]

/-- Witness of C16 (amended) on `exampleNode` and `exampleState`, whose only
`BASIC` edge is `c`: `Test,2,7` goes to `c`. -/
theorem C16_test_procedure_witness :
    (exampleNode.Neighbours.map Neighbour.Address).Nodup ∧
    (exampleNode.Neighbours.map Neighbour.EdgeWeight).Nodup ∧
    test id exampleNode exampleState =
      ({ exampleState with testNode := "c" }, [⟨"Test,2,7", "a", "c"⟩]) := by
  refine ⟨by decide, by decide, ?_⟩
  have h := (C16_test_procedure id exampleNode exampleState (by decide) (by decide)
    (fun m => List.Perm.refl m)).2.2.1 ⟨3, "c", 3⟩ (by decide)
    (by intro n hn; revert n; decide)
  rw [h.2.2.1 (by decide)]
  rfl

/-- C17. Procedure `report`: if `findCount == 0` and `testNode == ""`, `state`
becomes `FOUND`, the one message sent is `Report,bestWt` to `parent`, and every
other field is unchanged; otherwise nothing is sent and the state is unchanged. -/
theorem C17_report_procedure (node : yamlConfig) (st : NodeState) :
    (st.findCount = 0 ∧ st.testNode = "" →
      report node st =
        ({ st with state := FOUND },
          [⟨"Report," ++ Itoa st.bestWt, node.Address, st.parent⟩])) ∧
    (¬ (st.findCount = 0 ∧ st.testNode = "") → report node st = (st, [])) := by
  constructor
  · intro h
    simp [report, h.1, h.2]
  · intro h
    unfold report
    rw [if_neg h]

/-- Witness of C17: in `exampleState` (`findCount = 0`, `testNode = ""`) procedure
`report` sends `Report,9223372036854775807` to the parent `b`. -/
theorem C17_report_procedure_witness :
    report exampleNode exampleState =
      ({ exampleState with state := FOUND },
        [⟨"Report,9223372036854775807", "a", "b"⟩]) := by
  rw [(C17_report_procedure exampleNode exampleState).1 ⟨rfl, rfl⟩]
  rfl

/-- C18. `ChangeRoot` handler and procedure, for a message whose first field is
`ChangeRoot`: the handler runs procedure `changeRoot`.  If the edge of
`bestNode` is `BRANCH`, the one message sent is `ChangeRoot,` to `bestNode` and
the state is unchanged.  Otherwise the edge of `bestNode` becomes `BRANCH`, the
one message sent is `Connect,levelNode` to `bestNode`, and no other field and
no other edge changes. -/
theorem C18_changeRoot (order : MapOrder) (node : yamlConfig) (st : NodeState)
    (j message : String) (rest : List String)
    (hsplit : strings_Split message = "ChangeRoot" :: rest) :
    server_step order node st j message = Except.ok (changeRoot node st) ∧
    (edgeGet st.statusEdge st.bestNode = BRANCH →
      changeRoot node st = (st, [⟨"ChangeRoot,", node.Address, st.bestNode⟩])) ∧
    (edgeGet st.statusEdge st.bestNode ≠ BRANCH →
      changeRoot node st =
        ({ st with statusEdge := mapSet st.statusEdge st.bestNode BRANCH },
          [⟨"Connect," ++ Itoa st.levelNode, node.Address, st.bestNode⟩]) ∧
      edgeGet (mapSet st.statusEdge st.bestNode BRANCH) st.bestNode = BRANCH ∧
      ∀ k, k ≠ st.bestNode →
        edgeGet (mapSet st.statusEdge st.bestNode BRANCH) k = edgeGet st.statusEdge k) := by
  refine ⟨server_step_ChangeRoot order node st j message rest hsplit, ?_, ?_⟩
  · intro h
    simp [changeRoot, h]
  · intro h
    refine ⟨by simp [changeRoot, h], edgeGet_mapSet_same _ _ _, ?_⟩
    intro k hk
    exact edgeGet_mapSet_other _ _ _ _ hk

/-- Witness of C18: `ChangeRoot,` from `b` with `bestNode = "c"`, whose edge is
`BASIC`, marks edge `c` `BRANCH` and sends `Connect,2` to `c`. -/
theorem C18_changeRoot_witness :
    strings_Split "ChangeRoot," = "ChangeRoot" :: [""] ∧
    server_step id exampleNode { exampleState with bestNode := "c", bestWt := 3 } "b"
        "ChangeRoot," =
      Except.ok
        ({ exampleState with bestNode := "c", bestWt := 3,
                             statusEdge := [("b", BRANCH), ("c", BRANCH)] },
          [⟨"Connect,2", "a", "c"⟩]) := by
  refine ⟨by decide, ?_⟩
  rw [(C18_changeRoot id exampleNode { exampleState with bestNode := "c", bestWt := 3 } "b"
    "ChangeRoot," [""] (by decide)).1]
  rfl

/-- C19. Round trip of the eight messages.  For integers `l`, `f`, `w` of the
range of `int` (among them the initial fragment -1 and `INFINITY`) and a state
token `Find` or `Found`, the text the sender builds splits into its fields,
`strconv.Atoi` reads each printed integer back without error, and the
iteration runs the handler of the same type with exactly these integers and
this state token. -/
theorem C19_round_trip (order : MapOrder) (node : yamlConfig) (st : NodeState) (j : String)
    (l f w : Int) (state : String)
    (hl : -9223372036854775808 ≤ l ∧ l ≤ INFINITY)
    (hf : -9223372036854775808 ≤ f ∧ f ≤ INFINITY)
    (hw : -9223372036854775808 ≤ w ∧ w ≤ INFINITY)
    (hstate : state = FIND ∨ state = FOUND) :
    Atoi (Itoa l) = (l, false) ∧ Atoi (Itoa f) = (f, false) ∧ Atoi (Itoa w) = (w, false) ∧
    strings_Split ("Connect," ++ Itoa l) = ["Connect", Itoa l] ∧
    server_step order node st j ("Connect," ++ Itoa l) =
      server_Connect node st j ("Connect," ++ Itoa l) l ∧
    strings_Split ("Initiate," ++ Itoa l ++ "," ++ Itoa f ++ "," ++ state) =
      ["Initiate", Itoa l, Itoa f, state] ∧
    server_step order node st j ("Initiate," ++ Itoa l ++ "," ++ Itoa f ++ "," ++ state) =
      Except.ok (server_Initiate order node st j l f state) ∧
    strings_Split ("Test," ++ Itoa l ++ "," ++ Itoa f) = ["Test", Itoa l, Itoa f] ∧
    server_step order node st j ("Test," ++ Itoa l ++ "," ++ Itoa f) =
      Except.ok (server_Test order node st j ("Test," ++ Itoa l ++ "," ++ Itoa f) l f) ∧
    server_step order node st j "Accept" = server_Accept node st j ∧
    server_step order node st j "Reject" = Except.ok (server_Reject order node st j) ∧
    strings_Split ("Report," ++ Itoa w) = ["Report", Itoa w] ∧
    server_step order node st j ("Report," ++ Itoa w) =
      Except.ok (server_Report node st j ("Report," ++ Itoa w) w) ∧
    server_step order node st j "ChangeRoot," = Except.ok (changeRoot node st) ∧
    server_step order node st j "Stop" = Except.ok ({ st with terminated := true }, []) := by
  have hal := Atoi_Itoa l hl.1 hl.2
  have haf := Atoi_Itoa f hf.1 hf.2
  have haw := Atoi_Itoa w hw.1 hw.2
  have hsc : ∀ c ∈ state.data, c ≠ ',' := by
    rcases hstate with h | h <;> rw [h] <;> decide
  have hC := strings_Split_Connect l
  have hI := strings_Split_Initiate l f state hsc
  have hT := strings_Split_Test l f
  have hR := strings_Split_Report w
  refine ⟨hal, haf, haw, hC, ?_, hI, ?_, hT, ?_, ?_, ?_, hR, ?_, ?_, ?_⟩
  · rw [server_step_Connect order node st j _ _ _ hC, hal]
  · rw [server_step_Initiate order node st j _ _ _ _ _ hI, hal, haf]
  · rw [server_step_Test order node st j _ _ _ _ hT, hal, haf]
  · have hs : strings_Split "Accept" = ["Accept"] := by decide
    simp [server_step, hs, index]
  · have hs : strings_Split "Reject" = ["Reject"] := by decide
    simp [server_step, hs, index]
  · rw [server_step_Report order node st j _ _ _ hR, haw]
  · exact server_step_ChangeRoot order node st j "ChangeRoot," [""] (by decide)
  · have hs : strings_Split "Stop" = ["Stop"] := by decide
    simp [server_step, hs, index]

/-- Witness of C19: level 1, the initial fragment -1, the weight `INFINITY`, state
`Find`; the `Test,1,-1` built from them is deferred by `exampleNode` at level 0. -/
theorem C19_round_trip_witness :
    Atoi (Itoa (-1)) = (-1, false) ∧ Atoi (Itoa INFINITY) = (INFINITY, false) ∧
    strings_Split ("Initiate," ++ Itoa 1 ++ "," ++ Itoa (-1) ++ "," ++ FIND) =
      ["Initiate", "1", "-1", "Find"] ∧
    server_step id exampleNode (wakeUp exampleNode (initState exampleNode)).1 "b"
        ("Test," ++ Itoa 1 ++ "," ++ Itoa (-1)) =
      Except.ok ((wakeUp exampleNode (initState exampleNode)).1, [⟨"Test,1,-1", "b", "a"⟩]) := by
  have h := C19_round_trip id exampleNode (wakeUp exampleNode (initState exampleNode)).1 "b"
    1 (-1) INFINITY FIND (by decide) (by decide) (by decide) (Or.inl rfl)
  refine ⟨h.2.1, h.2.2.1, h.2.2.2.2.2.1, ?_⟩
  rw [h.2.2.2.2.2.2.2.2.1]
  rfl

/-- C20. Best-edge invariant `BestEdgeInv`: `bestWt < INFINITY` implies that
`bestNode` is the address, not empty, of a neighbour entry.  It holds after
every handled `Initiate`, which leaves `bestWt = INFINITY`; every handled
message from a neighbour with a non-empty address keeps it, and so does the
receive loop on any sequence of such messages.  Hence, when the handler of
`Report` runs procedure `changeRoot` (message from `parent`, `state` not `FIND`,
`w > bestWt`), `bestNode` is such an address: the one message sent, `ChangeRoot,`
or `Connect,levelNode`, goes to it, and the only edge whose status can change is
the edge of that neighbour. -/
theorem C20_best_edge_invariant :
    (∀ (order : MapOrder) (node : yamlConfig) (st : NodeState) (j message a b S : String)
        (rest : List String) (r : NodeState × List Packet),
      strings_Split message = "Initiate" :: a :: b :: S :: rest →
      server_step order node st j message = Except.ok r →
      r.1.bestWt = INFINITY ∧ BestEdgeInv node r.1) ∧
    (∀ (order : MapOrder) (node : yamlConfig) (st : NodeState) (j message : String)
        (r : NodeState × List Packet),
      server_step order node st j message = Except.ok r →
      (j ∈ node.Neighbours.map Neighbour.Address ∧ j ≠ "") →
      BestEdgeInv node st → BestEdgeInv node r.1) ∧
    (∀ (node : yamlConfig) (inbox : List Delivery) (st st1 : NodeState) (out : List Packet)
        (left : List Delivery),
      (∀ d ∈ inbox, d.j ∈ node.Neighbours.map Neighbour.Address ∧ d.j ≠ "") →
      BestEdgeInv node st →
      server_loop node st inbox = Except.ok (st1, out, left) →
      BestEdgeInv node st1) ∧
    (∀ (order : MapOrder) (node : yamlConfig) (st : NodeState) (j message a : String)
        (rest : List String),
      BestEdgeInv node st →
      strings_Split message = "Report" :: a :: rest →
      j = st.parent → st.state ≠ FIND → (Atoi a).1 > st.bestWt →
      server_step order node st j message = Except.ok (changeRoot node st) ∧
      st.bestNode ∈ node.Neighbours.map Neighbour.Address ∧ st.bestNode ≠ "" ∧
      (∀ p ∈ (changeRoot node st).2, p.neighAddress = st.bestNode ∧
        (p.message = "ChangeRoot," ∨ p.message = "Connect," ++ Itoa st.levelNode)) ∧
      (∀ k, edgeGet (changeRoot node st).1.statusEdge k ≠ edgeGet st.statusEdge k →
        k = st.bestNode)) := by
  refine ⟨?_, server_step_BestEdgeInv, ?_, ?_⟩
  · intro order node st j message a b S rest r hs hstep
    rw [server_step_Initiate order node st j message a b S rest hs] at hstep
    cases hstep
    have hb := server_Initiate_bestWt order node st j (Atoi a).1 (Atoi b).1 S
    refine ⟨hb, ?_⟩
    intro hlt
    rw [hb] at hlt
    exact absurd hlt (lt_irrefl _)
  · intro node inbox st st1 out left hsend hinv hloop
    exact server_loop_BestEdgeInv node inbox st st1 out left hsend hinv hloop
  · intro order node st j message a rest hinv hs hj hst hw
    have hlt : st.bestWt < INFINITY := lt_of_lt_of_le hw (Atoi_le_INFINITY a)
    obtain ⟨hmem, hne⟩ := hinv hlt
    refine ⟨?_, hmem, hne, ?_, ?_⟩
    · rw [server_step_Report order node st j message a rest hs]
      simp [server_Report, hj, hst, hw]
    · intro p hp
      unfold changeRoot at hp
      split at hp
      · simp only [List.mem_singleton] at hp
        subst hp
        exact ⟨rfl, Or.inl rfl⟩
      · simp only [List.mem_singleton] at hp
        subst hp
        exact ⟨rfl, Or.inr rfl⟩
    · intro k hk
      by_contra hkne
      apply hk
      rcases changeRoot_statusEdge node st with h | h
      · rw [h]
      · rw [h]
        exact edgeGet_mapSet_other _ _ _ _ hkne

/-- Witness of C20: from `exampleState` (`bestWt = INFINITY`), `Accept` from `c`
sets `bestNode = "c"`, `bestWt = 3`; then `Report,5` from the parent `b` runs
`changeRoot`, which marks edge `c` `BRANCH` and sends `Connect,2` to `c`. -/
theorem C20_best_edge_invariant_witness :
    server_loop exampleNode exampleState [⟨"c", "Accept", id⟩, ⟨"b", "Report,5", id⟩] =
      Except.ok
        ({ exampleState with bestNode := "c", bestWt := 3,
                             statusEdge := [("b", BRANCH), ("c", BRANCH)] },
          [⟨"Report,3", "a", "b"⟩, ⟨"Connect,2", "a", "c"⟩], []) ∧
    BestEdgeInv exampleNode
      { exampleState with bestNode := "c", bestWt := 3,
                          statusEdge := [("b", BRANCH), ("c", BRANCH)] } := by
  refine ⟨rfl, ?_⟩
  exact C20_best_edge_invariant.2.2.1 exampleNode
    [⟨"c", "Accept", id⟩, ⟨"b", "Report,5", id⟩] exampleState _ _ _
    (by
      intro d hd
      simp only [List.mem_cons, List.mem_singleton, List.not_mem_nil, or_false] at hd
      rcases hd with rfl | rfl <;> exact ⟨by decide, by decide⟩)
    (fun h => absurd h (by decide)) rfl

end GHS
